import Mathlib

/-!
# GEOSX: compositional multiphase finite-volume flux kernel and solution check

A shallow embedding of

* `CompositionalMultiphaseFVMKernels::FluxKernel::Compute`
  (`coreComponents/physicsSolvers/fluidFlow/CompositionalMultiphaseFVMKernels.hpp`),
* `CompositionalMultiphaseFVM::CheckSystemSolution` and `CalculateResidualNorm`
  (`coreComponents/physicsSolvers/fluidFlow/CompositionalMultiphaseFVM.cpp`),
* the constructor and `MakeTable` of `BrineCO2DensityFunction`
  (`coreComponents/constitutive/Fluid/PVTFunctions/BrineCO2DensityFunction.cpp`),
* `PyGroup_getGroup` and `PyGroup_getWrapper` (`pygeosx/PyGroup.cpp`),
* `SolidMechanicsLagrangianSSLEKernels::stressUpdate`
  (`coreComponents/physicsSolvers/solidMechanics/SolidMechanicsLagrangianSSLEKernels.hpp`),
* `FlowProppantTransportSolver::SolverStep`
  (`coreComponents/physicsSolvers/multiphysics/FlowProppantTransportSolver.cpp`),

followed by theorems about them.

Conventions of the embedding.

* `real64` is modelled by the exact rationals `ℚ`: every statement below is a statement of
  exact arithmetic (no rounding, no infinities, no NaN).
* `localIndex` values that are used as sizes and array positions are natural numbers.
* An array that the code only reads (a view, a slice of a view) is a total function from its
  indices to its entries. An array that the code writes (a stack array, an output slice) is
  such a function wrapped in `array1d`, `array2d` or `array3d`; a write `a[i] = v` is
  `set1 a i v`, and similarly for two and three indices.
* A counted loop `for( localIndex i = 0; i < n; ++i )` is `forLoop n body`, which runs
  `body 0`, `body 1`, ..., `body (n-1)` in this order on an explicit state.
* A `while` loop is a function with a bound on the number of tests of its condition, which
  returns `none` when the bound is reached before the loop ends.
-/

namespace geosx

/-- The C++ type `real64`, in exact arithmetic. -/
abbrev real64 := ℚ

/-- Counted loop `for( localIndex i = 0; i < n; ++i ) { body }` on an explicit state. -/
def forLoop {σ : Type} : Nat → (Nat → σ → σ) → σ → σ
  | 0, _, s => s
  | n + 1, body, s => body n (forLoop n body s)

/-- A one-dimensional array of `real64` that the code writes to. -/
structure array1d where
  get : Nat → real64

/-- A two-dimensional array of `real64` that the code writes to. -/
structure array2d where
  get : Nat → Nat → real64

/-- A three-dimensional array of `real64` that the code writes to. -/
structure array3d where
  get : Nat → Nat → Nat → real64

instance : CoeFun array1d (fun _ => Nat → real64) := ⟨array1d.get⟩

instance : CoeFun array2d (fun _ => Nat → Nat → real64) := ⟨array2d.get⟩

instance : CoeFun array3d (fun _ => Nat → Nat → Nat → real64) := ⟨array3d.get⟩

/-- Write `a[i] = v` on a one-dimensional array. -/
def set1 (a : array1d) (i : Nat) (v : real64) : array1d :=
  ⟨fun k => if k = i then v else a k⟩

/-- Write `a[i][j] = v` on a two-dimensional array. -/
def set2 (a : array2d) (i j : Nat) (v : real64) : array2d :=
  ⟨fun k l => if k = i ∧ l = j then v else a k l⟩

/-- Write `a[i][j][m] = v` on a three-dimensional array. -/
def set3 (a : array3d) (i j m : Nat) (v : real64) : array3d :=
  ⟨fun k l n => if k = i ∧ l = j ∧ n = m then v else a k l n⟩

/-! ## FluxKernel::Compute -/

namespace FluxKernel

/-- Modelled from the spec: `CellElementStencilTPFA::NUM_POINT_IN_FLUX` is declared outside the
sources at hand; the specification fixes "exactly two primary cells" per connection. -/
def numElems : Nat := 2

/-- Modelled from the spec: `applyChainRule( N, dy_dx, df_dy, df_dx )` is declared outside the
sources at hand. It converts a derivative with respect to composition fractions into one with
respect to component densities by the chain rule: `df_dx[i] = sum_j df_dy[j] * dy_dx[j][i]`
for `i < N`. Only the entries `i < N` of the result are ever read by the kernel. -/
def applyChainRule (N : Nat) (dy_dx : Nat → Nat → real64) (df_dy : Nat → real64) :
    Nat → real64 :=
  fun i => forLoop N (fun j acc => acc + df_dy j * dy_dx j i) 0

/-- The arguments of `FluxKernel::Compute` other than the two output buffers.
An `ElementView` is indexed by region, sub-region and element (then by the array's own
indices); a `MaterialView` is indexed by region, sub-region, constitutive model, element,
quadrature point (then by the array's own indices). -/
structure Input where
  /-- number of components -/
  NC : Nat
  /-- number of phases -/
  NP : Nat
  stencilSize : Nat
  seri : Nat → Nat
  sesri : Nat → Nat
  sei : Nat → Nat
  stencilWeights : Nat → real64
  pres : Nat → Nat → Nat → real64
  dPres : Nat → Nat → Nat → real64
  gravCoef : Nat → Nat → Nat → real64
  phaseMob : Nat → Nat → Nat → Nat → real64
  dPhaseMob_dPres : Nat → Nat → Nat → Nat → real64
  dPhaseMob_dComp : Nat → Nat → Nat → Nat → Nat → real64
  dPhaseVolFrac_dPres : Nat → Nat → Nat → Nat → real64
  dPhaseVolFrac_dComp : Nat → Nat → Nat → Nat → Nat → real64
  dCompFrac_dCompDens : Nat → Nat → Nat → Nat → Nat → real64
  phaseDens : Nat → Nat → Nat → Nat → Nat → Nat → real64
  dPhaseDens_dPres : Nat → Nat → Nat → Nat → Nat → Nat → real64
  dPhaseDens_dComp : Nat → Nat → Nat → Nat → Nat → Nat → Nat → real64
  phaseCompFrac : Nat → Nat → Nat → Nat → Nat → Nat → Nat → real64
  dPhaseCompFrac_dPres : Nat → Nat → Nat → Nat → Nat → Nat → Nat → real64
  dPhaseCompFrac_dComp : Nat → Nat → Nat → Nat → Nat → Nat → Nat → Nat → real64
  phaseCapPressure : Nat → Nat → Nat → Nat → Nat → Nat → real64
  dPhaseCapPressure_dPhaseVolFrac : Nat → Nat → Nat → Nat → Nat → Nat → Nat → real64
  fluidIndex : Nat
  capPressureIndex : Nat
  /-- a C++ `integer` used as a condition: non-zero means "on" -/
  capPressureFlag : Int
  dt : real64

/-- The two output buffers `localFlux` and `localFluxJacobian`. -/
structure Output where
  localFlux : array1d
  localFluxJacobian : array2d

/-- Work variables `densMean`, `dDensMean_dP`, `dDensMean_dC`. -/
structure MeanDensity where
  densMean : real64
  dDensMean_dP : array1d
  dDensMean_dC : array2d

/-- Work variables `capPressure`, `dCapPressure_dP`, `dCapPressure_dC`. -/
structure CapPressure where
  capPressure : real64
  dCapPressure_dP : real64
  dCapPressure_dC : array1d

/-- Work variables `presGrad`, `dPresGrad_dP`, `dPresGrad_dC`, `gravHead`, `dGravHead_dP`,
`dGravHead_dC`. -/
structure Potential where
  presGrad : real64
  dPresGrad_dP : array1d
  dPresGrad_dC : array2d
  gravHead : real64
  dGravHead_dP : array1d
  dGravHead_dC : array2d

/-- Work arrays `dPhaseFlux_dP`, `dPhaseFlux_dC`. -/
structure PhaseFluxDeriv where
  dPhaseFlux_dP : array1d
  dPhaseFlux_dC : array2d

/-- Work arrays `compFlux`, `dCompFlux_dP`, `dCompFlux_dC`, which live across the phase loop. -/
structure CompFlux where
  compFlux : array1d
  dCompFlux_dP : array2d
  dCompFlux_dC : array3d

/-- Body of the loop "calculate quantities on primary connected cells" (source lines 157-181),
for phase `ip` and primary cell `i`. -/
def primaryCell (inp : Input) (ip i : Nat) (s : MeanDensity) : MeanDensity :=
  let er := inp.seri i
  let esr := inp.sesri i
  let ei := inp.sei i
  let density := inp.phaseDens er esr inp.fluidIndex ei 0 ip
  let dDens_dP := inp.dPhaseDens_dPres er esr inp.fluidIndex ei 0 ip
  let dDens_dC := applyChainRule inp.NC (inp.dCompFrac_dCompDens er esr ei)
    (inp.dPhaseDens_dComp er esr inp.fluidIndex ei 0 ip)
  { densMean := s.densMean + 0.5 * density
    dDensMean_dP := set1 s.dDensMean_dP i (0.5 * dDens_dP)
    dDensMean_dC := forLoop inp.NC (fun jc a => set2 a i jc (0.5 * dDens_dC jc)) s.dDensMean_dC }

/-- Mean phase density over the primary cells and its derivatives (source lines 140-142 and
157-181). -/
def meanDensity (inp : Input) (ip : Nat) : MeanDensity :=
  forLoop numElems (primaryCell inp ip) ⟨0, ⟨fun _ => 0⟩, ⟨fun _ _ => 0⟩⟩

/-- Capillary pressure of phase `ip` at stencil position `i` and its derivatives (source lines
193-212). -/
def capillary (inp : Input) (ip i : Nat) : CapPressure :=
  let er := inp.seri i
  let esr := inp.sesri i
  let ei := inp.sei i
  let s0 : CapPressure := ⟨0, 0, ⟨fun _ => 0⟩⟩
  if inp.capPressureFlag ≠ 0 then
    forLoop inp.NP
      (fun jp s =>
        let dCapPressure_dS :=
          inp.dPhaseCapPressure_dPhaseVolFrac er esr inp.capPressureIndex ei 0 ip jp
        { s with
          dCapPressure_dP := s.dCapPressure_dP + dCapPressure_dS * inp.dPhaseVolFrac_dPres er esr ei jp
          dCapPressure_dC := forLoop inp.NC
            (fun jc a => set1 a jc (a jc + dCapPressure_dS * inp.dPhaseVolFrac_dComp er esr ei jp jc))
            s.dCapPressure_dC })
      { s0 with capPressure := inp.phaseCapPressure er esr inp.capPressureIndex ei 0 ip }
  else s0

/-- Body of the loop "compute potential difference MPFA-style" (source lines 186-233), for
phase `ip` and stencil position `i`. -/
def potentialCell (inp : Input) (ip : Nat) (dm : MeanDensity) (i : Nat) (s : Potential) :
    Potential :=
  let er := inp.seri i
  let esr := inp.sesri i
  let ei := inp.sei i
  let weight := inp.stencilWeights i
  let cp := capillary inp ip i
  let gravD := weight * inp.gravCoef er esr ei
  let grav := forLoop numElems
    (fun j (g : array1d × array2d) =>
      (set1 g.1 j (g.1 j + dm.dDensMean_dP j * gravD),
       forLoop inp.NC (fun jc a => set2 a j jc (a j jc + dm.dDensMean_dC j jc * gravD)) g.2))
    (s.dGravHead_dP, s.dGravHead_dC)
  { presGrad := s.presGrad + weight * (inp.pres er esr ei + inp.dPres er esr ei - cp.capPressure)
    dPresGrad_dP := set1 s.dPresGrad_dP i (s.dPresGrad_dP i + weight * (1 - cp.dCapPressure_dP))
    dPresGrad_dC := forLoop inp.NC
      (fun jc a => set2 a i jc (a i jc + -weight * cp.dCapPressure_dC jc)) s.dPresGrad_dC
    gravHead := s.gravHead + dm.densMean * gravD
    dGravHead_dP := grav.1
    dGravHead_dC := grav.2 }

/-- Pressure gradient and gravity head of phase `ip` with their derivatives (source lines
144-150 and 186-233). -/
def potential (inp : Input) (ip : Nat) : Potential :=
  forLoop inp.stencilSize (potentialCell inp ip (meanDensity inp ip))
    ⟨0, ⟨fun _ => 0⟩, ⟨fun _ _ => 0⟩, 0, ⟨fun _ => 0⟩, ⟨fun _ _ => 0⟩⟩

/-- Phase potential gradient `potGrad = presGrad - gravHead` (source line 241). -/
def potGrad (inp : Input) (ip : Nat) : real64 :=
  (potential inp ip).presGrad - (potential inp ip).gravHead

/-- Upstream stencil position `k_up = (potGrad >= 0) ? 0 : 1` (source line 244). -/
def k_up (inp : Input) (ip : Nat) : Nat :=
  if potGrad inp ip ≥ 0 then 0 else 1

/-- Upstream mobility `phaseMob[er_up][esr_up][ei_up][ip]` (source lines 246-250). -/
def mobility (inp : Input) (ip : Nat) : real64 :=
  inp.phaseMob (inp.seri (k_up inp ip)) (inp.sesri (k_up inp ip)) (inp.sei (k_up inp ip)) ip

/-- Derivatives of the phase flux of a phase that is not skipped (source lines 153-154 and
258-298). -/
def phaseFluxDeriv (inp : Input) (ip : Nat) : PhaseFluxDeriv :=
  let pot := potential inp ip
  let potGrad := potGrad inp ip
  let k_up := k_up inp ip
  let er_up := inp.seri k_up
  let esr_up := inp.sesri k_up
  let ei_up := inp.sei k_up
  let mobility := mobility inp ip
  -- pressure gradient depends on all points in the stencil
  let pf1 := forLoop inp.stencilSize
    (fun ke (pf : PhaseFluxDeriv) =>
      { dPhaseFlux_dP := set1 pf.dPhaseFlux_dP ke (pf.dPhaseFlux_dP ke + pot.dPresGrad_dP ke)
        dPhaseFlux_dC := forLoop inp.NC
          (fun jc a => set2 a ke jc (a ke jc + pot.dPresGrad_dC ke jc)) pf.dPhaseFlux_dC })
    ⟨⟨fun _ => 0⟩, ⟨fun _ _ => 0⟩⟩
  -- gravitational head depends only on the two cells connected
  let pf2 := forLoop numElems
    (fun ke (pf : PhaseFluxDeriv) =>
      { dPhaseFlux_dP := set1 pf.dPhaseFlux_dP ke (pf.dPhaseFlux_dP ke - pot.dGravHead_dP ke)
        dPhaseFlux_dC := forLoop inp.NC
          (fun jc a => set2 a ke jc (a ke jc - pot.dGravHead_dC ke jc)) pf.dPhaseFlux_dC })
    pf1
  -- derivatives using upstream cell mobility
  let pf3 := forLoop inp.stencilSize
    (fun ke (pf : PhaseFluxDeriv) =>
      { dPhaseFlux_dP := set1 pf.dPhaseFlux_dP ke (pf.dPhaseFlux_dP ke * mobility)
        dPhaseFlux_dC := forLoop inp.NC
          (fun jc a => set2 a ke jc (a ke jc * mobility)) pf.dPhaseFlux_dC })
    pf2
  let dMob_dP := inp.dPhaseMob_dPres er_up esr_up ei_up ip
  let dPhaseMob_dCompSub := inp.dPhaseMob_dComp er_up esr_up ei_up ip
  -- contribution from upstream cell mobility derivatives
  { dPhaseFlux_dP := set1 pf3.dPhaseFlux_dP k_up (pf3.dPhaseFlux_dP k_up + dMob_dP * potGrad)
    dPhaseFlux_dC := forLoop inp.NC
      (fun jc a => set2 a k_up jc (a k_up jc + dPhaseMob_dCompSub jc * potGrad))
      pf3.dPhaseFlux_dC }

/-- Phase flux `phaseFlux = mobility * potGrad` (source line 280). -/
def phaseFlux (inp : Input) (ip : Nat) : real64 :=
  mobility inp ip * potGrad inp ip

/-- Body of the loop "compute component fluxes and derivatives using upstream cell composition"
(source lines 306-331), for phase `ip` and component `ic`. -/
def componentBody (inp : Input) (ip : Nat) (ic : Nat) (s : CompFlux) : CompFlux :=
  let k_up := k_up inp ip
  let er_up := inp.seri k_up
  let esr_up := inp.sesri k_up
  let ei_up := inp.sei k_up
  let phaseFlux := phaseFlux inp ip
  let pf := phaseFluxDeriv inp ip
  let phaseCompFracSub := inp.phaseCompFrac er_up esr_up inp.fluidIndex ei_up 0 ip
  let dPhaseCompFrac_dPresSub := inp.dPhaseCompFrac_dPres er_up esr_up inp.fluidIndex ei_up 0 ip
  let dPhaseCompFrac_dCompSub := inp.dPhaseCompFrac_dComp er_up esr_up inp.fluidIndex ei_up 0 ip
  let ycp := phaseCompFracSub ic
  let compFlux := set1 s.compFlux ic (s.compFlux ic + phaseFlux * ycp)
  -- derivatives stemming from phase flux
  let d := forLoop inp.stencilSize
    (fun ke (d : array2d × array3d) =>
      (set2 d.1 ke ic (d.1 ke ic + pf.dPhaseFlux_dP ke * ycp),
       forLoop inp.NC
         (fun jc a => set3 a ke ic jc (a ke ic jc + pf.dPhaseFlux_dC ke jc * ycp)) d.2))
    (s.dCompFlux_dP, s.dCompFlux_dC)
  -- additional derivatives stemming from upstream cell phase composition
  let dCompFlux_dP := set2 d.1 k_up ic (d.1 k_up ic + phaseFlux * dPhaseCompFrac_dPresSub ic)
  let dPhaseCompFrac_dCompDens :=
    applyChainRule inp.NC (inp.dCompFrac_dCompDens er_up esr_up ei_up) (dPhaseCompFrac_dCompSub ic)
  let dCompFlux_dC := forLoop inp.NC
    (fun jc a => set3 a k_up ic jc (a k_up ic jc + phaseFlux * dPhaseCompFrac_dCompDens jc)) d.2
  { compFlux := compFlux, dCompFlux_dP := dCompFlux_dP, dCompFlux_dC := dCompFlux_dC }

/-- Body of the loop over phases (source lines 137-332): a phase whose upstream mobility is
below the threshold is skipped (`continue`), otherwise its contribution is added to the
component fluxes and their derivatives. -/
def phaseBody (inp : Input) (ip : Nat) (s : CompFlux) : CompFlux :=
  if |mobility inp ip| < 1e-20 then s
  else forLoop inp.NC (componentBody inp ip) s

/-- Reset of the output buffers (source lines 127-134). -/
def resetOutput (inp : Input) (out : Output) : Output :=
  forLoop (numElems * inp.NC)
    (fun i (o : Output) =>
      { localFlux := set1 o.localFlux i 0
        localFluxJacobian := forLoop (inp.stencilSize * (inp.NC + 1))
          (fun j a => set2 a i j 0) o.localFluxJacobian })
    out

/-- Body of the loop "populate local flux vector and derivatives" (source lines 337-355), for
component `ic`. -/
def populateComponent (inp : Input) (cf : CompFlux) (ic : Nat) (o : Output) : Output :=
  let NDOF := inp.NC + 1
  { localFlux :=
      set1 (set1 o.localFlux ic (inp.dt * cf.compFlux ic)) (inp.NC + ic)
        (-inp.dt * cf.compFlux ic)
    localFluxJacobian := forLoop inp.stencilSize
      (fun ke J =>
        let localDofIndexPres := ke * NDOF
        let J1 := set2 J ic localDofIndexPres (inp.dt * cf.dCompFlux_dP ke ic)
        let J2 := set2 J1 (inp.NC + ic) localDofIndexPres (-inp.dt * cf.dCompFlux_dP ke ic)
        forLoop inp.NC
          (fun jc J =>
            let localDofIndexComp := localDofIndexPres + jc + 1
            set2 (set2 J ic localDofIndexComp (inp.dt * cf.dCompFlux_dC ke ic jc))
              (inp.NC + ic) localDofIndexComp (-inp.dt * cf.dCompFlux_dC ke ic jc))
          J2)
      o.localFluxJacobian }

/-- The loop "populate local flux vector and derivatives" (source lines 337-355). -/
def populate (inp : Input) (cf : CompFlux) (out : Output) : Output :=
  forLoop inp.NC (populateComponent inp cf) out

/-- The component fluxes and their derivatives after the loop over phases (source lines
123-125 and 137-332). -/
def compFluxes (inp : Input) : CompFlux :=
  forLoop inp.NP (phaseBody inp) ⟨⟨fun _ => 0⟩, ⟨fun _ _ => 0⟩, ⟨fun _ _ _ => 0⟩⟩

/-- `FluxKernel::Compute`: `out` holds the contents of `localFlux` and `localFluxJacobian`
before the call, the result holds their contents after it. -/
def Compute (inp : Input) (out : Output) : Output :=
  populate inp (compFluxes inp) (resetOutput inp out)

/-- Derivative of the flux of component `ic` with respect to degree of freedom `d` of stencil
cell `ke`, as held by the work arrays: pressure for `d = 0`, the density of component `d - 1`
otherwise. -/
def CompFlux.deriv (cf : CompFlux) (ke ic d : Nat) : real64 :=
  if d = 0 then cf.dCompFlux_dP ke ic else cf.dCompFlux_dC ke ic (d - 1)

/-- What a phase that is not skipped adds to `compFlux[ic]` (source line 309). -/
def compFluxTerm (inp : Input) (ip ic : Nat) : real64 :=
  phaseFlux inp ip * inp.phaseCompFrac (inp.seri (k_up inp ip)) (inp.sesri (k_up inp ip))
    inp.fluidIndex (inp.sei (k_up inp ip)) 0 ip ic

/-- What a phase that is not skipped adds to `dCompFlux_dP[ke][ic]` (source lines 314 and
322). -/
def dCompFlux_dP_term (inp : Input) (ip ke ic : Nat) : real64 :=
  (if ke < inp.stencilSize
    then (phaseFluxDeriv inp ip).dPhaseFlux_dP ke
      * inp.phaseCompFrac (inp.seri (k_up inp ip)) (inp.sesri (k_up inp ip))
          inp.fluidIndex (inp.sei (k_up inp ip)) 0 ip ic
    else 0)
  + (if ke = k_up inp ip
    then phaseFlux inp ip
      * inp.dPhaseCompFrac_dPres (inp.seri (k_up inp ip)) (inp.sesri (k_up inp ip))
          inp.fluidIndex (inp.sei (k_up inp ip)) 0 ip ic
    else 0)

/-- What a phase that is not skipped adds to `dCompFlux_dC[ke][ic][jc]` (source lines 317 and
329). -/
def dCompFlux_dC_term (inp : Input) (ip ke ic jc : Nat) : real64 :=
  (if ke < inp.stencilSize ∧ jc < inp.NC
    then (phaseFluxDeriv inp ip).dPhaseFlux_dC ke jc
      * inp.phaseCompFrac (inp.seri (k_up inp ip)) (inp.sesri (k_up inp ip))
          inp.fluidIndex (inp.sei (k_up inp ip)) 0 ip ic
    else 0)
  + (if ke = k_up inp ip ∧ jc < inp.NC
    then phaseFlux inp ip
      * applyChainRule inp.NC
          (inp.dCompFrac_dCompDens (inp.seri (k_up inp ip)) (inp.sesri (k_up inp ip))
            (inp.sei (k_up inp ip)))
          (inp.dPhaseCompFrac_dComp (inp.seri (k_up inp ip)) (inp.sesri (k_up inp ip))
            inp.fluidIndex (inp.sei (k_up inp ip)) 0 ip ic) jc
    else 0)

/-- Whether phase `ip` is skipped: `std::fabs( mobility ) < 1e-20` (source line 253). -/
def skipped (inp : Input) (ip : Nat) : Prop :=
  |mobility inp ip| < 1e-20

instance (inp : Input) (ip : Nat) : Decidable (skipped inp ip) :=
  inferInstanceAs (Decidable (|mobility inp ip| < 1e-20))

/-- A buffer filled with zeros. -/
def Output.zero : Output := ⟨⟨fun _ => 0⟩, ⟨fun _ _ => 0⟩⟩

/-- The concrete two-cell scenario: two cells `0` and `1` of one sub-region, two components,
one phase, pressures `[100, 90]`, weights `[1, -1]`, no gravity, no capillary pressure, the same
composition in both cells, mobility `2`, time step `1`, all property derivatives zero. -/
def scenario : Input where
  NC := 2
  NP := 1
  stencilSize := 2
  seri := fun _ => 0
  sesri := fun _ => 0
  sei := fun i => i
  stencilWeights := fun i => if i = 0 then 1 else -1
  pres := fun _ _ ei => if ei = 0 then 100 else 90
  dPres := fun _ _ _ => 0
  gravCoef := fun _ _ _ => 0
  phaseMob := fun _ _ _ _ => 2
  dPhaseMob_dPres := fun _ _ _ _ => 0
  dPhaseMob_dComp := fun _ _ _ _ _ => 0
  dPhaseVolFrac_dPres := fun _ _ _ _ => 0
  dPhaseVolFrac_dComp := fun _ _ _ _ _ => 0
  dCompFrac_dCompDens := fun _ _ _ _ _ => 0
  phaseDens := fun _ _ _ _ _ _ => 1
  dPhaseDens_dPres := fun _ _ _ _ _ _ => 0
  dPhaseDens_dComp := fun _ _ _ _ _ _ _ => 0
  phaseCompFrac := fun _ _ _ _ _ _ ic => if ic = 0 then 1 / 4 else 3 / 4
  dPhaseCompFrac_dPres := fun _ _ _ _ _ _ _ => 0
  dPhaseCompFrac_dComp := fun _ _ _ _ _ _ _ _ => 0
  phaseCapPressure := fun _ _ _ _ _ _ => 0
  dPhaseCapPressure_dPhaseVolFrac := fun _ _ _ _ _ _ _ => 0
  fluidIndex := 0
  capPressureIndex := 0
  capPressureFlag := 0
  dt := 1


/-- The loop over phases with phase `ip0` left out. This is not a function of the source: it
is the comparison object of the immobile-phase exclusion property. -/
def compFluxesPhaseLeftOut (inp : Input) (ip0 : Nat) : CompFlux :=
  forLoop inp.NP (fun ip s => if ip = ip0 then s else phaseBody inp ip s)
    ⟨⟨fun _ => 0⟩, ⟨fun _ _ => 0⟩, ⟨fun _ _ _ => 0⟩⟩

/-- `Compute` with phase `ip0` left out of the loop over phases. -/
def ComputePhaseLeftOut (inp : Input) (ip0 : Nat) (out : Output) : Output :=
  populate inp (compFluxesPhaseLeftOut inp ip0) (resetOutput inp out)


/-- Equilibrium of a two-cell connection: weights `(T, -T)`, the two primary cells have the
same pressure, the same pressure increment and, for every phase, the same capillary pressure,
and their gravity coefficients are zero. (That the remaining phase properties of the two cells
agree as well is not needed for the statements below.) -/
structure Equilibrium (inp : Input) : Prop where
  stencilSize_eq : inp.stencilSize = 2
  weights : inp.stencilWeights 1 = -inp.stencilWeights 0
  pres_eq : inp.pres (inp.seri 1) (inp.sesri 1) (inp.sei 1)
    = inp.pres (inp.seri 0) (inp.sesri 0) (inp.sei 0)
  dPres_eq : inp.dPres (inp.seri 1) (inp.sesri 1) (inp.sei 1)
    = inp.dPres (inp.seri 0) (inp.sesri 0) (inp.sei 0)
  capPressure_eq : ∀ ip,
    inp.phaseCapPressure (inp.seri 1) (inp.sesri 1) inp.capPressureIndex (inp.sei 1) 0 ip
      = inp.phaseCapPressure (inp.seri 0) (inp.sesri 0) inp.capPressureIndex (inp.sei 0) 0 ip
  gravCoef_fst : inp.gravCoef (inp.seri 0) (inp.sesri 0) (inp.sei 0) = 0
  gravCoef_snd : inp.gravCoef (inp.seri 1) (inp.sesri 1) (inp.sei 1) = 0

/-- The concrete scenario put at equilibrium: both pressures `100`, capillary pressure switched
on and equal to `3` in both cells. -/
def equilibriumScenario : Input :=
  { scenario with
    pres := fun _ _ _ => 100
    capPressureFlag := 1
    phaseCapPressure := fun _ _ _ _ _ _ => 3 }


/-- Exchange of the two primary stencil positions. -/
def swapPrimary (i : Nat) : Nat :=
  if i = 0 then 1 else if i = 1 then 0 else i

/-- The reversed connection: the two primary cells are listed in the opposite order (so all
per-cell data seen at positions `0` and `1` are exchanged) and the weights stay `(T, -T)` by
position, so that the weight attached to each cell is negated. This is not a function of the
source: it is the transformation of the upwind-symmetry property. -/
def reverseConnection (inp : Input) : Input :=
  { inp with
    seri := fun i => inp.seri (swapPrimary i)
    sesri := fun i => inp.sesri (swapPrimary i)
    sei := fun i => inp.sei (swapPrimary i) }


/-- The situation of the concrete two-cell scenario, for arbitrary values: one phase, a two-cell
connection with weights `(1, -1)`, zero gravity coefficients, capillary flag off, and the total
pressure `pres + dPres` of cell `0` greater than that of cell `1`. -/
structure SinglePhaseTwoCell (inp : Input) : Prop where
  NP_eq : inp.NP = 1
  stencilSize_eq : inp.stencilSize = 2
  weight_fst : inp.stencilWeights 0 = 1
  weight_snd : inp.stencilWeights 1 = -1
  gravCoef_fst : inp.gravCoef (inp.seri 0) (inp.sesri 0) (inp.sei 0) = 0
  gravCoef_snd : inp.gravCoef (inp.seri 1) (inp.sesri 1) (inp.sei 1) = 0
  capPressureFlag_off : inp.capPressureFlag = 0
  pres_gt : inp.pres (inp.seri 1) (inp.sesri 1) (inp.sei 1)
      + inp.dPres (inp.seri 1) (inp.sesri 1) (inp.sei 1)
    < inp.pres (inp.seri 0) (inp.sesri 0) (inp.sei 0)
      + inp.dPres (inp.seri 0) (inp.sesri 0) (inp.sei 0)

/-- The concrete scenario with a mobility of `1e-21`, which is not zero but below the skip
threshold. -/
def tinyMobilityScenario : Input :=
  { scenario with phaseMob := fun _ _ _ _ => 1e-21 }


/-- Properties held fixed: all the input arrays that hold derivatives of phase properties are
zero. -/
structure PropertiesFixed (inp : Input) : Prop where
  dPhaseMob_dPres : ∀ er esr ei ip, inp.dPhaseMob_dPres er esr ei ip = 0
  dPhaseMob_dComp : ∀ er esr ei ip jc, inp.dPhaseMob_dComp er esr ei ip jc = 0
  dPhaseVolFrac_dPres : ∀ er esr ei ip, inp.dPhaseVolFrac_dPres er esr ei ip = 0
  dPhaseVolFrac_dComp : ∀ er esr ei ip jc, inp.dPhaseVolFrac_dComp er esr ei ip jc = 0
  dPhaseDens_dPres : ∀ er esr k ei q ip, inp.dPhaseDens_dPres er esr k ei q ip = 0
  dPhaseDens_dComp : ∀ er esr k ei q ip jc, inp.dPhaseDens_dComp er esr k ei q ip jc = 0
  dPhaseCompFrac_dPres : ∀ er esr k ei q ip ic, inp.dPhaseCompFrac_dPres er esr k ei q ip ic = 0
  dPhaseCompFrac_dComp : ∀ er esr k ei q ip ic jc,
    inp.dPhaseCompFrac_dComp er esr k ei q ip ic jc = 0
  dPhaseCapPressure_dPhaseVolFrac : ∀ er esr k ei q ip jp,
    inp.dPhaseCapPressure_dPhaseVolFrac er esr k ei q ip jp = 0


/-- The pressures of the concrete scenario with the pressure of cell `0` raised by `1`. -/
def raisedPressure : Nat → Nat → Nat → real64 :=
  fun _ _ ei => if ei = 0 then 101 else 90


/-- The concrete scenario with a third stencil cell (cell `2`, pressure `90` like every cell
other than cell `0`) and all three weights zero; gravity coefficient `1` in every cell. -/
def zeroWeightScenario : Input :=
  { scenario with
    stencilSize := 3
    stencilWeights := fun _ => 0
    gravCoef := fun _ _ _ => 1 }


/-- Output buffers left with arbitrary non-zero contents by an earlier use. -/
def staleOutput : Output :=
  ⟨⟨fun i => 7 + i⟩, ⟨fun i j => -3 - i * j⟩⟩


/-- A single mobile phase flowing across a connection in the forward time direction: one phase,
`dt > 0`, upstream mobility positive and not below the skip threshold, positive component
fractions in the upstream cell, non-zero potential difference. -/
structure SingleMobilePhase (inp : Input) : Prop where
  NP_eq : inp.NP = 1
  dt_pos : 0 < inp.dt
  mobility_ge : 1e-20 ≤ mobility inp 0
  compFrac_pos : ∀ ic, ic < inp.NC →
    0 < inp.phaseCompFrac (inp.seri (k_up inp 0)) (inp.sesri (k_up inp 0)) inp.fluidIndex
      (inp.sei (k_up inp 0)) 0 0 ic
  potGrad_ne : potGrad inp 0 ≠ 0


/-- A three-cell connection: the concrete scenario with an extension cell `2` of weight `1/2`
and gravity coefficient `4`, the two primary cells having gravity coefficient `0`. -/
def threeCellScenario : Input :=
  { scenario with
    stencilSize := 3
    stencilWeights := fun i => if i = 0 then 1 else if i = 1 then -1 else 1 / 2
    gravCoef := fun _ _ ei => if ei = 2 then 4 else 0 }


/-- The input with the four arrays that only the capillary-pressure branch reads replaced by
other arrays. This is not a function of the source: it is the transformation of the
independence statement for the capillary flag. -/
def withCapillaryData (inp : Input)
    (phaseCapPressure : Nat → Nat → Nat → Nat → Nat → Nat → real64)
    (dPhaseCapPressure_dPhaseVolFrac : Nat → Nat → Nat → Nat → Nat → Nat → Nat → real64)
    (dPhaseVolFrac_dPres : Nat → Nat → Nat → Nat → real64)
    (dPhaseVolFrac_dComp : Nat → Nat → Nat → Nat → Nat → real64) : Input :=
  { inp with
    phaseCapPressure := phaseCapPressure
    dPhaseCapPressure_dPhaseVolFrac := dPhaseCapPressure_dPhaseVolFrac
    dPhaseVolFrac_dPres := dPhaseVolFrac_dPres
    dPhaseVolFrac_dComp := dPhaseVolFrac_dComp }


/-! ### Positions at which `Compute` indexes its arrays

The functions below follow the control flow of `Compute` a second time and list, in program
order, every position at which the per-stencil input slices, the local work arrays and the two
output slices are indexed (read or written). The element and material views, which are indexed
by the cells of the mesh, are left out. -/

/-- The arrays that `Compute` indexes by stencil position, component or degree of freedom. -/
inductive ArrayName
  | seri | sesri | sei | stencilWeights
  | dPhaseCompFrac_dCompDens
  | dPhaseFlux_dP | dPhaseFlux_dC
  | compFlux | dCompFlux_dP | dCompFlux_dC
  | dCapPressure_dC | dDens_dC
  | dDensMean_dP | dDensMean_dC
  | dPresGrad_dP | dPresGrad_dC
  | dGravHead_dP | dGravHead_dC
  | localFlux | localFluxJacobian
  deriving DecidableEq

/-- One indexing `array[index 0][index 1]...`. -/
structure Access where
  array : ArrayName
  index : List Nat
  deriving DecidableEq

/-- The declared dimensions of the arrays: the per-stencil slices have length `stencilSize`, the
work arrays have the dimensions given at their creation (source lines 101-120), `localFlux` has
length `numElems * NC` and `localFluxJacobian` has `numElems * NC` rows and
`stencilSize * (NC + 1)` columns. -/
def ArrayName.dims (inp : Input) : ArrayName → List Nat
  | .seri => [inp.stencilSize]
  | .sesri => [inp.stencilSize]
  | .sei => [inp.stencilSize]
  | .stencilWeights => [inp.stencilSize]
  | .dPhaseCompFrac_dCompDens => [inp.NC]
  | .dPhaseFlux_dP => [inp.stencilSize]
  | .dPhaseFlux_dC => [inp.stencilSize, inp.NC]
  | .compFlux => [inp.NC]
  | .dCompFlux_dP => [inp.stencilSize, inp.NC]
  | .dCompFlux_dC => [inp.stencilSize, inp.NC, inp.NC]
  | .dCapPressure_dC => [inp.NC]
  | .dDens_dC => [inp.NC]
  | .dDensMean_dP => [numElems]
  | .dDensMean_dC => [numElems, inp.NC]
  | .dPresGrad_dP => [inp.stencilSize]
  | .dPresGrad_dC => [inp.stencilSize, inp.NC]
  | .dGravHead_dP => [numElems]
  | .dGravHead_dC => [numElems, inp.NC]
  | .localFlux => [numElems * inp.NC]
  | .localFluxJacobian => [numElems * inp.NC, inp.stencilSize * (inp.NC + 1)]

/-- Whether an index lies within given dimensions: as many indices as dimensions, each below
its dimension. -/
def inRange : List Nat → List Nat → Bool
  | [], [] => true
  | i :: is, d :: ds => decide (i < d) && inRange is ds
  | _, _ => false

/-- Whether an access lies within the declared dimensions of its array. -/
def Access.inBounds (inp : Input) (a : Access) : Bool :=
  inRange a.index (a.array.dims inp)

/-- The accesses of a counted loop: those of its rounds, one round after the other. -/
def traceLoop (n : Nat) (body : Nat → List Access) : List Access :=
  forLoop n (fun i acc => acc ++ body i) []

/-- Accesses of `applyChainRule( N, dy_dx, df_dy, df_dx )` to the work array `df_dx`, modelled
like `applyChainRule` itself: the entries `df_dx[i]`, `i < N`, are written. -/
def applyChainRuleAccesses (N : Nat) (df_dx : ArrayName) : List Access :=
  traceLoop N (fun i => [⟨df_dx, [i]⟩])

/-- Accesses of the output reset (source lines 127-134). -/
def resetAccesses (inp : Input) : List Access :=
  traceLoop (numElems * inp.NC) (fun i =>
    [⟨.localFlux, [i]⟩]
    ++ traceLoop (inp.stencilSize * (inp.NC + 1)) (fun j => [⟨.localFluxJacobian, [i, j]⟩]))

/-- Accesses of one round of the loop over the primary cells (source lines 157-181). -/
def primaryCellAccesses (inp : Input) (i : Nat) : List Access :=
  [⟨.seri, [i]⟩, ⟨.sesri, [i]⟩, ⟨.sei, [i]⟩]
  ++ applyChainRuleAccesses inp.NC .dDens_dC
  ++ [⟨.dDensMean_dP, [i]⟩]
  ++ traceLoop inp.NC (fun jc => [⟨.dDensMean_dC, [i, jc]⟩, ⟨.dDens_dC, [jc]⟩])

/-- Accesses of one round of the loop over the stencil (source lines 186-233). -/
def potentialCellAccesses (inp : Input) (i : Nat) : List Access :=
  [⟨.seri, [i]⟩, ⟨.sesri, [i]⟩, ⟨.sei, [i]⟩, ⟨.stencilWeights, [i]⟩]
  ++ (if inp.capPressureFlag ≠ 0 then
        traceLoop inp.NP (fun _ => traceLoop inp.NC (fun jc => [⟨.dCapPressure_dC, [jc]⟩]))
      else [])
  ++ [⟨.dPresGrad_dP, [i]⟩]
  ++ traceLoop inp.NC (fun jc => [⟨.dPresGrad_dC, [i, jc]⟩, ⟨.dCapPressure_dC, [jc]⟩])
  ++ traceLoop numElems (fun j =>
      [⟨.dGravHead_dP, [j]⟩, ⟨.dDensMean_dP, [j]⟩]
      ++ traceLoop inp.NC (fun jc => [⟨.dGravHead_dC, [j, jc]⟩, ⟨.dDensMean_dC, [j, jc]⟩]))

/-- Accesses of a phase that is not skipped, after the test of the mobility (source lines
258-331). -/
def phaseFluxAccesses (inp : Input) (ip : Nat) : List Access :=
  let k_up := k_up inp ip
  traceLoop inp.stencilSize (fun ke =>
    [⟨.dPhaseFlux_dP, [ke]⟩, ⟨.dPresGrad_dP, [ke]⟩]
    ++ traceLoop inp.NC (fun jc => [⟨.dPhaseFlux_dC, [ke, jc]⟩, ⟨.dPresGrad_dC, [ke, jc]⟩]))
  ++ traceLoop numElems (fun ke =>
    [⟨.dPhaseFlux_dP, [ke]⟩, ⟨.dGravHead_dP, [ke]⟩]
    ++ traceLoop inp.NC (fun jc => [⟨.dPhaseFlux_dC, [ke, jc]⟩, ⟨.dGravHead_dC, [ke, jc]⟩]))
  ++ traceLoop inp.stencilSize (fun ke =>
    [⟨.dPhaseFlux_dP, [ke]⟩]
    ++ traceLoop inp.NC (fun jc => [⟨.dPhaseFlux_dC, [ke, jc]⟩]))
  ++ [⟨.dPhaseFlux_dP, [k_up]⟩]
  ++ traceLoop inp.NC (fun jc => [⟨.dPhaseFlux_dC, [k_up, jc]⟩])
  ++ traceLoop inp.NC (fun ic =>
    [⟨.compFlux, [ic]⟩]
    ++ traceLoop inp.stencilSize (fun ke =>
      [⟨.dCompFlux_dP, [ke, ic]⟩, ⟨.dPhaseFlux_dP, [ke]⟩]
      ++ traceLoop inp.NC (fun jc => [⟨.dCompFlux_dC, [ke, ic, jc]⟩, ⟨.dPhaseFlux_dC, [ke, jc]⟩]))
    ++ [⟨.dCompFlux_dP, [k_up, ic]⟩]
    ++ applyChainRuleAccesses inp.NC .dPhaseCompFrac_dCompDens
    ++ traceLoop inp.NC (fun jc =>
      [⟨.dCompFlux_dC, [k_up, ic, jc]⟩, ⟨.dPhaseCompFrac_dCompDens, [jc]⟩]))

/-- Accesses of one round of the loop over phases (source lines 137-332). -/
def phaseAccesses (inp : Input) (ip : Nat) : List Access :=
  traceLoop numElems (primaryCellAccesses inp)
  ++ traceLoop inp.stencilSize (potentialCellAccesses inp)
  ++ [⟨.seri, [k_up inp ip]⟩, ⟨.sesri, [k_up inp ip]⟩, ⟨.sei, [k_up inp ip]⟩]
  ++ (if |mobility inp ip| < 1e-20 then [] else phaseFluxAccesses inp ip)

/-- Accesses of the output loop (source lines 337-355). -/
def populateAccesses (inp : Input) : List Access :=
  let NDOF := inp.NC + 1
  traceLoop inp.NC (fun ic =>
    [⟨.localFlux, [ic]⟩, ⟨.compFlux, [ic]⟩, ⟨.localFlux, [inp.NC + ic]⟩]
    ++ traceLoop inp.stencilSize (fun ke =>
      [⟨.localFluxJacobian, [ic, ke * NDOF]⟩, ⟨.dCompFlux_dP, [ke, ic]⟩,
       ⟨.localFluxJacobian, [inp.NC + ic, ke * NDOF]⟩]
      ++ traceLoop inp.NC (fun jc =>
        [⟨.localFluxJacobian, [ic, ke * NDOF + jc + 1]⟩, ⟨.dCompFlux_dC, [ke, ic, jc]⟩,
         ⟨.localFluxJacobian, [inp.NC + ic, ke * NDOF + jc + 1]⟩])))

/-- All the accesses of one call of `Compute`, in program order. -/
def accesses (inp : Input) : List Access :=
  resetAccesses inp ++ traceLoop inp.NP (phaseAccesses inp) ++ populateAccesses inp

/-- A degenerate connection with one active cell: the concrete scenario with `stencilSize = 1`. -/
def oneCellScenario : Input :=
  { scenario with stencilSize := 1 }


/-- Whether the first index of an access is below `n`. -/
def Access.firstBelow (n : Nat) (a : Access) : Bool :=
  match a.index with
  | k :: _ => decide (k < n)
  | [] => false


/-- The concrete scenario with a second phase of mobility `0` in every cell. -/
def twoPhaseScenario : Input :=
  { scenario with
    NP := 2
    phaseMob := fun _ _ _ ip => if ip = 0 then 2 else 0 }

/-- A scenario with non-zero derivatives: the concrete scenario with gravity coefficients `3`
and `1` in the two cells, density derivative `4` with respect to pressure and mobility
derivatives `7` with respect to pressure and `9` with respect to every component density. -/
def derivativeScenario : Input :=
  { scenario with
    gravCoef := fun _ _ ei => if ei = 0 then 3 else 1
    dPhaseDens_dPres := fun _ _ _ _ _ _ => 4
    dPhaseMob_dPres := fun _ _ _ _ => 7
    dPhaseMob_dComp := fun _ _ _ _ _ => 9 }

/-- The input with the six arrays of mobility and phase composition (`phaseMob`,
`dPhaseMob_dPres`, `dPhaseMob_dComp`, `phaseCompFrac`, `dPhaseCompFrac_dPres`,
`dPhaseCompFrac_dComp`) taken from `other`. This is not a function of the source: it is the
transformation of the upstream-only dependence statement. -/
def withMobilityData (inp other : Input) : Input :=
  { inp with
    phaseMob := other.phaseMob
    dPhaseMob_dPres := other.dPhaseMob_dPres
    dPhaseMob_dComp := other.dPhaseMob_dComp
    phaseCompFrac := other.phaseCompFrac
    dPhaseCompFrac_dPres := other.dPhaseCompFrac_dPres
    dPhaseCompFrac_dComp := other.dPhaseCompFrac_dComp }

/-- The six arrays of mobility and phase composition of `other` agree with those of `inp` at
the upstream cell of phase `ip` (the cell at stencil position `k_up inp ip`), for that phase. -/
structure UpstreamAgree (inp other : Input) (ip : Nat) : Prop where
  phaseMob : other.phaseMob (inp.seri (k_up inp ip)) (inp.sesri (k_up inp ip))
      (inp.sei (k_up inp ip)) ip
    = inp.phaseMob (inp.seri (k_up inp ip)) (inp.sesri (k_up inp ip)) (inp.sei (k_up inp ip)) ip
  dPhaseMob_dPres : other.dPhaseMob_dPres (inp.seri (k_up inp ip)) (inp.sesri (k_up inp ip))
      (inp.sei (k_up inp ip)) ip
    = inp.dPhaseMob_dPres (inp.seri (k_up inp ip)) (inp.sesri (k_up inp ip))
      (inp.sei (k_up inp ip)) ip
  dPhaseMob_dComp : ∀ jc, other.dPhaseMob_dComp (inp.seri (k_up inp ip))
      (inp.sesri (k_up inp ip)) (inp.sei (k_up inp ip)) ip jc
    = inp.dPhaseMob_dComp (inp.seri (k_up inp ip)) (inp.sesri (k_up inp ip))
      (inp.sei (k_up inp ip)) ip jc
  phaseCompFrac : ∀ ic, other.phaseCompFrac (inp.seri (k_up inp ip)) (inp.sesri (k_up inp ip))
      inp.fluidIndex (inp.sei (k_up inp ip)) 0 ip ic
    = inp.phaseCompFrac (inp.seri (k_up inp ip)) (inp.sesri (k_up inp ip))
      inp.fluidIndex (inp.sei (k_up inp ip)) 0 ip ic
  dPhaseCompFrac_dPres : ∀ ic, other.dPhaseCompFrac_dPres (inp.seri (k_up inp ip))
      (inp.sesri (k_up inp ip)) inp.fluidIndex (inp.sei (k_up inp ip)) 0 ip ic
    = inp.dPhaseCompFrac_dPres (inp.seri (k_up inp ip)) (inp.sesri (k_up inp ip))
      inp.fluidIndex (inp.sei (k_up inp ip)) 0 ip ic
  dPhaseCompFrac_dComp : ∀ ic jc, other.dPhaseCompFrac_dComp (inp.seri (k_up inp ip))
      (inp.sesri (k_up inp ip)) inp.fluidIndex (inp.sei (k_up inp ip)) 0 ip ic jc
    = inp.dPhaseCompFrac_dComp (inp.seri (k_up inp ip)) (inp.sesri (k_up inp ip))
      inp.fluidIndex (inp.sei (k_up inp ip)) 0 ip ic jc

/-- Mobility and phase composition that differ from those of the concrete scenario in the
downstream cell `1` only: there the mobility is `1000`, its derivatives are `5` and `6`, the
fractions are `1/2` and their derivatives are `7` and `8`. -/
def downstreamChanged : Input :=
  { scenario with
    phaseMob := fun _ _ ei _ => if ei = 1 then 1000 else 2
    dPhaseMob_dPres := fun _ _ ei _ => if ei = 1 then 5 else 0
    dPhaseMob_dComp := fun _ _ ei _ _ => if ei = 1 then 6 else 0
    phaseCompFrac := fun _ _ _ ei _ _ ic => if ei = 1 then 1 / 2 else if ic = 0 then 1 / 4 else 3 / 4
    dPhaseCompFrac_dPres := fun _ _ _ ei _ _ _ => if ei = 1 then 7 else 0
    dPhaseCompFrac_dComp := fun _ _ _ ei _ _ _ _ => if ei = 1 then 8 else 0 }

/-- The capacity of the stack arrays, as declared at their creation (source lines 101-120) from
the constants `numElems`, `maxStencil = CellElementStencilTPFA::MAX_STENCIL_SIZE` and
`maxNumComp = MultiFluidBase::MAX_NUM_COMPONENTS`; the two constants are declared outside the
sources at hand and enter as arguments. The per-stencil inputs and the two outputs are slices
and have no capacity of their own. -/
def ArrayName.capacity (maxStencil maxNumComp : Nat) : ArrayName → Option Nat
  | .seri => none
  | .sesri => none
  | .sei => none
  | .stencilWeights => none
  | .dPhaseCompFrac_dCompDens => some maxNumComp
  | .dPhaseFlux_dP => some maxStencil
  | .dPhaseFlux_dC => some (maxStencil * maxNumComp)
  | .compFlux => some maxNumComp
  | .dCompFlux_dP => some (maxStencil * maxNumComp)
  | .dCompFlux_dC => some (maxStencil * maxNumComp * maxNumComp)
  | .dCapPressure_dC => some maxNumComp
  | .dDens_dC => some maxNumComp
  | .dDensMean_dP => some numElems
  | .dDensMean_dC => some (numElems * maxNumComp)
  | .dPresGrad_dP => some maxStencil
  | .dPresGrad_dC => some (maxStencil * maxNumComp)
  | .dGravHead_dP => some numElems
  | .dGravHead_dC => some (numElems * maxNumComp)
  | .localFlux => none
  | .localFluxJacobian => none

/-- Whether the number of entries that an array is created with fits its capacity. -/
def ArrayName.fits (inp : Input) (maxStencil maxNumComp : Nat) (arr : ArrayName) : Bool :=
  match arr.capacity maxStencil maxNumComp with
  | some capacity => decide ((arr.dims inp).prod ≤ capacity)
  | none => true

end FluxKernel

/-! ## CompositionalMultiphaseFVM::CheckSystemSolution -/

namespace CompositionalMultiphaseFVM

/-- The data of one element sub-region read by `CheckSystemSolution`. -/
structure SubRegion where
  /-- number of elements, `subRegion.size()` -/
  size : Nat
  /-- global index of the first degree of freedom of each element -/
  dofNumber : Nat → Int
  /-- owning rank of a ghost element, negative for a locally owned element -/
  elemGhostRank : Nat → Int
  pres : Nat → real64
  dPres : Nat → real64
  compDens : Nat → Nat → real64
  dCompDens : Nat → Nat → real64

/-- What `CheckSystemSolution` reads on one rank: the members of the solver, the target
sub-regions of the mesh of the rank, the rank offset of the degree-of-freedom manager and the
two arguments `localSolution` and `scalingFactor`. The constant
`CompositionalMultiphaseBaseKernels::minDensForDivision` is declared outside the sources at
hand and is the field `eps`. -/
structure Rank where
  /-- `m_numComponents` -/
  NC : Nat
  /-- `m_allowCompDensChopping`, a C++ `integer` used as a condition -/
  allowCompDensChopping : Int
  /-- `minDensForDivision` -/
  eps : real64
  rankOffset : Int
  subRegions : List SubRegion
  localSolution : Int → real64
  scalingFactor : real64

/-- `check.min( cond )` on a `RAJA::ReduceMin< integer >`: the condition enters as `1` when it
holds and as `0` when it does not. -/
def reduceMin (check : Int) (cond : Bool) : Int :=
  min check (if cond then 1 else 0)

/-- The updated pressure `newPres` of element `ei` (source lines 245-247). -/
def newPres (r : Rank) (sr : SubRegion) (ei : Nat) : real64 :=
  let localRow := sr.dofNumber ei - r.rankOffset
  sr.pres ei + sr.dPres ei + r.scalingFactor * r.localSolution localRow

/-- The updated density `newDens` of component `ic` of element `ei` (source lines 258 and
267). -/
def newDens (r : Rank) (sr : SubRegion) (ei ic : Nat) : real64 :=
  let localRow := sr.dofNumber ei - r.rankOffset
  sr.compDens ei ic + sr.dCompDens ei ic + r.scalingFactor * r.localSolution (localRow + ic + 1)

/-- The sum `totalDens` of the positive parts of the updated component densities of element
`ei` (source lines 264-269). -/
def totalDens (r : Rank) (sr : SubRegion) (ei : Nat) : real64 :=
  forLoop r.NC
    (fun ic totalDens =>
      totalDens + (if newDens r sr ei ic > 0 then newDens r sr ei ic else 0))
    0

/-- Body of the loop over the elements of a sub-region (source lines 243-272). -/
def checkElement (r : Rank) (sr : SubRegion) (ei : Nat) (check : Int) : Int :=
  if sr.elemGhostRank ei < 0 then
    let check1 := reduceMin check (decide (newPres r sr ei ≥ 0))
    if r.allowCompDensChopping = 0 then
      forLoop r.NC (fun ic check => reduceMin check (decide (newDens r sr ei ic ≥ 0))) check1
    else
      reduceMin check1 (decide (totalDens r sr ei ≥ r.eps))
  else check

/-- The reduction `check` over the elements of one sub-region (source lines 239-273). -/
def checkSubRegion (r : Rank) (sr : SubRegion) : Int :=
  forLoop sr.size (checkElement r sr) 1

/-- The value of `localCheck` after the loop over the target sub-regions (source lines
227-276). -/
def localCheck (r : Rank) : Int :=
  r.subRegions.foldl (fun localCheck sr => min localCheck (checkSubRegion r sr)) 1

/-- Modelled from the spec: `MpiWrapper::Min` is declared outside the sources at hand; the
status flag is "combined (logical AND/min) ... across all parallel ranks", so the value
returned on every rank is the minimum of the values contributed by the calling rank and by the
other ranks. -/
def MpiWrapperMin (value : Int) (others : List Int) : Int :=
  others.foldl min value

/-- `CompositionalMultiphaseFVM::CheckSystemSolution` on a rank `r`, the other ranks of the
communicator being `others`: the minimum over the ranks of `localCheck`, returned as `bool`. -/
def CheckSystemSolution (r : Rank) (others : List Rank) : Bool :=
  decide (MpiWrapperMin (localCheck r) (others.map localCheck) ≠ 0)

/-- A sub-region with one locally owned element whose two updated component densities are
`-1` and `3` (the solution vector being zero) and whose pressure is `0`. -/
def oneElement : SubRegion where
  size := 1
  dofNumber := fun _ => 0
  elemGhostRank := fun _ => -1
  pres := fun _ => 0
  dPres := fun _ => 0
  compDens := fun _ ic => if ic = 0 then -1 else 3
  dCompDens := fun _ _ => 0

/-- A rank with the single sub-region `oneElement`, two components, chopping enabled and a
threshold `eps = 3`, which is exactly the sum of the positive parts of the densities. -/
def choppingRank : Rank where
  NC := 2
  allowCompDensChopping := 1
  eps := 3
  rankOffset := 0
  subRegions := [oneElement]
  localSolution := fun _ => 0
  scalingFactor := 1


/-- What the check asks of element `ei` of a sub-region: nothing of a ghost element; of a
locally owned element, a non-negative updated pressure and, when chopping is not allowed,
non-negative updated component densities, otherwise a sum of the positive parts of the updated
component densities that is at least `eps`. This is the property that the loops are proved to
compute. -/
def ElementValid (r : Rank) (sr : SubRegion) (ei : Nat) : Prop :=
  sr.elemGhostRank ei < 0 →
    0 ≤ newPres r sr ei ∧
    (if r.allowCompDensChopping = 0 then ∀ ic, ic < r.NC → 0 ≤ newDens r sr ei ic
     else r.eps ≤ totalDens r sr ei)

/-- A sub-region with one locally owned element whose pressure and densities are all exactly
zero. -/
def zeroElement : SubRegion where
  size := 1
  dofNumber := fun _ => 0
  elemGhostRank := fun _ => -1
  pres := fun _ => 0
  dPres := fun _ => 0
  compDens := fun _ _ => 0
  dCompDens := fun _ _ => 0

/-- A rank with chopping enabled whose threshold `eps = 4` is above the sum `3` of the positive
parts of the densities of its element. -/
def belowThresholdRank : Rank :=
  { choppingRank with eps := 4 }

/-- A rank with chopping disabled and two sub-regions; the element of the second one has a
negative updated component density. -/
def strictRank : Rank :=
  { choppingRank with allowCompDensChopping := 0, subRegions := [zeroElement, oneElement] }

/-- A rank with chopping disabled whose only element has pressure and densities exactly `0`. -/
def zeroRank : Rank :=
  { choppingRank with allowCompDensChopping := 0, subRegions := [zeroElement] }


/-! ### CompositionalMultiphaseFVM::CalculateResidualNorm -/

/-- The data of one element sub-region read by `CalculateResidualNorm`. -/
structure ResidualSubRegion where
  /-- number of elements, `subRegion.size()` -/
  size : Nat
  /-- global index of the first degree of freedom of each element -/
  dofNumber : Nat → Int
  /-- owning rank of a ghost element, negative for a locally owned element -/
  elemGhostRank : Nat → Int
  volume : Nat → real64
  refPoro : Nat → real64
  /-- `fluid.totalDensity()`, indexed by element and quadrature point -/
  totalDens : Nat → Nat → real64

/-- What `CalculateResidualNorm` reads on one rank: `m_numComponents`, the rank offset of the
degree-of-freedom manager, the target sub-regions of the mesh of the rank and the argument
`localRhs`. -/
structure ResidualRank where
  /-- `m_numComponents` -/
  NC : Nat
  rankOffset : Int
  subRegions : List ResidualSubRegion
  localRhs : Int → real64

/-- The body of the loop over the elements of a sub-region (source lines 183-195), as a step on
the reduction variable `localSum`. -/
def residualElement (r : ResidualRank) (sr : ResidualSubRegion) (ei : Nat)
    (localSum : real64) : real64 :=
  if sr.elemGhostRank ei < 0 then
    let localRow := sr.dofNumber ei - r.rankOffset
    let normalizer := sr.totalDens ei 0 * sr.refPoro ei * sr.volume ei
    forLoop (r.NC + 1) (fun idof localSum =>
      let val := r.localRhs (localRow + idof) / normalizer
      localSum + val * val) localSum
  else localSum

/-- The value `localSum.get()` of one sub-region (source lines 181-197). -/
def residualSubRegion (r : ResidualRank) (sr : ResidualSubRegion) : real64 :=
  forLoop sr.size (residualElement r sr) 0

/-- The value of `localResidualNorm` after the loop over the target sub-regions (source lines
165-198). -/
def localResidualNorm (r : ResidualRank) : real64 :=
  r.subRegions.foldl (fun localResidualNorm sr => localResidualNorm + residualSubRegion r sr) 0

/-- Modelled from the spec: `MpiWrapper::Sum` is declared outside the sources at hand; the
global norm is the "square root of the cross-rank sum", so the value returned on every rank is
the sum of the values contributed by the calling rank and by the other ranks. -/
def MpiWrapperSum (value : real64) (others : List real64) : real64 :=
  others.foldl (fun x y => x + y) value

/-- The argument of `std::sqrt` in `CalculateResidualNorm` (source line 201) on a rank `r`,
the other ranks of the communicator being `others`. -/
def globalResidualSum (r : ResidualRank) (others : List ResidualRank) : real64 :=
  MpiWrapperSum (localResidualNorm r) (others.map localResidualNorm)

/-- `CompositionalMultiphaseFVM::CalculateResidualNorm` on a rank `r`, the other ranks of the
communicator being `others` (the printing of the value is left out). The square root leaves
the rationals, so the returned value is a real number: the square root of the rational sum
`globalResidualSum`. -/
noncomputable def CalculateResidualNorm (r : ResidualRank) (others : List ResidualRank) : ℝ :=
  Real.sqrt ((globalResidualSum r others : ℚ) : ℝ)

/-- The sum named by the contract of `CalculateResidualNorm`: over the ranks, their target
sub-regions, the locally owned cells `ei` (ghost rank below zero) and the `NC + 1` degrees of
freedom `idof` of the cell, of the square of
`localRhs[dofNumber[ei] - rankOffset + idof] / (totalDens[ei][0] * refPoro[ei] * volume[ei])`. -/
def squaredResidualSum (ranks : List ResidualRank) : real64 :=
  (ranks.map fun r =>
    (r.subRegions.map fun sr =>
      ∑ ei in (Finset.range sr.size).filter (fun ei => sr.elemGhostRank ei < 0),
        ∑ idof in Finset.range (r.NC + 1),
          (r.localRhs (sr.dofNumber ei - r.rankOffset + idof)
            / (sr.totalDens ei 0 * sr.refPoro ei * sr.volume ei)) ^ 2).sum).sum

/-- A sub-region of two elements with two degrees of freedom each: element `0` is locally owned
and has the normalizer `1 * (1/2) * 2 = 1`, element `1` is a ghost. -/
def residualSubRegionExample : ResidualSubRegion where
  size := 2
  dofNumber := fun ei => 10 + 2 * ei
  elemGhostRank := fun ei => if ei = 0 then -1 else 3
  volume := fun _ => 2
  refPoro := fun _ => 1 / 2
  totalDens := fun _ _ => 1

/-- A rank with one component, the rank offset `10` and the right-hand side `(3, 4, 7, 7)`: the
entries `3` and `4` belong to the owned element, the entries `7` to the ghost. -/
def residualRankExample : ResidualRank where
  NC := 1
  rankOffset := 10
  subRegions := [residualSubRegionExample]
  localRhs := fun row => if row = 0 then 3 else if row = 1 then 4 else 7

/-- Two sub-regions, read on the ranks `r` and `r'`, that differ only in values that belong to
ghost elements: they have the same size, the same degree-of-freedom numbers and the same ghost
ranks, and on every locally owned element (ghost rank below zero) the same pressure, pressure
increment, component densities and density increments, and the two solution vectors agree on
the `NC + 1` rows of the element. -/
structure OwnedAgree (r r' : Rank) (sr sr' : SubRegion) : Prop where
  size : sr'.size = sr.size
  dofNumber : ∀ ei, ei < sr.size → sr'.dofNumber ei = sr.dofNumber ei
  elemGhostRank : ∀ ei, ei < sr.size → sr'.elemGhostRank ei = sr.elemGhostRank ei
  pres : ∀ ei, ei < sr.size → sr.elemGhostRank ei < 0 → sr'.pres ei = sr.pres ei
  dPres : ∀ ei, ei < sr.size → sr.elemGhostRank ei < 0 → sr'.dPres ei = sr.dPres ei
  compDens : ∀ ei ic, ei < sr.size → sr.elemGhostRank ei < 0 → ic < r.NC →
    sr'.compDens ei ic = sr.compDens ei ic
  dCompDens : ∀ ei ic, ei < sr.size → sr.elemGhostRank ei < 0 → ic < r.NC →
    sr'.dCompDens ei ic = sr.dCompDens ei ic
  solution_pres : ∀ ei, ei < sr.size → sr.elemGhostRank ei < 0 →
    r'.localSolution (sr.dofNumber ei - r.rankOffset)
      = r.localSolution (sr.dofNumber ei - r.rankOffset)
  solution_dens : ∀ ei ic, ei < sr.size → sr.elemGhostRank ei < 0 → ic < r.NC →
    r'.localSolution (sr.dofNumber ei - r.rankOffset + ic + 1)
      = r.localSolution (sr.dofNumber ei - r.rankOffset + ic + 1)

/-- Two inputs of `CheckSystemSolution` on a rank that differ only in values that belong to
ghost elements: the same number of components, chopping policy, threshold, rank offset and
scaling factor, and sub-regions that correspond one to one and differ only on ghost
elements. -/
structure RanksAgree (r r' : Rank) : Prop where
  NC : r'.NC = r.NC
  allowCompDensChopping : r'.allowCompDensChopping = r.allowCompDensChopping
  eps : r'.eps = r.eps
  rankOffset : r'.rankOffset = r.rankOffset
  scalingFactor : r'.scalingFactor = r.scalingFactor
  subRegions : List.Forall₂ (OwnedAgree r r') r.subRegions r'.subRegions

/-- A sub-region whose only element is a ghost (owned by rank `3`) with pressure `-5` and
component densities `-7`. -/
def ghostElement : SubRegion where
  size := 1
  dofNumber := fun _ => 0
  elemGhostRank := fun _ => 3
  pres := fun _ => -5
  dPres := fun _ => 0
  compDens := fun _ _ => -7
  dCompDens := fun _ _ => 0

/-- The same ghost element with pressure `50` and component densities `2`. -/
def ghostElementChanged : SubRegion :=
  { ghostElement with pres := fun _ => 50, compDens := fun _ _ => 2 }

/-- A rank that mirrors one ghost element with negative pressure and densities. -/
def ghostRank : Rank :=
  { choppingRank with subRegions := [ghostElement] }

/-- The same rank with other values in the ghost element and in the solution vector. -/
def ghostRankChanged : Rank :=
  { choppingRank with subRegions := [ghostElementChanged], localSolution := fun _ => 9 }

end CompositionalMultiphaseFVM


/-! ## BrineCO2DensityFunction: the constructor -/

namespace PVTProps

/-- Modelled from the spec: `stringutilities::streq` is declared outside the sources at hand; a
required component is missing when no name of the list is the required one, so `streq` is
equality of the two strings. -/
def streq (a b : String) : Bool :=
  decide (a = b)

/-- The state of a search loop of the constructor: the index member that the loop assigns
(`m_CO2Index` or `m_waterIndex`, without a value before the first assignment) and the local
flag `notFound`. -/
structure Search where
  index : Option Nat
  notFound : Bool

/-- The condition of the `if` in a search loop: `streq(componentNames[i], upper) ||
streq(componentNames[i], lower)`. -/
def nameMatches (componentNames : List String) (upper lower : String) (i : Nat) : Bool :=
  streq (componentNames.getD i "") upper || streq (componentNames.getD i "") lower

/-- One search loop of the constructor (source lines 42-52 and 58-68), started with
`notFound = 1`. The loop leaves by `break` in the round that clears `notFound`, and in no
other; the rounds after the `break` are modelled as rounds that change nothing. -/
def searchComponent (componentNames : List String) (upper lower : String) : Search :=
  forLoop componentNames.length (fun i s =>
    if s.notFound then
      if nameMatches componentNames upper lower i then
        { index := some i, notFound := false }
      else s
    else s) { index := none, notFound := true }

/-- The members of a `BrineCO2DensityFunction` that its constructor sets; `Table` is the type
of the density table. -/
structure BrineCO2DensityFunction (Table : Type) where
  m_CO2Index : Option Nat
  m_waterIndex : Option Nat
  m_BrineDensityTable : Table

/-- The constructor `BrineCO2DensityFunction::BrineCO2DensityFunction` (source lines 35-74);
the construction of the base class is left out. `GEOS_ERROR_IF` aborts with its message, which
is the error of the result. `MakeTable` is the member function called in the last statement; it
sets `m_BrineDensityTable` from `inputPara`, and the constructor is described for any such
function. -/
def BrineCO2DensityFunction.construct {Table : Type} (MakeTable : List String → Table)
    (inputPara componentNames : List String) : Except String (BrineCO2DensityFunction Table) :=
  let co2 := searchComponent componentNames "CO2" "co2"
  if co2.notFound then
    Except.error "Component CO2 is not found!"
  else
    let water := searchComponent componentNames "Water" "water"
    if water.notFound then
      Except.error "Component Water/Brine is not found!"
    else
      Except.ok
        { m_CO2Index := co2.index
          m_waterIndex := water.index
          m_BrineDensityTable := MakeTable inputPara }

/-- The index `i` is the smallest index of the list whose name is `upper` or `lower`. -/
def FirstMatch (componentNames : List String) (upper lower : String) (i : Nat) : Prop :=
  i < componentNames.length ∧
  (componentNames.getD i "" = upper ∨ componentNames.getD i "" = lower) ∧
  ∀ k, k < i → componentNames.getD k "" ≠ upper ∧ componentNames.getD k "" ≠ lower

/-- A stand-in for `MakeTable` on the examples: the number of input parameters. -/
def countParameters (inputPara : List String) : Nat :=
  inputPara.length

/-! ### BrineCO2DensityFunction::MakeTable -/

/-- One of the two loops `while( P <= PEnd ) { pressures.push_back( P ); P += dP; }` of
`MakeTable` (source lines 97-103 for the pressures, 107-113 for the temperatures), with a bound
`fuel` on the number of tests of the loop condition: the result is `none` when the bound is
reached before the condition fails. -/
def axisLoop (PEnd dP : real64) : Nat → real64 → List real64 → Option (List real64)
  | 0, _, _ => none
  | fuel + 1, P, pressures =>
    if P ≤ PEnd then axisLoop PEnd dP fuel (P + dP) (pressures ++ [P]) else some pressures

/-- `v.resize( n )` on a `real64_vector`: the first `n` entries, filled up with zeros. -/
def resize (v : List real64) (n : Nat) : List real64 :=
  v.take n ++ List.replicate (n - v.length) 0

/-- `CalculateBrineDensity` (source lines 176-206). The function `exp` of the C++ library does
not map rationals to rationals; it enters as an argument. -/
def CalculateBrineDensity (exp : real64 → real64) (pressure temperature : List real64)
    (salinity : real64) (density : List (List real64)) : List (List real64) :=
  let c1 : real64 := -9.9595
  let c2 : real64 := 7.0845
  let c3 : real64 := 3.9093
  let a1 : real64 := -0.004539
  let a2 : real64 := -0.0001638
  let a3 : real64 := 0.00002551
  let AA : real64 := -3.033405
  let BB : real64 := 10.128163
  let CC : real64 := -8.750567
  let DD : real64 := 2.663107
  forLoop pressure.length
    (fun i density =>
      let P := pressure.getD i 0 / 1e5
      forLoop temperature.length
        (fun j density =>
          let x := c1 * exp (a1 * salinity) + c2 * exp (a2 * temperature.getD j 0)
            + c3 * exp (a3 * P)
          density.set i
            ((density.getD i []).set j ((AA + BB * x + CC * x * x + DD * x * x * x) * 1000.0)))
        density)
    density

/-- The arguments that `MakeTable` passes to the constructor of `XYTable`, a class declared
outside the sources at hand. -/
structure XYTable where
  name : String
  x : List real64
  y : List real64
  value : List (List real64)

/-- `BrineCO2DensityFunction::MakeTable` (source lines 76-128), with the bound `fuel` for each
of its two `while` loops; the result is the table assigned to `m_BrineDensityTable`. The
function `stod` of the C++ library, which reads a number from a string, enters as an argument,
like `exp`. -/
def MakeTable (stod : String → real64) (exp : real64 → real64) (fuel : Nat)
    (inputPara : List String) : Option XYTable :=
  let PStart := stod (inputPara.getD 2 "")
  let PEnd := stod (inputPara.getD 3 "")
  let dP := stod (inputPara.getD 4 "")
  let TStart := stod (inputPara.getD 5 "")
  let TEnd := stod (inputPara.getD 6 "")
  let dT := stod (inputPara.getD 7 "")
  let m := stod (inputPara.getD 8 "")
  match axisLoop PEnd dP fuel PStart [] with
  | none => none
  | some pressures =>
    match axisLoop TEnd dT fuel TStart [] with
    | none => none
    | some temperatures =>
      let nP := pressures.length
      let nT := temperatures.length
      let densities := forLoop nP
        (fun i (densities : List (List real64)) =>
          densities.set i (resize (densities.getD i []) nT))
        (List.replicate nP [])
      some
        { name := "BrineDensityTable"
          x := pressures
          y := temperatures
          value := CalculateBrineDensity exp pressures temperatures m densities }

/-- The grid named by the contract of `MakeTable`: the values `start + k * step` for
`k = 0 .. n`. -/
def grid (start step : real64) (n : Nat) : List real64 :=
  (List.range (n + 1)).map (fun (k : Nat) => start + (k : real64) * step)

/-- A table of `rows` rows of `cols` entries each. -/
def HasShape (rows cols : Nat) (density : List (List real64)) : Prop :=
  density.length = rows ∧ ∀ row, row ∈ density → row.length = cols

/-- A stand-in for `stod` on the examples, which reads the six numbers that occur there. -/
def exampleStod (s : String) : real64 :=
  if s = "1" then 1 else if s = "7/2" then 7 / 2 else if s = "10" then 10
  else if s = "12" then 12 else if s = "2" then 2 else 0

/-- Input parameters for the examples: pressures from `1` to `7/2` in steps of `1`,
temperatures from `10` to `12` in steps of `2`, salinity `0`. -/
def exampleInputPara : List String :=
  ["density", "brine", "1", "7/2", "1", "10", "12", "2", "0"]

end PVTProps


/-! ## pygeosx: PyGroup_getGroup and PyGroup_getWrapper -/

namespace python

/-- What `PyGroup_getGroup` and `PyGroup_getWrapper` call on the data repository. The functions
`splitPath`, `Group::GetGroupByPath`, `Group::getWrapperBase` and `Group::getPath` are declared
outside the sources at hand and enter as fields; `self->group` is the group that the fields
`GetGroupByPath` and `getPath` belong to. A returned null pointer is `none`. -/
structure Repository (Group Wrapper : Type) where
  /-- `splitPath( path, groupPath, wrapperName )`: the pair `(groupPath, wrapperName)` -/
  splitPath : String → String × String
  /-- `self->group->GetGroupByPath( path )` -/
  GetGroupByPath : String → Option Group
  /-- `group->getWrapperBase( wrapperName )` -/
  getWrapperBase : Group → String → Option Wrapper
  /-- `self->group->getPath()` -/
  getPath : String

/-- How a call ends for the Python interpreter. -/
inductive PyResult (Group Wrapper PyObject : Type)
  /-- `PyErr_SetString( PyExc_ValueError, message )` followed by `return nullptr` -/
  | valueError (message : String)
  /-- an object given by the caller is returned -/
  | object (value : PyObject)
  /-- `createNewPyGroup( *result )` is returned -/
  | newPyGroup (result : Group)
  /-- `createNewPyWrapper( *result )` is returned -/
  | newPyWrapper (result : Wrapper)
  /-- a member function is called through a null pointer: the behaviour is undefined -/
  | nullDereference
  deriving DecidableEq

/-- `PyGroup_getGroup` (source lines 160-191) from line 178 on: `self` is initialised and the
arguments were parsed into the ASCII string `path` and the optional `defaultReturnValue`. -/
def PyGroup_getGroup {Group Wrapper PyObject : Type} (self : Repository Group Wrapper)
    (path : String) (defaultReturnValue : Option PyObject) : PyResult Group Wrapper PyObject :=
  let result := self.GetGroupByPath path
  match result, defaultReturnValue with
  | none, none => .valueError ("No Group at " ++ self.getPath ++ "/" ++ path)
  | none, some value => .object value
  | some group, _ => .newPyGroup group

/-- `PyGroup_getWrapper` (source lines 209-245) from line 227 on: `self` is initialised and the
arguments were parsed into the ASCII string `path` and the optional `defaultReturnValue`. The
pointer `group` is used in `group->getWrapperBase( wrapperName )` without a test. -/
def PyGroup_getWrapper {Group Wrapper PyObject : Type} (self : Repository Group Wrapper)
    (path : String) (defaultReturnValue : Option PyObject) : PyResult Group Wrapper PyObject :=
  let groupPath := (self.splitPath path).1
  let wrapperName := (self.splitPath path).2
  match self.GetGroupByPath groupPath with
  | none => .nullDereference
  | some group =>
    let result := self.getWrapperBase group wrapperName
    match result, defaultReturnValue with
    | none, none => .valueError ("No Wrapper at " ++ self.getPath ++ "/" ++ groupPath)
    | none, some value => .object value
    | some wrapper, _ => .newPyWrapper wrapper

/-- A repository for the examples: the group `self` has the path `Problem`, one sub-group
`domain` (the group `1`) and, like every group, the single wrapper `time` (the wrapper `7`);
a path with the group part `domain` or `ghost` is split at its slash. -/
def exampleRepository : Repository Nat Nat where
  splitPath := fun path =>
    if path = "domain/time" then ("domain", "time")
    else if path = "domain/mass" then ("domain", "mass")
    else if path = "ghost/time" then ("ghost", "time")
    else ("", path)
  GetGroupByPath := fun path =>
    if path = "" then some 0 else if path = "domain" then some 1 else none
  getWrapperBase := fun _ wrapperName => if wrapperName = "time" then some 7 else none
  getPath := "Problem"

end python

/-! ## SolidMechanicsLagrangianSSLEKernels::stressUpdate -/

namespace SolidMechanicsLagrangianSSLEKernels

/-- The arguments of `stressUpdate` that it only reads, with the template parameter
`NUM_NODES_PER_ELEM`. The macros `TONODESRELATION_ACCESSOR` and `DNDX_ACCESSOR` are defined in
`KernelMacros.hpp`, outside the sources at hand: `elemsToNodes k a` is the value of
`TONODESRELATION_ACCESSOR( elemsToNodes, k, a )` and `dNdX k q a i` is the value of
`DNDX_ACCESSOR( dNdX, k, q, a, i )`. -/
structure Input where
  NUM_NODES_PER_ELEM : Nat
  /-- `constitutive.m_shearModulus` -/
  m_shearModulus : Nat → real64
  /-- `constitutive.m_bulkModulus` -/
  m_bulkModulus : Nat → real64
  k : Nat
  q : Nat
  elemsToNodes : Nat → Nat → Nat
  /-- the nodal velocities, indexed by node and direction -/
  vel : Nat → Nat → real64
  dNdX : Nat → Nat → Nat → Nat → real64
  dt : real64

/-- The two arrays that `stressUpdate` updates. The macros `MEANSTRESS_ACCESSOR` and
`DEVIATORSTRESS_ACCESSOR` are defined in `KernelMacros.hpp`, outside the sources at hand:
`meanStress k q` is the entry named by `MEANSTRESS_ACCESSOR( meanStress, k, q )` and
`devStress k q i` the entry named by `DEVIATORSTRESS_ACCESSOR( devStress, k, q, i )`. -/
structure Stress where
  meanStress : array2d
  devStress : array3d

/-- `VELOCITY_ACCESSOR( k, a, b )` with `STORE_NODE_DATA_LOCALLY` equal to `0` (source line
31). -/
def VELOCITY_ACCESSOR (inp : Input) (a b : Nat) : real64 :=
  inp.vel (inp.elemsToNodes inp.k a) b

/-- `Gdt` (source line 77). -/
def Gdt (inp : Input) : real64 :=
  inp.m_shearModulus inp.k * inp.dt

/-- `Lamedt` (source line 78). -/
def Lamedt (inp : Input) : real64 :=
  inp.m_bulkModulus inp.k * inp.dt - 2.0 / 3.0 * Gdt inp

/-- `Lame2Gdt` (source line 79). -/
def Lame2Gdt (inp : Input) : real64 :=
  Lamedt inp + 2 * Gdt inp

/-- Body of the loop over the nodes of the element (source lines 83-99), on `p_stress`. -/
def nodeBody (inp : Input) (a : Nat) (p_stress : array1d) : array1d :=
  let v0_x_dNdXa0 := VELOCITY_ACCESSOR inp a 0 * inp.dNdX inp.k inp.q a 0
  let v1_x_dNdXa1 := VELOCITY_ACCESSOR inp a 1 * inp.dNdX inp.k inp.q a 1
  let v2_x_dNdXa2 := VELOCITY_ACCESSOR inp a 2 * inp.dNdX inp.k inp.q a 2
  let p0 := set1 p_stress 0 (p_stress 0
    + (v0_x_dNdXa0 * Lame2Gdt inp + v1_x_dNdXa1 * Lamedt inp + v2_x_dNdXa2 * Lamedt inp))
  let p1 := set1 p0 1 (p0 1
    + (v0_x_dNdXa0 * Lamedt inp + v1_x_dNdXa1 * Lame2Gdt inp + v2_x_dNdXa2 * Lamedt inp))
  let p2 := set1 p1 2 (p1 2
    + (v0_x_dNdXa0 * Lamedt inp + v1_x_dNdXa1 * Lamedt inp + v2_x_dNdXa2 * Lame2Gdt inp))
  let p3 := set1 p2 3 (p2 3
    + (VELOCITY_ACCESSOR inp a 2 * inp.dNdX inp.k inp.q a 1
      + VELOCITY_ACCESSOR inp a 1 * inp.dNdX inp.k inp.q a 2) * Gdt inp)
  let p4 := set1 p3 4 (p3 4
    + (VELOCITY_ACCESSOR inp a 2 * inp.dNdX inp.k inp.q a 0
      + VELOCITY_ACCESSOR inp a 0 * inp.dNdX inp.k inp.q a 2) * Gdt inp)
  set1 p4 5 (p4 5
    + (VELOCITY_ACCESSOR inp a 1 * inp.dNdX inp.k inp.q a 0
      + VELOCITY_ACCESSOR inp a 0 * inp.dNdX inp.k inp.q a 1) * Gdt inp)

/-- The array `p_stress` after the loop over the nodes (source lines 81-99). -/
def p_stress (inp : Input) : array1d :=
  forLoop inp.NUM_NODES_PER_ELEM (nodeBody inp) ⟨fun _ => 0⟩

/-- `dMeanStress` (source line 101). -/
def dMeanStress (inp : Input) : real64 :=
  (p_stress inp 0 + p_stress inp 1 + p_stress inp 2) / 3.0

/-- The function `stressUpdate` (source lines 60-117): `s` holds `meanStress` and `devStress`
before the call, the result holds them after it. -/
def stressUpdate (inp : Input) (s : Stress) : Stress :=
  let p := p_stress inp
  let dMeanStress := dMeanStress inp
  let meanStress := set2 s.meanStress inp.k inp.q (s.meanStress inp.k inp.q + dMeanStress)
  let p := set1 p 0 (p 0 - dMeanStress)
  let p := set1 p 1 (p 1 - dMeanStress)
  let p := set1 p 2 (p 2 - dMeanStress)
  let d := s.devStress
  let d := set3 d inp.k inp.q 0 (d inp.k inp.q 0 + p 0)
  let d := set3 d inp.k inp.q 2 (d inp.k inp.q 2 + p 1)
  let d := set3 d inp.k inp.q 5 (d inp.k inp.q 5 + p 2)
  let d := set3 d inp.k inp.q 4 (d inp.k inp.q 4 + p 3)
  let d := set3 d inp.k inp.q 3 (d inp.k inp.q 3 + p 4)
  let d := set3 d inp.k inp.q 1 (d inp.k inp.q 1 + p 5)
  { meanStress := meanStress, devStress := d }

/-- The discrete velocity divergence at the quadrature point: the sum over the nodes `a` of the
element and the directions `i` of `velocity[a][i] * dNdX[k][q][a][i]`. -/
def velocityDivergence (inp : Input) : real64 :=
  ∑ a in Finset.range inp.NUM_NODES_PER_ELEM, ∑ i in Finset.range 3,
    VELOCITY_ACCESSOR inp a i * inp.dNdX inp.k inp.q a i

/-- An element with two nodes `0` and `1` at element `0` and quadrature point `0`: shear
modulus `3`, bulk modulus `5`, time step `1/2`, velocities `(1, 2, 3)` and `(-1, 0, 4)`,
shape-function derivatives `(1, 1, 1)` and `(2, -1, 1/2)`. -/
def twoNodeElement : Input where
  NUM_NODES_PER_ELEM := 2
  m_shearModulus := fun _ => 3
  m_bulkModulus := fun _ => 5
  k := 0
  q := 0
  elemsToNodes := fun _ a => a
  vel := fun n b => if n = 0 then (if b = 0 then 1 else if b = 1 then 2 else 3)
    else (if b = 0 then -1 else if b = 1 then 0 else 4)
  dNdX := fun _ _ a i => if a = 0 then 1 else (if i = 0 then 2 else if i = 1 then -1 else 1 / 2)
  dt := 1 / 2

/-- A stress state with mean stress `7` and a trace-free deviator with diagonal
`(1, 2, -3)` at every point. -/
def traceFreeStress : Stress where
  meanStress := ⟨fun _ _ => 7⟩
  devStress := ⟨fun _ _ i => if i = 0 then 1 else if i = 2 then 2 else if i = 5 then -3 else 9⟩

end SolidMechanicsLagrangianSSLEKernels

/-! ## FlowProppantTransportSolver::SolverStep -/

namespace FlowProppantTransportSolver

/-- A call of `NonlinearImplicitStep` on one of the two sub-solvers, with the time step that
is passed to it. -/
inductive Call
  | flow (dt : real64)
  | proppant (dt : real64)
  deriving DecidableEq

/-- What `SolverStep` reads and calls, for fixed arguments `time_n`, `cycleNumber` and
`domain`. The type `σ` is the state that the calls work on (the domain and the two
sub-solvers); the member functions of the sub-solvers are declared outside the sources at hand
and enter as fields. Writing to the log does not change the state and is left out. -/
structure Solver (σ : Type) where
  /-- `getLogLevel()` -/
  logLevel : Int
  /-- `m_nonlinearSolverParameters.m_maxIterNewton` -/
  m_maxIterNewton : Int
  /-- `m_nonlinearSolverParameters.m_minIterNewton` -/
  m_minIterNewton : Int
  /-- the statements before the loop (source lines 153-163) -/
  setup : σ → σ
  ResetStateToBeginningOfStep : σ → σ
  /-- `m_flowSolver->NonlinearImplicitStep` with the time step `dtReturn`: the new state and
  the returned time step -/
  flowStep : real64 → σ → σ × real64
  /-- `m_flowSolver->getNonlinearSolverParameters().m_numNewtonIterations` -/
  m_numNewtonIterations : σ → Int
  /-- `m_proppantSolver->NonlinearImplicitStep` with the time step `dtReturn` -/
  proppantStep : real64 → σ → σ × real64
  /-- the statements after the loop (source lines 198-199), given `dtReturn` -/
  complete : real64 → σ → σ

/-- The variables of the loop of `SolverStep` and the calls of `NonlinearImplicitStep` made so
far. -/
structure LoopState (σ : Type) where
  state : σ
  iter : Int
  dtReturn : real64
  calls : List Call

/-- The loop `while( iter < m_maxIterNewton )` of `SolverStep` (source lines 166-196), with a
bound `fuel` on the number of tests of the loop condition: the result is `none` when the bound
is reached before the loop ends. A `continue` goes on with the next test, the `break` ends the
loop. -/
def loop {σ : Type} (solver : Solver σ) : Nat → LoopState σ → Option (LoopState σ)
  | 0, _ => none
  | fuel + 1, l =>
    if l.iter < solver.m_maxIterNewton then
      let state := if l.iter = 0 then solver.ResetStateToBeginningOfStep l.state else l.state
      let flow := solver.flowStep l.dtReturn state
      let calls := l.calls ++ [Call.flow l.dtReturn]
      if flow.2 < l.dtReturn then
        loop solver fuel { state := flow.1, iter := 0, dtReturn := flow.2, calls := calls }
      else if solver.m_numNewtonIterations flow.1 ≤ solver.m_minIterNewton ∧ l.iter > 0
          ∧ solver.logLevel ≥ 1 then
        some { state := flow.1, iter := l.iter, dtReturn := l.dtReturn, calls := calls }
      else
        let proppant := solver.proppantStep l.dtReturn flow.1
        let calls := calls ++ [Call.proppant l.dtReturn]
        if proppant.2 < l.dtReturn then
          loop solver fuel
            { state := proppant.1, iter := 0, dtReturn := proppant.2, calls := calls }
        else
          loop solver fuel
            { state := proppant.1, iter := l.iter + 1, dtReturn := l.dtReturn, calls := calls }
    else some l

/-- What a call of `SolverStep` leaves: the state, the returned time step and the calls of
`NonlinearImplicitStep` that were made, in their order. -/
structure Result (σ : Type) where
  state : σ
  dtReturn : real64
  calls : List Call

/-- `FlowProppantTransportSolver::SolverStep` (source lines 144-203) for the time step `dt`,
with the bound `fuel` for its loop. -/
def SolverStep {σ : Type} (solver : Solver σ) (fuel : Nat) (dt : real64) (state : σ) :
    Option (Result σ) :=
  match loop solver fuel { state := solver.setup state, iter := 0, dtReturn := dt, calls := [] } with
  | none => none
  | some l =>
    some { state := solver.complete l.dtReturn l.state, dtReturn := l.dtReturn, calls := l.calls }

/-- Sub-solvers for the examples, on a state that counts the calls of `NonlinearImplicitStep`:
the flow solver always reports `0` Newton iterations and returns the time step that it is
given; the proppant solver returns the time step that it is given, except at its second call
(count `3`), where it returns `1`. At most `3` coupling iterations, `m_minIterNewton = 1`. -/
def exampleSolver (logLevel : Int) : Solver Nat where
  logLevel := logLevel
  m_maxIterNewton := 3
  m_minIterNewton := 1
  setup := fun n => n
  ResetStateToBeginningOfStep := fun n => n
  flowStep := fun dt n => (n + 1, dt)
  m_numNewtonIterations := fun _ => 0
  proppantStep := fun dt n => (n + 1, if n = 3 then 1 else dt)
  complete := fun _ n => n

end FlowProppantTransportSolver

/-! ## Loops and array writes -/

theorem set1_apply (a : array1d) (i : Nat) (v : real64) (k : Nat) :
    set1 a i v k = if k = i then v else a k := rfl

theorem set2_apply (a : array2d) (i j : Nat) (v : real64) (k l : Nat) :
    set2 a i j v k l = if k = i ∧ l = j then v else a k l := rfl

theorem set3_apply (a : array3d) (i j m : Nat) (v : real64) (k l n : Nat) :
    set3 a i j m v k l n = if k = i ∧ l = j ∧ n = m then v else a k l n := rfl


theorem forLoop_zero {σ : Type} (body : Nat → σ → σ) (s : σ) : forLoop 0 body s = s := rfl

theorem forLoop_succ {σ : Type} (n : Nat) (body : Nat → σ → σ) (s : σ) :
    forLoop (n + 1) body s = body n (forLoop n body s) := rfl

/-- Two loops with bodies that agree below the bound agree. -/
theorem forLoop_congr {σ : Type} (n : Nat) (body body' : Nat → σ → σ) (s : σ)
    (h : ∀ k t, k < n → body k t = body' k t) : forLoop n body s = forLoop n body' s := by
  induction n with
  | zero => rfl
  | succ n ih =>
    rw [forLoop_succ, forLoop_succ, h n _ (Nat.lt_succ_self n),
      ih (fun k t hk => h k t (Nat.lt_succ_of_lt hk))]

/-- A loop that adds `c k` to a scalar computes a sum. -/
theorem forLoop_sum (n : Nat) (c : Nat → real64) (x : real64) :
    forLoop n (fun k acc => acc + c k) x = x + ∑ k in Finset.range n, c k := by
  induction n with
  | zero => simp [forLoop]
  | succ n ih => rw [forLoop_succ, ih, Finset.sum_range_succ]; ring

/-- A loop over `k` that rewrites `a[k]` from its old value. -/
theorem forLoop_set1 (n : Nat) (g : Nat → real64 → real64) (a : array1d) (i : Nat) :
    forLoop n (fun k a => set1 a k (g k (a k))) a i = if i < n then g i (a i) else a i := by
  induction n with
  | zero => simp [forLoop]
  | succ n ih =>
    simp only [forLoop_succ, set1_apply]
    by_cases h : i = n
    · subst h; simp [ih]
    · have h2 : i < n + 1 ↔ i < n := by omega
      simp only [if_neg h, ih, h2]

/-- A loop over `k` that rewrites `a[r][k]` from its old value. -/
theorem forLoop_set2_row (n r : Nat) (g : Nat → real64 → real64) (a : array2d)
    (i j : Nat) :
    forLoop n (fun k a => set2 a r k (g k (a r k))) a i j
      = if i = r ∧ j < n then g j (a r j) else a i j := by
  induction n with
  | zero => simp [forLoop]
  | succ n ih =>
    simp only [forLoop_succ, set2_apply]
    by_cases h : i = r ∧ j = n
    · obtain ⟨h1, h2⟩ := h
      subst h1 h2
      simp [ih]
    · rw [if_neg h, ih]
      by_cases hi : i = r
      · have hj : j ≠ n := fun hj => h ⟨hi, hj⟩
        have h2 : j < n + 1 ↔ j < n := by omega
        simp only [hi, h2]
      · simp [hi]

/-- A loop over `k` that rewrites `a[r][c][k]` from its old value. -/
theorem forLoop_set3_row (n r c : Nat) (g : Nat → real64 → real64)
    (a : array3d) (i j m : Nat) :
    forLoop n (fun k a => set3 a r c k (g k (a r c k))) a i j m
      = if i = r ∧ j = c ∧ m < n then g m (a r c m) else a i j m := by
  induction n with
  | zero => simp [forLoop]
  | succ n ih =>
    simp only [forLoop_succ, set3_apply]
    by_cases h : i = r ∧ j = c ∧ m = n
    · obtain ⟨h1, h2, h3⟩ := h
      subst h1 h2 h3
      simp [ih]
    · rw [if_neg h, ih]
      by_cases hi : i = r ∧ j = c
      · have hm : m ≠ n := fun hm => h ⟨hi.1, hi.2, hm⟩
        have h2 : m < n + 1 ↔ m < n := by omega
        simp only [hi.1, hi.2, h2]
      · have h3 : ¬ (i = r ∧ j = c ∧ m < n) := fun h3 => hi ⟨h3.1, h3.2.1⟩
        have h4 : ¬ (i = r ∧ j = c ∧ m < n + 1) := fun h3 => hi ⟨h3.1, h3.2.1⟩
        simp only [if_neg h3, if_neg h4]

/-- Two nested loops that rewrite `a[k][l]` from its old value. -/
theorem forLoop_set2_nested (n m : Nat) (g : Nat → Nat → real64 → real64)
    (a : array2d) (i j : Nat) :
    forLoop n (fun k a => forLoop m (fun l a => set2 a k l (g k l (a k l))) a) a i j
      = if i < n ∧ j < m then g i j (a i j) else a i j := by
  induction n with
  | zero => simp [forLoop]
  | succ n ih =>
    rw [forLoop_succ, forLoop_set2_row m n (g n)]
    by_cases h : i = n
    · subst h
      have h1 : ¬ (i < i ∧ j < m) := by omega
      simp only [true_and, ih, if_neg h1, Nat.lt_succ_self]
    · have h2 : i < n + 1 ↔ i < n := by omega
      simp only [h, false_and, if_false, ih, h2]

/-- A loop on a pair whose body treats the two components separately. -/
theorem forLoop_pair {α β : Type} (n : Nat) (f : Nat → α → α) (g : Nat → β → β) (s : α × β) :
    forLoop n (fun k (p : α × β) => (f k p.1, g k p.2)) s = (forLoop n f s.1, forLoop n g s.2) := by
  induction n with
  | zero => rfl
  | succ n ih => simp only [forLoop_succ, ih]

/-- A loop over `k` that rewrites `a[k][c]` from its old value. -/
theorem forLoop_set2_col (n c : Nat) (g : Nat → real64 → real64) (a : array2d)
    (i j : Nat) :
    forLoop n (fun k a => set2 a k c (g k (a k c))) a i j
      = if i < n ∧ j = c then g i (a i c) else a i j := by
  induction n with
  | zero => simp [forLoop]
  | succ n ih =>
    simp only [forLoop_succ, set2_apply]
    by_cases h : i = n ∧ j = c
    · obtain ⟨h1, h2⟩ := h
      subst h1 h2
      simp [ih]
    · rw [if_neg h, ih]
      by_cases hj : j = c
      · have hi : i ≠ n := fun hi => h ⟨hi, hj⟩
        have h2 : i < n + 1 ↔ i < n := by omega
        simp only [hj, h2]
      · simp [hj]

/-- Two nested loops that rewrite `a[k][c][l]` from its old value. -/
theorem forLoop_set3_nested (n m c : Nat) (g : Nat → Nat → real64 → real64)
    (a : array3d) (i j l : Nat) :
    forLoop n (fun k a => forLoop m (fun l a => set3 a k c l (g k l (a k c l))) a) a i j l
      = if i < n ∧ j = c ∧ l < m then g i l (a i c l) else a i j l := by
  induction n generalizing j with
  | zero => simp [forLoop]
  | succ n ih =>
    rw [forLoop_succ, forLoop_set3_row m n c (g n)]
    by_cases h : i = n
    · subst h
      have h1 : ¬ (i < i ∧ j = c ∧ l < m) := by omega
      have h2 : ¬ (i < i ∧ l < m) := by omega
      simp only [true_and, ih, if_neg h1, if_neg h2, Nat.lt_succ_self]
    · have h2 : i < n + 1 ↔ i < n := by omega
      simp only [h, false_and, if_false, ih, h2]

/-- Position `ke * N + d` determines the stencil cell `ke` when `d < N`. -/
theorem dof_div {N ke d : Nat} (hd : d < N) : (ke * N + d) / N = ke := by
  have hN : 0 < N := by omega
  rw [Nat.add_comm, Nat.add_mul_div_right _ _ hN, Nat.div_eq_of_lt hd, Nat.zero_add]

/-- Position `ke * N + d` determines the degree of freedom `d` when `d < N`. -/
theorem dof_mod {N ke d : Nat} (hd : d < N) : (ke * N + d) % N = d := by
  rw [Nat.add_comm, Nat.add_mul_mod_self_right, Nat.mod_eq_of_lt hd]

/-! ## Mean density, pressure gradient and gravity head -/

namespace FluxKernel

/-- Total pressure minus capillary pressure of phase `ip` seen at stencil position `i`
(the bracket of source line 214). -/
theorem presGrad_loop (inp : Input) (ip : Nat) (dm : MeanDensity) (n : Nat) (s : Potential) :
    (forLoop n (potentialCell inp ip dm) s).presGrad
      = s.presGrad + ∑ i in Finset.range n, inp.stencilWeights i *
          (inp.pres (inp.seri i) (inp.sesri i) (inp.sei i)
            + inp.dPres (inp.seri i) (inp.sesri i) (inp.sei i)
            - (capillary inp ip i).capPressure) := by
  induction n with
  | zero => simp [forLoop]
  | succ n ih =>
    rw [forLoop_succ, Finset.sum_range_succ, ← add_assoc, ← ih]
    rfl

theorem gravHead_loop (inp : Input) (ip : Nat) (dm : MeanDensity) (n : Nat) (s : Potential) :
    (forLoop n (potentialCell inp ip dm) s).gravHead
      = s.gravHead + ∑ i in Finset.range n, dm.densMean *
          (inp.stencilWeights i * inp.gravCoef (inp.seri i) (inp.sesri i) (inp.sei i)) := by
  induction n with
  | zero => simp [forLoop]
  | succ n ih =>
    rw [forLoop_succ, Finset.sum_range_succ, ← add_assoc, ← ih]
    rfl

theorem dPresGrad_dP_loop (inp : Input) (ip : Nat) (dm : MeanDensity) (n : Nat) (s : Potential)
    (ke : Nat) :
    (forLoop n (potentialCell inp ip dm) s).dPresGrad_dP ke
      = if ke < n then s.dPresGrad_dP ke
          + inp.stencilWeights ke * (1 - (capillary inp ip ke).dCapPressure_dP)
        else s.dPresGrad_dP ke := by
  induction n with
  | zero => simp [forLoop]
  | succ n ih =>
    rw [forLoop_succ]
    simp only [potentialCell, set1_apply]
    by_cases h : ke = n
    · subst h
      rw [if_pos rfl, ih, if_neg (Nat.lt_irrefl _), if_pos (Nat.lt_succ_self _)]
    · have h2 : ke < n + 1 ↔ ke < n := by omega
      rw [if_neg h, ih]
      simp only [h2]

theorem dPresGrad_dC_loop (inp : Input) (ip : Nat) (dm : MeanDensity) (n : Nat) (s : Potential)
    (ke jc : Nat) :
    (forLoop n (potentialCell inp ip dm) s).dPresGrad_dC ke jc
      = if ke < n ∧ jc < inp.NC then s.dPresGrad_dC ke jc
          + -inp.stencilWeights ke * (capillary inp ip ke).dCapPressure_dC jc
        else s.dPresGrad_dC ke jc := by
  induction n with
  | zero => simp [forLoop]
  | succ n ih =>
    rw [forLoop_succ]
    simp only [potentialCell]
    rw [forLoop_set2_row inp.NC n
      (fun jc x => x + -inp.stencilWeights n * (capillary inp ip n).dCapPressure_dC jc)]
    by_cases h : ke = n
    · subst h
      have h1 : ¬ (ke < ke ∧ jc < inp.NC) := by omega
      simp only [true_and, ih, if_neg h1, Nat.lt_succ_self]
    · have h2 : ke < n + 1 ↔ ke < n := by omega
      simp only [h, false_and, if_false, ih, h2]

/-- The inner loop of source lines 225-232: the gravity term `gravD` of one stencil cell is
added to the pressure derivative of the gravity head at both primary cells. -/
theorem grav_dP (NC : Nat) (dm : MeanDensity) (gravD : real64)
    (s : array1d × array2d) (j : Nat) :
    (forLoop numElems
      (fun j (g : array1d × array2d) =>
        (set1 g.1 j (g.1 j + dm.dDensMean_dP j * gravD),
         forLoop NC (fun jc a => set2 a j jc (a j jc + dm.dDensMean_dC j jc * gravD)) g.2))
      s).1 j
      = if j < numElems then s.1 j + dm.dDensMean_dP j * gravD else s.1 j := by
  rw [forLoop_pair numElems (fun j a => set1 a j (a j + dm.dDensMean_dP j * gravD))
    (fun j b => forLoop NC (fun jc a => set2 a j jc (a j jc + dm.dDensMean_dC j jc * gravD)) b)]
  exact forLoop_set1 numElems (fun j x => x + dm.dDensMean_dP j * gravD) s.1 j

/-- The inner loop of source lines 225-232, composition derivatives. -/
theorem grav_dC (NC : Nat) (dm : MeanDensity) (gravD : real64)
    (s : array1d × array2d) (j jc : Nat) :
    (forLoop numElems
      (fun j (g : array1d × array2d) =>
        (set1 g.1 j (g.1 j + dm.dDensMean_dP j * gravD),
         forLoop NC (fun jc a => set2 a j jc (a j jc + dm.dDensMean_dC j jc * gravD)) g.2))
      s).2 j jc
      = if j < numElems ∧ jc < NC then s.2 j jc + dm.dDensMean_dC j jc * gravD
        else s.2 j jc := by
  rw [forLoop_pair numElems (fun j a => set1 a j (a j + dm.dDensMean_dP j * gravD))
    (fun j b => forLoop NC (fun jc a => set2 a j jc (a j jc + dm.dDensMean_dC j jc * gravD)) b)]
  exact forLoop_set2_nested numElems NC (fun j jc x => x + dm.dDensMean_dC j jc * gravD) s.2 j jc

theorem dGravHead_dP_loop (inp : Input) (ip : Nat) (dm : MeanDensity) (n : Nat) (s : Potential)
    (j : Nat) :
    (forLoop n (potentialCell inp ip dm) s).dGravHead_dP j
      = if j < numElems then s.dGravHead_dP j + ∑ i in Finset.range n, dm.dDensMean_dP j *
          (inp.stencilWeights i * inp.gravCoef (inp.seri i) (inp.sesri i) (inp.sei i))
        else s.dGravHead_dP j := by
  induction n with
  | zero => simp [forLoop]
  | succ n ih =>
    rw [forLoop_succ]
    simp only [potentialCell]
    rw [grav_dP]
    simp only [ih]
    by_cases h : j < numElems
    · simp only [h, if_true, Finset.sum_range_succ, add_assoc]
    · simp only [h, if_false]

theorem dGravHead_dC_loop (inp : Input) (ip : Nat) (dm : MeanDensity) (n : Nat) (s : Potential)
    (j jc : Nat) :
    (forLoop n (potentialCell inp ip dm) s).dGravHead_dC j jc
      = if j < numElems ∧ jc < inp.NC then s.dGravHead_dC j jc
          + ∑ i in Finset.range n, dm.dDensMean_dC j jc *
            (inp.stencilWeights i * inp.gravCoef (inp.seri i) (inp.sesri i) (inp.sei i))
        else s.dGravHead_dC j jc := by
  induction n with
  | zero => simp [forLoop]
  | succ n ih =>
    rw [forLoop_succ]
    simp only [potentialCell]
    rw [grav_dC]
    simp only [ih]
    by_cases h : j < numElems ∧ jc < inp.NC
    · simp only [h, and_self, if_true, Finset.sum_range_succ, add_assoc]
    · simp only [h, if_false]

/-- The mean density is the half sum of the phase densities of the two primary cells. -/
theorem meanDensity_densMean (inp : Input) (ip : Nat) :
    (meanDensity inp ip).densMean
      = 0.5 * inp.phaseDens (inp.seri 0) (inp.sesri 0) inp.fluidIndex (inp.sei 0) 0 ip
        + 0.5 * inp.phaseDens (inp.seri 1) (inp.sesri 1) inp.fluidIndex (inp.sei 1) 0 ip := by
  simp only [meanDensity, numElems, forLoop, primaryCell]
  ring

theorem meanDensity_dP (inp : Input) (ip j : Nat) :
    (meanDensity inp ip).dDensMean_dP j
      = if j < numElems
          then 0.5 * inp.dPhaseDens_dPres (inp.seri j) (inp.sesri j) inp.fluidIndex (inp.sei j) 0 ip
        else 0 := by
  simp only [meanDensity, numElems, forLoop, primaryCell, set1_apply]
  by_cases h1 : j = 1
  · subst h1; simp
  · by_cases h0 : j = 0
    · subst h0; simp
    · have h : ¬ (j < 2) := by omega
      simp only [h1, h0, h, if_false]

theorem meanDensity_dC (inp : Input) (ip j jc : Nat) :
    (meanDensity inp ip).dDensMean_dC j jc
      = if j < numElems ∧ jc < inp.NC
          then 0.5 * applyChainRule inp.NC (inp.dCompFrac_dCompDens (inp.seri j) (inp.sesri j) (inp.sei j))
            (inp.dPhaseDens_dComp (inp.seri j) (inp.sesri j) inp.fluidIndex (inp.sei j) 0 ip) jc
        else 0 := by
  simp only [meanDensity, numElems, forLoop, primaryCell]
  rw [forLoop_set2_row inp.NC 1 (fun jc _ => 0.5 * applyChainRule inp.NC
      (inp.dCompFrac_dCompDens (inp.seri 1) (inp.sesri 1) (inp.sei 1))
      (inp.dPhaseDens_dComp (inp.seri 1) (inp.sesri 1) inp.fluidIndex (inp.sei 1) 0 ip) jc),
    forLoop_set2_row inp.NC 0 (fun jc _ => 0.5 * applyChainRule inp.NC
      (inp.dCompFrac_dCompDens (inp.seri 0) (inp.sesri 0) (inp.sei 0))
      (inp.dPhaseDens_dComp (inp.seri 0) (inp.sesri 0) inp.fluidIndex (inp.sei 0) 0 ip) jc)]
  by_cases h1 : j = 1
  · subst h1; simp
  · by_cases h0 : j = 0
    · subst h0; simp
    · have h : ¬ (j < 2) := by omega
      simp only [h1, h0, h, false_and, if_false]

/-- The pressure gradient is accumulated over all stencil cells. -/
theorem potential_presGrad (inp : Input) (ip : Nat) :
    (potential inp ip).presGrad
      = ∑ i in Finset.range inp.stencilSize, inp.stencilWeights i *
          (inp.pres (inp.seri i) (inp.sesri i) (inp.sei i)
            + inp.dPres (inp.seri i) (inp.sesri i) (inp.sei i)
            - (capillary inp ip i).capPressure) := by
  rw [potential, presGrad_loop, zero_add]

/-- The gravity head is accumulated in the same loop as the pressure gradient. -/
theorem potential_gravHead (inp : Input) (ip : Nat) :
    (potential inp ip).gravHead
      = ∑ i in Finset.range inp.stencilSize, (meanDensity inp ip).densMean *
          (inp.stencilWeights i * inp.gravCoef (inp.seri i) (inp.sesri i) (inp.sei i)) := by
  rw [potential, gravHead_loop, zero_add]

theorem potential_dPresGrad_dP (inp : Input) (ip ke : Nat) :
    (potential inp ip).dPresGrad_dP ke
      = if ke < inp.stencilSize
          then inp.stencilWeights ke * (1 - (capillary inp ip ke).dCapPressure_dP)
        else 0 := by
  rw [potential, dPresGrad_dP_loop, zero_add]

theorem potential_dPresGrad_dC (inp : Input) (ip ke jc : Nat) :
    (potential inp ip).dPresGrad_dC ke jc
      = if ke < inp.stencilSize ∧ jc < inp.NC
          then -inp.stencilWeights ke * (capillary inp ip ke).dCapPressure_dC jc
        else 0 := by
  rw [potential, dPresGrad_dC_loop, zero_add]

theorem potential_dGravHead_dP (inp : Input) (ip j : Nat) :
    (potential inp ip).dGravHead_dP j
      = if j < numElems
          then ∑ i in Finset.range inp.stencilSize, (meanDensity inp ip).dDensMean_dP j *
            (inp.stencilWeights i * inp.gravCoef (inp.seri i) (inp.sesri i) (inp.sei i))
        else 0 := by
  rw [potential, dGravHead_dP_loop, zero_add]

theorem potential_dGravHead_dC (inp : Input) (ip j jc : Nat) :
    (potential inp ip).dGravHead_dC j jc
      = if j < numElems ∧ jc < inp.NC
          then ∑ i in Finset.range inp.stencilSize, (meanDensity inp ip).dDensMean_dC j jc *
            (inp.stencilWeights i * inp.gravCoef (inp.seri i) (inp.sesri i) (inp.sei i))
        else 0 := by
  rw [potential, dGravHead_dC_loop, zero_add]

/-! ## Derivatives of the phase flux -/

/-- A loop on the two phase-flux derivative arrays treats them separately. -/
theorem forLoop_phaseFluxDeriv (n NC : Nat) (g1 : Nat → real64 → real64)
    (g2 : Nat → Nat → real64 → real64) (pf : PhaseFluxDeriv) :
    forLoop n
      (fun ke (pf : PhaseFluxDeriv) =>
        { dPhaseFlux_dP := set1 pf.dPhaseFlux_dP ke (g1 ke (pf.dPhaseFlux_dP ke))
          dPhaseFlux_dC := forLoop NC
            (fun jc a => set2 a ke jc (g2 ke jc (a ke jc))) pf.dPhaseFlux_dC }) pf
      = { dPhaseFlux_dP := forLoop n (fun ke a => set1 a ke (g1 ke (a ke))) pf.dPhaseFlux_dP
          dPhaseFlux_dC := forLoop n
            (fun ke a => forLoop NC (fun jc a => set2 a ke jc (g2 ke jc (a ke jc))) a)
            pf.dPhaseFlux_dC } := by
  induction n with
  | zero => rfl
  | succ n ih => simp only [forLoop_succ, ih]

/-- Pressure derivative of the phase flux at a stencil cell: mobility times the derivative of
the potential, plus, at the upstream cell, the derivative of the mobility times the
potential. -/
theorem phaseFluxDeriv_dP (inp : Input) (ip ke : Nat) (hke : ke < inp.stencilSize) :
    (phaseFluxDeriv inp ip).dPhaseFlux_dP ke
      = ((potential inp ip).dPresGrad_dP ke - (potential inp ip).dGravHead_dP ke)
          * mobility inp ip
        + if ke = k_up inp ip
            then inp.dPhaseMob_dPres (inp.seri (k_up inp ip)) (inp.sesri (k_up inp ip))
              (inp.sei (k_up inp ip)) ip * potGrad inp ip
          else 0 := by
  simp only [phaseFluxDeriv]
  rw [forLoop_phaseFluxDeriv inp.stencilSize inp.NC (fun _ x => x * mobility inp ip)
      (fun _ _ x => x * mobility inp ip),
    forLoop_phaseFluxDeriv numElems inp.NC (fun ke x => x - (potential inp ip).dGravHead_dP ke)
      (fun ke jc x => x - (potential inp ip).dGravHead_dC ke jc),
    forLoop_phaseFluxDeriv inp.stencilSize inp.NC
      (fun ke x => x + (potential inp ip).dPresGrad_dP ke)
      (fun ke jc x => x + (potential inp ip).dPresGrad_dC ke jc)]
  simp only [set1_apply]
  rw [forLoop_set1 inp.stencilSize (fun _ x => x * mobility inp ip),
    forLoop_set1 numElems (fun ke x => x - (potential inp ip).dGravHead_dP ke),
    forLoop_set1 inp.stencilSize (fun ke x => x + (potential inp ip).dPresGrad_dP ke),
    forLoop_set1 inp.stencilSize (fun _ x => x * mobility inp ip),
    forLoop_set1 numElems (fun ke x => x - (potential inp ip).dGravHead_dP ke),
    forLoop_set1 inp.stencilSize (fun ke x => x + (potential inp ip).dPresGrad_dP ke)]
  have hg : (if ke < numElems
      then (0 : real64) + (potential inp ip).dPresGrad_dP ke - (potential inp ip).dGravHead_dP ke
      else 0 + (potential inp ip).dPresGrad_dP ke)
      = (potential inp ip).dPresGrad_dP ke - (potential inp ip).dGravHead_dP ke := by
    by_cases h : ke < numElems
    · rw [if_pos h, zero_add]
    · rw [if_neg h, zero_add, potential_dGravHead_dP, if_neg h, sub_zero]
  by_cases h : ke = k_up inp ip
  · rw [if_pos h, if_pos h, ← h]
    simp only [hke, if_true, hg]
  · rw [if_neg h, if_neg h]
    simp only [hke, if_true, hg, add_zero]

/-- Composition derivative of the phase flux at a stencil cell: the same two terms as for the
pressure derivative. -/
theorem phaseFluxDeriv_dC (inp : Input) (ip ke jc : Nat) (hke : ke < inp.stencilSize)
    (hjc : jc < inp.NC) :
    (phaseFluxDeriv inp ip).dPhaseFlux_dC ke jc
      = ((potential inp ip).dPresGrad_dC ke jc - (potential inp ip).dGravHead_dC ke jc)
          * mobility inp ip
        + if ke = k_up inp ip
            then inp.dPhaseMob_dComp (inp.seri (k_up inp ip)) (inp.sesri (k_up inp ip))
              (inp.sei (k_up inp ip)) ip jc * potGrad inp ip
          else 0 := by
  simp only [phaseFluxDeriv]
  rw [forLoop_phaseFluxDeriv inp.stencilSize inp.NC (fun _ x => x * mobility inp ip)
      (fun _ _ x => x * mobility inp ip),
    forLoop_phaseFluxDeriv numElems inp.NC (fun ke x => x - (potential inp ip).dGravHead_dP ke)
      (fun ke jc x => x - (potential inp ip).dGravHead_dC ke jc),
    forLoop_phaseFluxDeriv inp.stencilSize inp.NC
      (fun ke x => x + (potential inp ip).dPresGrad_dP ke)
      (fun ke jc x => x + (potential inp ip).dPresGrad_dC ke jc)]
  simp only []
  rw [forLoop_set2_row inp.NC (k_up inp ip)
      (fun jc x => x + inp.dPhaseMob_dComp (inp.seri (k_up inp ip)) (inp.sesri (k_up inp ip))
        (inp.sei (k_up inp ip)) ip jc * potGrad inp ip),
    forLoop_set2_nested inp.stencilSize inp.NC (fun _ _ x => x * mobility inp ip),
    forLoop_set2_nested numElems inp.NC (fun ke jc x => x - (potential inp ip).dGravHead_dC ke jc),
    forLoop_set2_nested inp.stencilSize inp.NC
      (fun ke jc x => x + (potential inp ip).dPresGrad_dC ke jc),
    forLoop_set2_nested inp.stencilSize inp.NC (fun _ _ x => x * mobility inp ip),
    forLoop_set2_nested numElems inp.NC (fun ke jc x => x - (potential inp ip).dGravHead_dC ke jc),
    forLoop_set2_nested inp.stencilSize inp.NC
      (fun ke jc x => x + (potential inp ip).dPresGrad_dC ke jc)]
  have hg : (if ke < numElems ∧ jc < inp.NC
      then (0 : real64) + (potential inp ip).dPresGrad_dC ke jc
        - (potential inp ip).dGravHead_dC ke jc
      else 0 + (potential inp ip).dPresGrad_dC ke jc)
      = (potential inp ip).dPresGrad_dC ke jc - (potential inp ip).dGravHead_dC ke jc := by
    by_cases h : ke < numElems ∧ jc < inp.NC
    · rw [if_pos h, zero_add]
    · rw [if_neg h, zero_add, potential_dGravHead_dC, if_neg h, sub_zero]
  have hS : ke < inp.stencilSize ∧ jc < inp.NC := ⟨hke, hjc⟩
  by_cases h : ke = k_up inp ip
  · rw [if_pos ⟨h, hjc⟩, if_pos h, ← h]
    simp only [if_pos hS]
    rw [hg]
  · rw [if_neg (fun h2 => h h2.1), if_neg h]
    simp only [if_pos hS]
    rw [hg, add_zero]

/-! ## The loops over components and phases -/

theorem componentBody_compFlux (inp : Input) (ip ic : Nat) (s : CompFlux) (ic' : Nat) :
    (componentBody inp ip ic s).compFlux ic'
      = if ic' = ic then s.compFlux ic + compFluxTerm inp ip ic else s.compFlux ic' := rfl

theorem componentBody_dP (inp : Input) (ip ic : Nat) (s : CompFlux) (ke ic' : Nat) :
    (componentBody inp ip ic s).dCompFlux_dP ke ic'
      = if ic' = ic then s.dCompFlux_dP ke ic + dCompFlux_dP_term inp ip ke ic
        else s.dCompFlux_dP ke ic' := by
  simp only [componentBody, dCompFlux_dP_term]
  rw [forLoop_pair inp.stencilSize
    (fun ke a => set2 a ke ic (a ke ic + (phaseFluxDeriv inp ip).dPhaseFlux_dP ke
      * inp.phaseCompFrac (inp.seri (k_up inp ip)) (inp.sesri (k_up inp ip))
          inp.fluidIndex (inp.sei (k_up inp ip)) 0 ip ic))
    (fun ke b => forLoop inp.NC
      (fun jc a => set3 a ke ic jc (a ke ic jc + (phaseFluxDeriv inp ip).dPhaseFlux_dC ke jc
        * inp.phaseCompFrac (inp.seri (k_up inp ip)) (inp.sesri (k_up inp ip))
            inp.fluidIndex (inp.sei (k_up inp ip)) 0 ip ic)) b)]
  simp only [set2_apply]
  rw [forLoop_set2_col inp.stencilSize ic
      (fun ke x => x + (phaseFluxDeriv inp ip).dPhaseFlux_dP ke
        * inp.phaseCompFrac (inp.seri (k_up inp ip)) (inp.sesri (k_up inp ip))
            inp.fluidIndex (inp.sei (k_up inp ip)) 0 ip ic),
    forLoop_set2_col inp.stencilSize ic
      (fun ke x => x + (phaseFluxDeriv inp ip).dPhaseFlux_dP ke
        * inp.phaseCompFrac (inp.seri (k_up inp ip)) (inp.sesri (k_up inp ip))
            inp.fluidIndex (inp.sei (k_up inp ip)) 0 ip ic)]
  by_cases hic : ic' = ic
  · subst hic
    by_cases hk : ke = k_up inp ip
    · subst hk
      by_cases hS : k_up inp ip < inp.stencilSize
      · simp only [hS, and_self, if_true, add_assoc]
      · simp only [hS, false_and, and_true, if_true, if_false, zero_add]
    · by_cases hS : ke < inp.stencilSize
      · simp only [hk, hS, false_and, and_self, and_true, if_true, if_false, add_zero]
      · simp only [hk, hS, false_and, and_true, if_true, if_false, add_zero]
  · simp only [hic, and_false, if_false]

theorem componentBody_dC (inp : Input) (ip ic : Nat) (s : CompFlux) (ke ic' jc : Nat) :
    (componentBody inp ip ic s).dCompFlux_dC ke ic' jc
      = if ic' = ic then s.dCompFlux_dC ke ic jc + dCompFlux_dC_term inp ip ke ic jc
        else s.dCompFlux_dC ke ic' jc := by
  simp only [componentBody, dCompFlux_dC_term]
  rw [forLoop_pair inp.stencilSize
    (fun ke a => set2 a ke ic (a ke ic + (phaseFluxDeriv inp ip).dPhaseFlux_dP ke
      * inp.phaseCompFrac (inp.seri (k_up inp ip)) (inp.sesri (k_up inp ip))
          inp.fluidIndex (inp.sei (k_up inp ip)) 0 ip ic))
    (fun ke b => forLoop inp.NC
      (fun jc a => set3 a ke ic jc (a ke ic jc + (phaseFluxDeriv inp ip).dPhaseFlux_dC ke jc
        * inp.phaseCompFrac (inp.seri (k_up inp ip)) (inp.sesri (k_up inp ip))
            inp.fluidIndex (inp.sei (k_up inp ip)) 0 ip ic)) b)]
  simp only []
  rw [forLoop_set3_row inp.NC (k_up inp ip) ic
      (fun jc x => x + phaseFlux inp ip * applyChainRule inp.NC
        (inp.dCompFrac_dCompDens (inp.seri (k_up inp ip)) (inp.sesri (k_up inp ip))
          (inp.sei (k_up inp ip)))
        (inp.dPhaseCompFrac_dComp (inp.seri (k_up inp ip)) (inp.sesri (k_up inp ip))
          inp.fluidIndex (inp.sei (k_up inp ip)) 0 ip ic) jc),
    forLoop_set3_nested inp.stencilSize inp.NC ic
      (fun ke jc x => x + (phaseFluxDeriv inp ip).dPhaseFlux_dC ke jc
        * inp.phaseCompFrac (inp.seri (k_up inp ip)) (inp.sesri (k_up inp ip))
            inp.fluidIndex (inp.sei (k_up inp ip)) 0 ip ic),
    forLoop_set3_nested inp.stencilSize inp.NC ic
      (fun ke jc x => x + (phaseFluxDeriv inp ip).dPhaseFlux_dC ke jc
        * inp.phaseCompFrac (inp.seri (k_up inp ip)) (inp.sesri (k_up inp ip))
            inp.fluidIndex (inp.sei (k_up inp ip)) 0 ip ic)]
  by_cases hic : ic' = ic
  · subst hic
    by_cases hjc : jc < inp.NC
    · by_cases hk : ke = k_up inp ip
      · subst hk
        by_cases hS : k_up inp ip < inp.stencilSize
        · simp only [hS, hjc, and_self, if_true, add_assoc]
        · simp only [hS, hjc, false_and, and_self, if_true, if_false, zero_add]
      · by_cases hS : ke < inp.stencilSize
        · simp only [hk, hS, hjc, false_and, and_self, if_true, if_false, add_zero]
        · simp only [hk, hS, hjc, false_and, and_true, if_true, if_false, add_zero]
    · simp only [hjc, and_false, if_true, if_false, add_zero]
  · simp only [hic, false_and, and_false, if_false]

/-- The loop over components adds the contribution of phase `ip` to every component flux. -/
theorem componentLoop_compFlux (inp : Input) (ip n : Nat) (s : CompFlux) (ic : Nat) :
    (forLoop n (componentBody inp ip) s).compFlux ic
      = if ic < n then s.compFlux ic + compFluxTerm inp ip ic else s.compFlux ic := by
  induction n with
  | zero => simp [forLoop]
  | succ n ih =>
    rw [forLoop_succ, componentBody_compFlux]
    by_cases h : ic = n
    · subst h
      rw [if_pos rfl, ih, if_neg (Nat.lt_irrefl _), if_pos (Nat.lt_succ_self _)]
    · have h2 : ic < n + 1 ↔ ic < n := by omega
      rw [if_neg h, ih]
      simp only [h2]

theorem componentLoop_dP (inp : Input) (ip n : Nat) (s : CompFlux) (ke ic : Nat) :
    (forLoop n (componentBody inp ip) s).dCompFlux_dP ke ic
      = if ic < n then s.dCompFlux_dP ke ic + dCompFlux_dP_term inp ip ke ic
        else s.dCompFlux_dP ke ic := by
  induction n with
  | zero => simp [forLoop]
  | succ n ih =>
    rw [forLoop_succ, componentBody_dP]
    by_cases h : ic = n
    · subst h
      rw [if_pos rfl, ih, if_neg (Nat.lt_irrefl _), if_pos (Nat.lt_succ_self _)]
    · have h2 : ic < n + 1 ↔ ic < n := by omega
      rw [if_neg h, ih]
      simp only [h2]

theorem componentLoop_dC (inp : Input) (ip n : Nat) (s : CompFlux) (ke ic jc : Nat) :
    (forLoop n (componentBody inp ip) s).dCompFlux_dC ke ic jc
      = if ic < n then s.dCompFlux_dC ke ic jc + dCompFlux_dC_term inp ip ke ic jc
        else s.dCompFlux_dC ke ic jc := by
  induction n with
  | zero => simp [forLoop]
  | succ n ih =>
    rw [forLoop_succ, componentBody_dC]
    by_cases h : ic = n
    · subst h
      rw [if_pos rfl, ih, if_neg (Nat.lt_irrefl _), if_pos (Nat.lt_succ_self _)]
    · have h2 : ic < n + 1 ↔ ic < n := by omega
      rw [if_neg h, ih]
      simp only [h2]

/-- A skipped phase leaves the component fluxes and their derivatives alone. -/
theorem phaseBody_skipped (inp : Input) (ip : Nat) (s : CompFlux) (h : skipped inp ip) :
    phaseBody inp ip s = s := by
  unfold skipped at h
  rw [phaseBody, if_pos h]

/-- A phase that is not skipped runs the loop over components. -/
theorem phaseBody_not_skipped (inp : Input) (ip : Nat) (s : CompFlux) (h : ¬ skipped inp ip) :
    phaseBody inp ip s = forLoop inp.NC (componentBody inp ip) s := by
  unfold skipped at h
  rw [phaseBody, if_neg h]

/-- The loop over phases sums the contributions of the phases that are not skipped. -/
theorem phaseLoop_compFlux (inp : Input) (n : Nat) (s : CompFlux) (ic : Nat)
    (hic : ic < inp.NC) :
    (forLoop n (phaseBody inp) s).compFlux ic
      = s.compFlux ic
        + ∑ ip in Finset.range n, if skipped inp ip then 0 else compFluxTerm inp ip ic := by
  induction n with
  | zero => simp [forLoop]
  | succ n ih =>
    rw [forLoop_succ, Finset.sum_range_succ, ← add_assoc, ← ih]
    by_cases h : skipped inp n
    · rw [phaseBody_skipped inp n _ h, if_pos h, add_zero]
    · rw [phaseBody_not_skipped inp n _ h, if_neg h, componentLoop_compFlux, if_pos hic]

theorem phaseLoop_dP (inp : Input) (n : Nat) (s : CompFlux) (ke ic : Nat) (hic : ic < inp.NC) :
    (forLoop n (phaseBody inp) s).dCompFlux_dP ke ic
      = s.dCompFlux_dP ke ic
        + ∑ ip in Finset.range n, if skipped inp ip then 0 else dCompFlux_dP_term inp ip ke ic := by
  induction n with
  | zero => simp [forLoop]
  | succ n ih =>
    rw [forLoop_succ, Finset.sum_range_succ, ← add_assoc, ← ih]
    by_cases h : skipped inp n
    · rw [phaseBody_skipped inp n _ h, if_pos h, add_zero]
    · rw [phaseBody_not_skipped inp n _ h, if_neg h, componentLoop_dP, if_pos hic]

theorem phaseLoop_dC (inp : Input) (n : Nat) (s : CompFlux) (ke ic jc : Nat)
    (hic : ic < inp.NC) :
    (forLoop n (phaseBody inp) s).dCompFlux_dC ke ic jc
      = s.dCompFlux_dC ke ic jc
        + ∑ ip in Finset.range n,
            if skipped inp ip then 0 else dCompFlux_dC_term inp ip ke ic jc := by
  induction n with
  | zero => simp [forLoop]
  | succ n ih =>
    rw [forLoop_succ, Finset.sum_range_succ, ← add_assoc, ← ih]
    by_cases h : skipped inp n
    · rw [phaseBody_skipped inp n _ h, if_pos h, add_zero]
    · rw [phaseBody_not_skipped inp n _ h, if_neg h, componentLoop_dC, if_pos hic]

/-- Component flux after the loop over phases. -/
theorem compFluxes_compFlux (inp : Input) (ic : Nat) (hic : ic < inp.NC) :
    (compFluxes inp).compFlux ic
      = ∑ ip in Finset.range inp.NP, if skipped inp ip then 0 else compFluxTerm inp ip ic := by
  rw [compFluxes, phaseLoop_compFlux inp _ _ _ hic, zero_add]

theorem compFluxes_dP (inp : Input) (ke ic : Nat) (hic : ic < inp.NC) :
    (compFluxes inp).dCompFlux_dP ke ic
      = ∑ ip in Finset.range inp.NP,
          if skipped inp ip then 0 else dCompFlux_dP_term inp ip ke ic := by
  rw [compFluxes, phaseLoop_dP inp _ _ _ _ hic, zero_add]

theorem compFluxes_dC (inp : Input) (ke ic jc : Nat) (hic : ic < inp.NC) :
    (compFluxes inp).dCompFlux_dC ke ic jc
      = ∑ ip in Finset.range inp.NP,
          if skipped inp ip then 0 else dCompFlux_dC_term inp ip ke ic jc := by
  rw [compFluxes, phaseLoop_dC inp _ _ _ _ _ hic, zero_add]

end FluxKernel





/-! ## The output loop of `Compute` -/

namespace FluxKernel

/-- The innermost loop of `populate`: the composition columns of stencil cell with first
column `base`. -/
theorem populate_comp_loop (NC ic base : Nat) (dt : real64) (c : Nat → real64) (hic : ic < NC)
    (n : Nat) (J : array2d) (i j : Nat) :
    forLoop n (fun jc J => set2 (set2 J ic (base + jc + 1) (dt * c jc)) (NC + ic) (base + jc + 1)
        (-dt * c jc)) J i j
      = if i = ic ∧ base + 1 ≤ j ∧ j < base + 1 + n then dt * c (j - (base + 1))
        else if i = NC + ic ∧ base + 1 ≤ j ∧ j < base + 1 + n then -dt * c (j - (base + 1))
        else J i j := by
  induction n with
  | zero =>
    have h1 : ¬ (i = ic ∧ base + 1 ≤ j ∧ j < base + 1 + 0) := by omega
    have h2 : ¬ (i = NC + ic ∧ base + 1 ≤ j ∧ j < base + 1 + 0) := by omega
    rw [forLoop_zero, if_neg h1, if_neg h2]
  | succ n ih =>
    simp only [forLoop_succ, set2_apply, ih]
    by_cases hj : j = base + n + 1
    · have e : j - (base + 1) = n := by omega
      have h4 : base + 1 ≤ j ∧ j < base + 1 + (n + 1) := by omega
      by_cases h1 : i = ic
      · have h3 : ¬ (i = NC + ic) := by omega
        rw [if_neg (fun h => h3 h.1), if_pos ⟨h1, hj⟩, if_pos ⟨h1, h4⟩, e]
      · by_cases h2 : i = NC + ic
        · rw [if_pos ⟨h2, hj⟩, if_neg (fun h => h1 h.1), if_pos ⟨h2, h4⟩, e]
        · rw [if_neg (fun h => h2 h.1), if_neg (fun h => h1 h.1), if_neg (fun h => h1 h.1),
            if_neg (fun h => h2 h.1), if_neg (fun h => h1 h.1), if_neg (fun h => h2 h.1)]
    · have h5 : (base + 1 ≤ j ∧ j < base + 1 + (n + 1)) ↔ (base + 1 ≤ j ∧ j < base + 1 + n) := by
        omega
      rw [if_neg (fun h => hj h.2), if_neg (fun h => hj h.2)]
      simp only [h5]

/-- The loop over stencil cells of `populate`, for one component `ic`. -/
theorem populate_cell_loop (inp : Input) (cf : CompFlux) (ic : Nat) (hic : ic < inp.NC)
    (m : Nat) (J : array2d) (i j : Nat) :
    forLoop m (fun ke J =>
        forLoop inp.NC
          (fun jc J =>
            set2 (set2 J ic (ke * (inp.NC + 1) + jc + 1) (inp.dt * cf.dCompFlux_dC ke ic jc))
              (inp.NC + ic) (ke * (inp.NC + 1) + jc + 1) (-inp.dt * cf.dCompFlux_dC ke ic jc))
          (set2 (set2 J ic (ke * (inp.NC + 1)) (inp.dt * cf.dCompFlux_dP ke ic))
            (inp.NC + ic) (ke * (inp.NC + 1)) (-inp.dt * cf.dCompFlux_dP ke ic))) J i j
      = if i = ic ∧ j < m * (inp.NC + 1)
          then inp.dt * cf.deriv (j / (inp.NC + 1)) ic (j % (inp.NC + 1))
        else if i = inp.NC + ic ∧ j < m * (inp.NC + 1)
          then -inp.dt * cf.deriv (j / (inp.NC + 1)) ic (j % (inp.NC + 1))
        else J i j := by
  induction m with
  | zero => simp [forLoop]
  | succ m ih =>
    rw [forLoop_succ, populate_comp_loop inp.NC ic (m * (inp.NC + 1)) inp.dt
      (fun jc => cf.dCompFlux_dC m ic jc) hic]
    simp only [set2_apply, ih]
    have hne : ic ≠ inp.NC + ic := by omega
    have hmul : (m + 1) * (inp.NC + 1) = m * (inp.NC + 1) + (inp.NC + 1) := by ring
    rcases Nat.lt_or_ge j (m * (inp.NC + 1)) with hlt | hge
    · -- a column of an earlier stencil cell
      have h1 : ¬ (m * (inp.NC + 1) + 1 ≤ j ∧ j < m * (inp.NC + 1) + 1 + inp.NC) := by omega
      have h2 : ¬ (j = m * (inp.NC + 1)) := by omega
      have h3 : j < (m + 1) * (inp.NC + 1) := by omega
      simp only [h1, h2, h3, hlt, and_false, and_true, if_false]
    · rcases Nat.lt_or_ge j ((m + 1) * (inp.NC + 1)) with hlt2 | hge2
      · -- a column of stencil cell `m`
        have hd : j - m * (inp.NC + 1) < inp.NC + 1 := by omega
        have hj : j = m * (inp.NC + 1) + (j - m * (inp.NC + 1)) := by omega
        have hdiv : j / (inp.NC + 1) = m := by
          have h := @dof_div (inp.NC + 1) m (j - m * (inp.NC + 1)) hd
          rwa [← hj] at h
        have hmod : j % (inp.NC + 1) = j - m * (inp.NC + 1) := by
          have h := @dof_mod (inp.NC + 1) m (j - m * (inp.NC + 1)) hd
          rwa [← hj] at h
        have h0 : ¬ (j < m * (inp.NC + 1)) := by omega
        rw [hdiv, hmod]
        rcases Nat.eq_or_lt_of_le hge with heq | hgt
        · -- the pressure column
          have h1 : ¬ (m * (inp.NC + 1) + 1 ≤ j ∧ j < m * (inp.NC + 1) + 1 + inp.NC) := by omega
          have h4 : j - m * (inp.NC + 1) = 0 := by omega
          simp only [h1, hlt2, h0, h4, heq.symm, CompFlux.deriv, and_false, and_true, if_false,
            if_true]
          by_cases hi : i = ic
          · simp [hi, hne]
          · simp [hi]
        · -- a composition column
          have h1 : m * (inp.NC + 1) + 1 ≤ j ∧ j < m * (inp.NC + 1) + 1 + inp.NC := by omega
          have h4 : ¬ (j - m * (inp.NC + 1) = 0) := by omega
          have h5 : j - (m * (inp.NC + 1) + 1) = j - m * (inp.NC + 1) - 1 := by omega
          have h2 : ¬ (j = m * (inp.NC + 1)) := by omega
          simp only [h1, hlt2, h4, h5, h2, h0, CompFlux.deriv, and_true, and_false, if_false]
      · -- a column beyond stencil cell `m`
        have h1 : ¬ (m * (inp.NC + 1) + 1 ≤ j ∧ j < m * (inp.NC + 1) + 1 + inp.NC) := by omega
        have h2 : ¬ (j = m * (inp.NC + 1)) := by omega
        have h3 : ¬ (j < (m + 1) * (inp.NC + 1)) := by omega
        have h0 : ¬ (j < m * (inp.NC + 1)) := by omega
        simp only [h1, h2, h3, h0, and_false, if_false]

theorem populateComponent_localFlux (inp : Input) (cf : CompFlux) (ic : Nat) (o : Output)
    (i : Nat) :
    (populateComponent inp cf ic o).localFlux i
      = if i = inp.NC + ic then -inp.dt * cf.compFlux ic
        else if i = ic then inp.dt * cf.compFlux ic else o.localFlux i := rfl

theorem populateComponent_jacobian (inp : Input) (cf : CompFlux) (ic : Nat) (hic : ic < inp.NC)
    (o : Output) (i j : Nat) :
    (populateComponent inp cf ic o).localFluxJacobian i j
      = if i = ic ∧ j < inp.stencilSize * (inp.NC + 1)
          then inp.dt * cf.deriv (j / (inp.NC + 1)) ic (j % (inp.NC + 1))
        else if i = inp.NC + ic ∧ j < inp.stencilSize * (inp.NC + 1)
          then -inp.dt * cf.deriv (j / (inp.NC + 1)) ic (j % (inp.NC + 1))
        else o.localFluxJacobian i j :=
  populate_cell_loop inp cf ic hic inp.stencilSize o.localFluxJacobian i j

/-- The first `n` rounds of the output loop. -/
theorem populate_loop_localFlux (inp : Input) (cf : CompFlux) (out : Output) (n : Nat)
    (hn : n ≤ inp.NC) (i : Nat) :
    (forLoop n (populateComponent inp cf) out).localFlux i
      = if i < n then inp.dt * cf.compFlux i
        else if inp.NC ≤ i ∧ i < inp.NC + n then -inp.dt * cf.compFlux (i - inp.NC)
        else out.localFlux i := by
  induction n with
  | zero =>
    have h0 : ¬ (i < 0) := by omega
    have h1 : ¬ (inp.NC ≤ i ∧ i < inp.NC + 0) := by omega
    rw [forLoop_zero, if_neg h0, if_neg h1]
  | succ n ih =>
    rw [forLoop_succ, populateComponent_localFlux, ih (by omega)]
    by_cases h1 : i = inp.NC + n
    · have h2 : ¬ (i < n + 1) := by omega
      have h3 : inp.NC ≤ i ∧ i < inp.NC + (n + 1) := by omega
      have h4 : i - inp.NC = n := by omega
      rw [if_pos h1, if_neg h2, if_pos h3, h4]
    · rw [if_neg h1]
      by_cases h2 : i = n
      · have h3 : i < n + 1 := by omega
        rw [if_pos h2, if_pos h3, h2]
      · have h3 : i < n + 1 ↔ i < n := by omega
        have h4 : (inp.NC ≤ i ∧ i < inp.NC + (n + 1)) ↔ (inp.NC ≤ i ∧ i < inp.NC + n) := by omega
        rw [if_neg h2]
        simp only [h3, h4]

/-- The first `n` rounds of the output loop, Jacobian part. -/
theorem populate_loop_jacobian (inp : Input) (cf : CompFlux) (out : Output) (n : Nat)
    (hn : n ≤ inp.NC) (i j : Nat) :
    (forLoop n (populateComponent inp cf) out).localFluxJacobian i j
      = if i < n ∧ j < inp.stencilSize * (inp.NC + 1)
          then inp.dt * cf.deriv (j / (inp.NC + 1)) i (j % (inp.NC + 1))
        else if (inp.NC ≤ i ∧ i < inp.NC + n) ∧ j < inp.stencilSize * (inp.NC + 1)
          then -inp.dt * cf.deriv (j / (inp.NC + 1)) (i - inp.NC) (j % (inp.NC + 1))
        else out.localFluxJacobian i j := by
  induction n with
  | zero =>
    have h0 : ¬ (i < 0 ∧ j < inp.stencilSize * (inp.NC + 1)) := by omega
    have h1 : ¬ ((inp.NC ≤ i ∧ i < inp.NC + 0) ∧ j < inp.stencilSize * (inp.NC + 1)) := by omega
    rw [forLoop_zero, if_neg h0, if_neg h1]
  | succ n ih =>
    rw [forLoop_succ, populateComponent_jacobian inp cf n (by omega), ih (by omega)]
    by_cases hj : j < inp.stencilSize * (inp.NC + 1)
    · simp only [hj, and_true]
      by_cases h1 : i = inp.NC + n
      · have h2 : ¬ (i < n + 1) := by omega
        have h3 : inp.NC ≤ i ∧ i < inp.NC + (n + 1) := by omega
        have h4 : i - inp.NC = n := by omega
        have h5 : ¬ (i = n) := by omega
        rw [if_neg h5, if_pos h1, if_neg h2, if_pos h3, h4]
      · rw [if_neg h1]
        by_cases h2 : i = n
        · have h3 : i < n + 1 := by omega
          rw [if_pos h2, if_pos h3, h2]
        · have h3 : i < n + 1 ↔ i < n := by omega
          have h4 : (inp.NC ≤ i ∧ i < inp.NC + (n + 1)) ↔ (inp.NC ≤ i ∧ i < inp.NC + n) := by
            omega
          rw [if_neg h2]
          simp only [h3, h4]
    · simp only [hj, and_false, if_false]

/-- Entries of `localFlux` after `populate`: the first cell. -/
theorem populate_localFlux_fst (inp : Input) (cf : CompFlux) (out : Output) (ic : Nat)
    (hic : ic < inp.NC) :
    (populate inp cf out).localFlux ic = inp.dt * cf.compFlux ic := by
  rw [populate, populate_loop_localFlux inp cf out inp.NC (Nat.le_refl _), if_pos hic]

/-- Entries of `localFlux` after `populate`: the second cell. -/
theorem populate_localFlux_snd (inp : Input) (cf : CompFlux) (out : Output) (ic : Nat)
    (hic : ic < inp.NC) :
    (populate inp cf out).localFlux (inp.NC + ic) = -inp.dt * cf.compFlux ic := by
  have h1 : ¬ (inp.NC + ic < inp.NC) := by omega
  have h2 : inp.NC ≤ inp.NC + ic ∧ inp.NC + ic < inp.NC + inp.NC := by omega
  rw [populate, populate_loop_localFlux inp cf out inp.NC (Nat.le_refl _), if_neg h1, if_pos h2,
    Nat.add_sub_cancel_left]

/-- Entries of `localFluxJacobian` after `populate`: the rows of the first cell. -/
theorem populate_jacobian_fst (inp : Input) (cf : CompFlux) (out : Output) (ic j : Nat)
    (hic : ic < inp.NC) (hj : j < inp.stencilSize * (inp.NC + 1)) :
    (populate inp cf out).localFluxJacobian ic j
      = inp.dt * cf.deriv (j / (inp.NC + 1)) ic (j % (inp.NC + 1)) := by
  rw [populate, populate_loop_jacobian inp cf out inp.NC (Nat.le_refl _), if_pos ⟨hic, hj⟩]

/-- Entries of `localFluxJacobian` after `populate`: the rows of the second cell. -/
theorem populate_jacobian_snd (inp : Input) (cf : CompFlux) (out : Output) (ic j : Nat)
    (hic : ic < inp.NC) (hj : j < inp.stencilSize * (inp.NC + 1)) :
    (populate inp cf out).localFluxJacobian (inp.NC + ic) j
      = -inp.dt * cf.deriv (j / (inp.NC + 1)) ic (j % (inp.NC + 1)) := by
  have h1 : ¬ (inp.NC + ic < inp.NC ∧ j < inp.stencilSize * (inp.NC + 1)) := by omega
  have h2 : (inp.NC ≤ inp.NC + ic ∧ inp.NC + ic < inp.NC + inp.NC)
      ∧ j < inp.stencilSize * (inp.NC + 1) := ⟨by omega, hj⟩
  rw [populate, populate_loop_jacobian inp cf out inp.NC (Nat.le_refl _), if_neg h1, if_pos h2,
    Nat.add_sub_cancel_left]

/-! ## Mass conservation -/

/-- C1. Mass conservation of `FluxKernel::Compute`: for every input and every prior content of
the output buffers, after the call `localFlux[NC+ic] = -localFlux[ic]` for every component
`ic < NC`, and `localFluxJacobian[NC+ic][j] = -localFluxJacobian[ic][j]` for every column
`j < stencilSize*(NC+1)`. -/
theorem Compute_mass_conservation (inp : Input) (out : Output) :
    (∀ ic, ic < inp.NC →
      (Compute inp out).localFlux (inp.NC + ic) = -(Compute inp out).localFlux ic) ∧
    (∀ ic j, ic < inp.NC → j < inp.stencilSize * (inp.NC + 1) →
      (Compute inp out).localFluxJacobian (inp.NC + ic) j
        = -(Compute inp out).localFluxJacobian ic j) := by
  constructor
  · intro ic hic
    rw [Compute, populate_localFlux_fst _ _ _ _ hic, populate_localFlux_snd _ _ _ _ hic]
    ring
  · intro ic j hic hj
    rw [Compute, populate_jacobian_fst _ _ _ _ _ hic hj, populate_jacobian_snd _ _ _ _ _ hic hj]
    ring

/-- C1, at the concrete scenario: component `1` and column `5` (the last of `2 * 3`). -/
theorem Compute_mass_conservation_witness :
    (Compute scenario Output.zero).localFlux (2 + 1) = -(Compute scenario Output.zero).localFlux 1 ∧
    (Compute scenario Output.zero).localFluxJacobian (2 + 1) 5
      = -(Compute scenario Output.zero).localFluxJacobian 1 5 :=
  ⟨(Compute_mass_conservation scenario Output.zero).1 1 (by decide),
   (Compute_mass_conservation scenario Output.zero).2 1 5 (by decide) (by decide)⟩


/-! ## Closed form of the outputs -/

/-- The flux of component `ic` into the first cell is `dt` times the sum of the contributions
of the phases that are not skipped. -/
theorem Compute_localFlux_fst (inp : Input) (out : Output) (ic : Nat) (hic : ic < inp.NC) :
    (Compute inp out).localFlux ic
      = inp.dt * ∑ ip in Finset.range inp.NP,
          if skipped inp ip then 0 else compFluxTerm inp ip ic := by
  rw [Compute, populate_localFlux_fst _ _ _ _ hic, compFluxes_compFlux _ _ hic]

theorem Compute_localFlux_snd (inp : Input) (out : Output) (ic : Nat) (hic : ic < inp.NC) :
    (Compute inp out).localFlux (inp.NC + ic)
      = -inp.dt * ∑ ip in Finset.range inp.NP,
          if skipped inp ip then 0 else compFluxTerm inp ip ic := by
  rw [Compute, populate_localFlux_snd _ _ _ _ hic, compFluxes_compFlux _ _ hic]

/-- The pressure column of stencil cell `ke` in the row of component `ic` of the first cell. -/
theorem Compute_jacobian_pres (inp : Input) (out : Output) (ic ke : Nat) (hic : ic < inp.NC)
    (hke : ke < inp.stencilSize) :
    (Compute inp out).localFluxJacobian ic (ke * (inp.NC + 1))
      = inp.dt * ∑ ip in Finset.range inp.NP,
          if skipped inp ip then 0 else dCompFlux_dP_term inp ip ke ic := by
  have hj : ke * (inp.NC + 1) < inp.stencilSize * (inp.NC + 1) :=
    Nat.mul_lt_mul_of_pos_right hke (Nat.succ_pos _)
  have hd : (ke * (inp.NC + 1) + 0) / (inp.NC + 1) = ke := dof_div (Nat.succ_pos _)
  have hm : (ke * (inp.NC + 1) + 0) % (inp.NC + 1) = 0 := dof_mod (Nat.succ_pos _)
  rw [Nat.add_zero] at hd hm
  rw [Compute, populate_jacobian_fst _ _ _ _ _ hic hj, hd, hm, CompFlux.deriv, if_pos rfl,
    compFluxes_dP _ _ _ hic]

/-- The column of component density `jc` of stencil cell `ke` in the row of component `ic` of
the first cell. -/
theorem Compute_jacobian_comp (inp : Input) (out : Output) (ic ke jc : Nat) (hic : ic < inp.NC)
    (hke : ke < inp.stencilSize) (hjc : jc < inp.NC) :
    (Compute inp out).localFluxJacobian ic (ke * (inp.NC + 1) + jc + 1)
      = inp.dt * ∑ ip in Finset.range inp.NP,
          if skipped inp ip then 0 else dCompFlux_dC_term inp ip ke ic jc := by
  have hj : ke * (inp.NC + 1) + jc + 1 < inp.stencilSize * (inp.NC + 1) := by
    have h1 : (ke + 1) * (inp.NC + 1) ≤ inp.stencilSize * (inp.NC + 1) :=
      Nat.mul_le_mul_right _ hke
    have h2 : (ke + 1) * (inp.NC + 1) = ke * (inp.NC + 1) + (inp.NC + 1) := by ring
    omega
  have hlt : jc + 1 < inp.NC + 1 := by omega
  have hd : (ke * (inp.NC + 1) + (jc + 1)) / (inp.NC + 1) = ke := dof_div hlt
  have hm : (ke * (inp.NC + 1) + (jc + 1)) % (inp.NC + 1) = jc + 1 := dof_mod hlt
  rw [← Nat.add_assoc] at hd hm
  rw [Compute, populate_jacobian_fst _ _ _ _ _ hic hj, hd, hm, CompFlux.deriv,
    if_neg (Nat.succ_ne_zero _), Nat.add_sub_cancel, compFluxes_dC _ _ _ _ hic]


/-- The rows of the second cell are the negated rows of the first cell. -/
theorem Compute_jacobian_snd (inp : Input) (out : Output) (ic j : Nat) (hic : ic < inp.NC)
    (hj : j < inp.stencilSize * (inp.NC + 1)) :
    (Compute inp out).localFluxJacobian (inp.NC + ic) j
      = -(Compute inp out).localFluxJacobian ic j := by
  rw [Compute, populate_jacobian_fst _ _ _ _ _ hic hj, populate_jacobian_snd _ _ _ _ _ hic hj]
  ring

/-- Column `ke * (NC+1)` lies within the Jacobian when `ke < stencilSize`. -/
theorem pres_column_lt (inp : Input) (ke : Nat) (hke : ke < inp.stencilSize) :
    ke * (inp.NC + 1) < inp.stencilSize * (inp.NC + 1) :=
  Nat.mul_lt_mul_of_pos_right hke (Nat.succ_pos _)

/-- Column `ke * (NC+1) + jc + 1` lies within the Jacobian when `ke < stencilSize` and
`jc < NC`. -/
theorem comp_column_lt (inp : Input) (ke jc : Nat) (hke : ke < inp.stencilSize)
    (hjc : jc < inp.NC) :
    ke * (inp.NC + 1) + jc + 1 < inp.stencilSize * (inp.NC + 1) := by
  have h1 : (ke + 1) * (inp.NC + 1) ≤ inp.stencilSize * (inp.NC + 1) :=
    Nat.mul_le_mul_right _ hke
  have h2 : (ke + 1) * (inp.NC + 1) = ke * (inp.NC + 1) + (inp.NC + 1) := by ring
  omega

/-! ## Immobile-phase exclusion -/

/-- A phase with upstream mobility exactly `0` is skipped. -/
theorem skipped_of_mobility_zero (inp : Input) (ip : Nat) (h : mobility inp ip = 0) :
    skipped inp ip := by
  unfold skipped
  rw [h, abs_zero]
  norm_num

/-- Entries of the outputs when the component fluxes and their derivatives are all zero. -/
theorem populate_zero (inp : Input) (out : Output) (i : Nat) (hi : i < 2 * inp.NC) :
    (populate inp ⟨⟨fun _ => 0⟩, ⟨fun _ _ => 0⟩, ⟨fun _ _ _ => 0⟩⟩ out).localFlux i = 0 ∧
    ∀ j, j < inp.stencilSize * (inp.NC + 1) →
      (populate inp ⟨⟨fun _ => 0⟩, ⟨fun _ _ => 0⟩, ⟨fun _ _ _ => 0⟩⟩ out).localFluxJacobian i j = 0 := by
  rcases Nat.lt_or_ge i inp.NC with h | h
  · constructor
    · rw [populate_localFlux_fst _ _ _ _ h, mul_zero]
    · intro j hj
      rw [populate_jacobian_fst _ _ _ _ _ h hj, CompFlux.deriv]
      simp
  · have hi2 : i - inp.NC < inp.NC := by omega
    have hi3 : i = inp.NC + (i - inp.NC) := by omega
    rw [hi3]
    constructor
    · rw [populate_localFlux_snd _ _ _ _ hi2, mul_zero]
    · intro j hj
      rw [populate_jacobian_snd _ _ _ _ _ hi2 hj, CompFlux.deriv]
      simp

/-- C2. Immobile-phase exclusion in `FluxKernel::Compute`: for every input and every phase
`ip` whose mobility at its upstream cell is exactly `0`, the outputs equal those of the same
call with phase `ip` left out of the loop over phases, whatever the potential difference of the
phase; in particular with `NP = 1` every entry of `localFlux` and of `localFluxJacobian` is
`0`. -/
theorem Compute_immobile_phase (inp : Input) (out : Output) (ip : Nat)
    (h : mobility inp ip = 0) :
    Compute inp out = ComputePhaseLeftOut inp ip out ∧
    (inp.NP = 1 → ip = 0 →
      (∀ i, i < 2 * inp.NC → (Compute inp out).localFlux i = 0) ∧
      (∀ i j, i < 2 * inp.NC → j < inp.stencilSize * (inp.NC + 1) →
        (Compute inp out).localFluxJacobian i j = 0)) := by
  have hcf : compFluxes inp = compFluxesPhaseLeftOut inp ip := by
    unfold compFluxes compFluxesPhaseLeftOut
    apply forLoop_congr
    intro k t _
    by_cases hk : k = ip
    · rw [if_pos hk, hk, phaseBody_skipped inp ip t (skipped_of_mobility_zero inp ip h)]
    · rw [if_neg hk]
  have heq : Compute inp out = ComputePhaseLeftOut inp ip out := by
    rw [Compute, ComputePhaseLeftOut, hcf]
  refine ⟨heq, ?_⟩
  intro hNP hip
  have hz : compFluxesPhaseLeftOut inp ip = ⟨⟨fun _ => 0⟩, ⟨fun _ _ => 0⟩, ⟨fun _ _ _ => 0⟩⟩ := by
    unfold compFluxesPhaseLeftOut
    rw [hNP, hip]
    rfl
  rw [heq, ComputePhaseLeftOut, hz]
  exact ⟨fun i hi => (populate_zero inp _ i hi).1, fun i j hi hj => (populate_zero inp _ i hi).2 j hj⟩

/-- C2 at the concrete scenario with the mobility of its only phase set to `0`: the potential
difference is `10`, and every entry of the outputs is `0`. -/
theorem Compute_immobile_phase_witness :
    mobility { scenario with phaseMob := fun _ _ _ _ => 0 } 0 = 0 ∧
    Compute { scenario with phaseMob := fun _ _ _ _ => 0 } Output.zero
      = ComputePhaseLeftOut { scenario with phaseMob := fun _ _ _ _ => 0 } 0 Output.zero ∧
    (Compute { scenario with phaseMob := fun _ _ _ _ => 0 } Output.zero).localFlux 3 = 0 ∧
    (Compute { scenario with phaseMob := fun _ _ _ _ => 0 } Output.zero).localFluxJacobian 3 5
      = 0 :=
  ⟨rfl,
   (Compute_immobile_phase { scenario with phaseMob := fun _ _ _ _ => 0 } Output.zero 0 rfl).1,
   ((Compute_immobile_phase { scenario with phaseMob := fun _ _ _ _ => 0 } Output.zero 0 rfl).2
      rfl rfl).1 3 (by decide),
   ((Compute_immobile_phase { scenario with phaseMob := fun _ _ _ _ => 0 } Output.zero 0 rfl).2
      rfl rfl).2 3 5 (by decide) (by decide)⟩


/-! ## Equilibrium -/

/-- Capillary pressure seen at a stencil position: the phase capillary pressure of the cell when
the flag is set, `0` otherwise. -/
theorem capillary_capPressure (inp : Input) (ip i : Nat) :
    (capillary inp ip i).capPressure
      = if inp.capPressureFlag ≠ 0
          then inp.phaseCapPressure (inp.seri i) (inp.sesri i) inp.capPressureIndex (inp.sei i) 0 ip
        else 0 := by
  unfold capillary
  by_cases h : inp.capPressureFlag ≠ 0
  · simp only [if_pos h]
    generalize inp.NP = n
    induction n with
    | zero => rfl
    | succ n ih => rw [forLoop_succ]; exact ih
  · simp only [if_neg h]

/-- With the capillary flag off, capillary pressure and its derivatives are zero. -/
theorem capillary_flag_off (inp : Input) (ip i : Nat) (h : inp.capPressureFlag = 0) :
    capillary inp ip i = ⟨0, 0, ⟨fun _ => 0⟩⟩ := by
  unfold capillary
  simp [h]

/-- The potential difference of a two-cell connection. -/
theorem potGrad_two_cells (inp : Input) (ip : Nat) (hS : inp.stencilSize = 2) :
    potGrad inp ip
      = inp.stencilWeights 0 * (inp.pres (inp.seri 0) (inp.sesri 0) (inp.sei 0)
            + inp.dPres (inp.seri 0) (inp.sesri 0) (inp.sei 0) - (capillary inp ip 0).capPressure)
        + inp.stencilWeights 1 * (inp.pres (inp.seri 1) (inp.sesri 1) (inp.sei 1)
            + inp.dPres (inp.seri 1) (inp.sesri 1) (inp.sei 1) - (capillary inp ip 1).capPressure)
        - ((meanDensity inp ip).densMean
              * (inp.stencilWeights 0 * inp.gravCoef (inp.seri 0) (inp.sesri 0) (inp.sei 0))
            + (meanDensity inp ip).densMean
              * (inp.stencilWeights 1 * inp.gravCoef (inp.seri 1) (inp.sesri 1) (inp.sei 1))) := by
  rw [potGrad, potential_presGrad, potential_gravHead, hS]
  simp only [Finset.sum_range_succ, Finset.sum_range_zero, zero_add]

/-- At equilibrium the potential difference of every phase is zero. -/
theorem Equilibrium.potGrad_eq_zero {inp : Input} (h : Equilibrium inp) (ip : Nat) :
    potGrad inp ip = 0 := by
  rw [potGrad_two_cells inp ip h.stencilSize_eq, capillary_capPressure, capillary_capPressure,
    h.weights, h.pres_eq, h.dPres_eq, h.capPressure_eq, h.gravCoef_fst, h.gravCoef_snd]
  ring

/-- At equilibrium cell `0` is taken as upstream for every phase. -/
theorem Equilibrium.k_up_eq_zero {inp : Input} (h : Equilibrium inp) (ip : Nat) :
    k_up inp ip = 0 := by
  rw [k_up, h.potGrad_eq_zero ip, if_pos (le_refl _)]

/-- At equilibrium every phase flux is zero. -/
theorem Equilibrium.phaseFlux_eq_zero {inp : Input} (h : Equilibrium inp) (ip : Nat) :
    phaseFlux inp ip = 0 := by
  rw [phaseFlux, h.potGrad_eq_zero ip, mul_zero]

theorem equilibriumScenario_equilibrium : Equilibrium equilibriumScenario where
  stencilSize_eq := rfl
  weights := by simp [equilibriumScenario, scenario]
  pres_eq := rfl
  dPres_eq := rfl
  capPressure_eq := fun _ => rfl
  gravCoef_fst := rfl
  gravCoef_snd := rfl

/-- C3. Zero flux at equilibrium: for every two-cell connection with weights `(T, -T)` whose
two primary cells have identical pressure, pressure increment and capillary pressure and zero
gravity coefficient, `FluxKernel::Compute` returns `localFlux[i] = 0` for every `i < 2*NC`,
for every `NP`, `NC`, `T` and `dt`. -/
theorem Compute_equilibrium_flux (inp : Input) (out : Output) (h : Equilibrium inp) (i : Nat)
    (hi : i < 2 * inp.NC) : (Compute inp out).localFlux i = 0 := by
  have hsum : ∀ ic, (∑ ip in Finset.range inp.NP,
      if skipped inp ip then 0 else compFluxTerm inp ip ic) = 0 := by
    intro ic
    apply Finset.sum_eq_zero
    intro ip _
    by_cases hs : skipped inp ip
    · rw [if_pos hs]
    · rw [if_neg hs, compFluxTerm, h.phaseFlux_eq_zero ip, zero_mul]
  rcases Nat.lt_or_ge i inp.NC with hlt | hge
  · rw [Compute_localFlux_fst inp out i hlt, hsum, mul_zero]
  · have hi2 : i - inp.NC < inp.NC := by omega
    have hi3 : i = inp.NC + (i - inp.NC) := by omega
    rw [hi3, Compute_localFlux_snd inp out _ hi2, hsum, mul_zero]

/-- C3 at the concrete equilibrium scenario, last entry of `localFlux`. -/
theorem Compute_equilibrium_flux_witness :
    Equilibrium equilibriumScenario ∧ (Compute equilibriumScenario Output.zero).localFlux 3 = 0 :=
  ⟨equilibriumScenario_equilibrium,
   Compute_equilibrium_flux equilibriumScenario Output.zero equilibriumScenario_equilibrium 3
     (by decide)⟩


/-- At equilibrium the gravity head does not depend on pressure. -/
theorem Equilibrium.dGravHead_dP_eq_zero {inp : Input} (h : Equilibrium inp) (ip j : Nat) :
    (potential inp ip).dGravHead_dP j = 0 := by
  rw [potential_dGravHead_dP, h.stencilSize_eq]
  simp [Finset.sum_range_succ, h.gravCoef_fst, h.gravCoef_snd]

/-- At equilibrium the gravity head does not depend on composition. -/
theorem Equilibrium.dGravHead_dC_eq_zero {inp : Input} (h : Equilibrium inp) (ip j jc : Nat) :
    (potential inp ip).dGravHead_dC j jc = 0 := by
  rw [potential_dGravHead_dC, h.stencilSize_eq]
  simp [Finset.sum_range_succ, h.gravCoef_fst, h.gravCoef_snd]

/-- At equilibrium the upstream mobility of every phase is the mobility of cell `0`. -/
theorem Equilibrium.mobility_eq {inp : Input} (h : Equilibrium inp) (ip : Nat) :
    mobility inp ip = inp.phaseMob (inp.seri 0) (inp.sesri 0) (inp.sei 0) ip := by
  rw [mobility, h.k_up_eq_zero ip]

/-- At equilibrium, what a phase adds to the pressure derivative of a component flux is the
mobility times the derivative of the pressure gradient times the component fraction. -/
theorem Equilibrium.dCompFlux_dP_term_eq {inp : Input} (h : Equilibrium inp) (ip ke ic : Nat)
    (hke : ke < inp.stencilSize) :
    dCompFlux_dP_term inp ip ke ic
      = inp.stencilWeights ke * (1 - (capillary inp ip ke).dCapPressure_dP)
          * inp.phaseMob (inp.seri 0) (inp.sesri 0) (inp.sei 0) ip
          * inp.phaseCompFrac (inp.seri 0) (inp.sesri 0) inp.fluidIndex (inp.sei 0) 0 ip ic := by
  rw [dCompFlux_dP_term, if_pos hke, phaseFluxDeriv_dP inp ip ke hke, h.phaseFlux_eq_zero ip,
    h.potGrad_eq_zero ip, h.dGravHead_dP_eq_zero ip ke, potential_dPresGrad_dP, if_pos hke,
    h.mobility_eq ip, h.k_up_eq_zero ip]
  simp

/-- At equilibrium, what a phase adds to a composition derivative of a component flux. -/
theorem Equilibrium.dCompFlux_dC_term_eq {inp : Input} (h : Equilibrium inp) (ip ke ic jc : Nat)
    (hke : ke < inp.stencilSize) (hjc : jc < inp.NC) :
    dCompFlux_dC_term inp ip ke ic jc
      = -inp.stencilWeights ke * (capillary inp ip ke).dCapPressure_dC jc
          * inp.phaseMob (inp.seri 0) (inp.sesri 0) (inp.sei 0) ip
          * inp.phaseCompFrac (inp.seri 0) (inp.sesri 0) inp.fluidIndex (inp.sei 0) 0 ip ic := by
  rw [dCompFlux_dC_term, if_pos ⟨hke, hjc⟩, phaseFluxDeriv_dC inp ip ke jc hke hjc,
    h.phaseFlux_eq_zero ip, h.potGrad_eq_zero ip, h.dGravHead_dC_eq_zero ip ke jc,
    potential_dPresGrad_dC, if_pos ⟨hke, hjc⟩, h.mobility_eq ip, h.k_up_eq_zero ip]
  simp

/-- The pressure columns of the Jacobian at equilibrium. -/
theorem Equilibrium.jacobian_pres {inp : Input} (h : Equilibrium inp) (out : Output)
    (ic ke : Nat) (hic : ic < inp.NC) (hke : ke < inp.stencilSize) :
    (Compute inp out).localFluxJacobian ic (ke * (inp.NC + 1))
      = inp.dt * ∑ ip in Finset.range inp.NP,
          if |inp.phaseMob (inp.seri 0) (inp.sesri 0) (inp.sei 0) ip| < 1e-20 then 0
          else inp.stencilWeights ke * (1 - (capillary inp ip ke).dCapPressure_dP)
            * inp.phaseMob (inp.seri 0) (inp.sesri 0) (inp.sei 0) ip
            * inp.phaseCompFrac (inp.seri 0) (inp.sesri 0) inp.fluidIndex (inp.sei 0) 0 ip ic := by
  rw [Compute_jacobian_pres inp out ic ke hic hke]
  congr 1
  apply Finset.sum_congr rfl
  intro ip _
  rw [h.dCompFlux_dP_term_eq ip ke ic hke]
  have hs : skipped inp ip ↔ |inp.phaseMob (inp.seri 0) (inp.sesri 0) (inp.sei 0) ip| < 1e-20 := by
    unfold skipped
    rw [h.mobility_eq ip]
  by_cases hc : |inp.phaseMob (inp.seri 0) (inp.sesri 0) (inp.sei 0) ip| < 1e-20
  · rw [if_pos (hs.2 hc), if_pos hc]
  · rw [if_neg (fun x => hc (hs.1 x)), if_neg hc]

/-- The composition columns of the Jacobian at equilibrium. -/
theorem Equilibrium.jacobian_comp {inp : Input} (h : Equilibrium inp) (out : Output)
    (ic ke jc : Nat) (hic : ic < inp.NC) (hke : ke < inp.stencilSize) (hjc : jc < inp.NC) :
    (Compute inp out).localFluxJacobian ic (ke * (inp.NC + 1) + jc + 1)
      = inp.dt * ∑ ip in Finset.range inp.NP,
          if |inp.phaseMob (inp.seri 0) (inp.sesri 0) (inp.sei 0) ip| < 1e-20 then 0
          else -inp.stencilWeights ke * (capillary inp ip ke).dCapPressure_dC jc
            * inp.phaseMob (inp.seri 0) (inp.sesri 0) (inp.sei 0) ip
            * inp.phaseCompFrac (inp.seri 0) (inp.sesri 0) inp.fluidIndex (inp.sei 0) 0 ip ic := by
  rw [Compute_jacobian_comp inp out ic ke jc hic hke hjc]
  congr 1
  apply Finset.sum_congr rfl
  intro ip _
  rw [h.dCompFlux_dC_term_eq ip ke ic jc hke hjc]
  have hs : skipped inp ip ↔ |inp.phaseMob (inp.seri 0) (inp.sesri 0) (inp.sei 0) ip| < 1e-20 := by
    unfold skipped
    rw [h.mobility_eq ip]
  by_cases hc : |inp.phaseMob (inp.seri 0) (inp.sesri 0) (inp.sei 0) ip| < 1e-20
  · rw [if_pos (hs.2 hc), if_pos hc]
  · rw [if_neg (fun x => hc (hs.1 x)), if_neg hc]


/-- In the concrete equilibrium scenario the capillary pressure does not depend on pressure. -/
theorem equilibriumScenario_dCapPressure_dP (ke : Nat) :
    (capillary equilibriumScenario 0 ke).dCapPressure_dP = 0 := by
  simp [capillary, equilibriumScenario, scenario, forLoop]

/-- C4, counterexample: the concrete scenario at equilibrium (pressures `100` and `100`, no
gravity, equal capillary pressure and composition, weights `(1, -1)`, mobility `2`, component
fraction `1/4`, `dt = 1`) has `localFluxJacobian[0][0] = 1/2`, so not every entry of the Jacobian
is zero at equilibrium. -/
theorem Compute_equilibrium_jacobian_counterexample :
    Equilibrium equilibriumScenario ∧
    0 < 2 * equilibriumScenario.NC ∧
    0 < equilibriumScenario.stencilSize * (equilibriumScenario.NC + 1) ∧
    (Compute equilibriumScenario Output.zero).localFluxJacobian 0 0 = 1 / 2 ∧
    (Compute equilibriumScenario Output.zero).localFluxJacobian 0 0 ≠ 0 := by
  have h := equilibriumScenario_equilibrium.jacobian_pres Output.zero 0 0 (by decide) (by decide)
  have e : (Compute equilibriumScenario Output.zero).localFluxJacobian 0 0 = 1 / 2 := by
    refine h.trans ?_
    rw [show equilibriumScenario.NP = 1 from rfl, Finset.sum_range_one,
      equilibriumScenario_dCapPressure_dP]
    simp only [equilibriumScenario, scenario]
    norm_num
  refine ⟨equilibriumScenario_equilibrium, by decide, by decide, e, ?_⟩
  rw [e]
  norm_num


/-- C4, amended. Derivatives at equilibrium: for every two-cell connection with weights
`(T, -T)` whose two primary cells have identical pressure, pressure increment and capillary
pressure and zero gravity coefficient, the derivative terms that carry the potential difference
as a factor vanish and every entry of `localFluxJacobian` reduces to the mobility-weighted
derivative of the pressure gradient, with the mobility and the component fraction of cell `0`
summed over the phases that are not skipped:
`localFluxJacobian[ic][ke*(NC+1)] = dt * sum_ip weight[ke] * (1 - dCapPressure_dP) * phaseMob * phaseCompFrac[ic]`,
`localFluxJacobian[ic][ke*(NC+1)+jc+1] = dt * sum_ip (-weight[ke] * dCapPressure_dC[jc]) * phaseMob * phaseCompFrac[ic]`,
and the rows `NC+ic` are their negations. These entries are not zero in general. -/
theorem Compute_equilibrium_jacobian (inp : Input) (out : Output) (h : Equilibrium inp)
    (ic ke : Nat) (hic : ic < inp.NC) (hke : ke < inp.stencilSize) :
    ((Compute inp out).localFluxJacobian ic (ke * (inp.NC + 1))
      = inp.dt * ∑ ip in Finset.range inp.NP,
          if |inp.phaseMob (inp.seri 0) (inp.sesri 0) (inp.sei 0) ip| < 1e-20 then 0
          else inp.stencilWeights ke * (1 - (capillary inp ip ke).dCapPressure_dP)
            * inp.phaseMob (inp.seri 0) (inp.sesri 0) (inp.sei 0) ip
            * inp.phaseCompFrac (inp.seri 0) (inp.sesri 0) inp.fluidIndex (inp.sei 0) 0 ip ic) ∧
    ((Compute inp out).localFluxJacobian (inp.NC + ic) (ke * (inp.NC + 1))
      = -(Compute inp out).localFluxJacobian ic (ke * (inp.NC + 1))) ∧
    (∀ jc, jc < inp.NC →
      (Compute inp out).localFluxJacobian ic (ke * (inp.NC + 1) + jc + 1)
        = inp.dt * ∑ ip in Finset.range inp.NP,
            if |inp.phaseMob (inp.seri 0) (inp.sesri 0) (inp.sei 0) ip| < 1e-20 then 0
            else -inp.stencilWeights ke * (capillary inp ip ke).dCapPressure_dC jc
              * inp.phaseMob (inp.seri 0) (inp.sesri 0) (inp.sei 0) ip
              * inp.phaseCompFrac (inp.seri 0) (inp.sesri 0) inp.fluidIndex (inp.sei 0) 0 ip ic) ∧
    (∀ jc, jc < inp.NC →
      (Compute inp out).localFluxJacobian (inp.NC + ic) (ke * (inp.NC + 1) + jc + 1)
        = -(Compute inp out).localFluxJacobian ic (ke * (inp.NC + 1) + jc + 1)) :=
  ⟨h.jacobian_pres out ic ke hic hke,
   Compute_jacobian_snd inp out ic _ hic (pres_column_lt inp ke hke),
   fun jc hjc => h.jacobian_comp out ic ke jc hic hke hjc,
   fun jc hjc => Compute_jacobian_snd inp out ic _ hic (comp_column_lt inp ke jc hke hjc)⟩

/-- C4, amended, at the concrete equilibrium scenario: component `0`, stencil cell `0`. -/
theorem Compute_equilibrium_jacobian_witness :
    Equilibrium equilibriumScenario ∧
    (Compute equilibriumScenario Output.zero).localFluxJacobian (2 + 0) (0 * (2 + 1))
      = -(Compute equilibriumScenario Output.zero).localFluxJacobian 0 (0 * (2 + 1)) :=
  ⟨equilibriumScenario_equilibrium,
   (Compute_equilibrium_jacobian equilibriumScenario Output.zero equilibriumScenario_equilibrium
      0 0 (by decide) (by decide)).2.1⟩


/-! ## Upwind symmetry -/

theorem capillary_reverse_fst (inp : Input) (ip : Nat) :
    capillary (reverseConnection inp) ip 0 = capillary inp ip 1 := rfl

theorem capillary_reverse_snd (inp : Input) (ip : Nat) :
    capillary (reverseConnection inp) ip 1 = capillary inp ip 0 := rfl

/-- The mean density does not depend on the order of the two primary cells. -/
theorem meanDensity_reverse (inp : Input) (ip : Nat) :
    (meanDensity (reverseConnection inp) ip).densMean = (meanDensity inp ip).densMean := by
  rw [meanDensity_densMean, meanDensity_densMean]
  simp only [reverseConnection, swapPrimary]
  simp only [if_true, if_false, one_ne_zero]
  ring

/-- Reversing a two-cell connection with weights `(T, -T)` negates the potential difference of
every phase. -/
theorem potGrad_reverse (inp : Input) (ip : Nat) (hS : inp.stencilSize = 2)
    (hw : inp.stencilWeights 1 = -inp.stencilWeights 0) :
    potGrad (reverseConnection inp) ip = -potGrad inp ip := by
  rw [potGrad_two_cells (reverseConnection inp) ip hS, potGrad_two_cells inp ip hS,
    capillary_reverse_fst, capillary_reverse_snd, meanDensity_reverse]
  simp only [reverseConnection, swapPrimary]
  simp only [if_true, if_false, one_ne_zero]
  rw [hw]
  ring


/-- The upstream position when the potential difference is not negative. -/
theorem k_up_of_nonneg (inp : Input) (ip : Nat) (h : 0 ≤ potGrad inp ip) : k_up inp ip = 0 := by
  rw [k_up, if_pos h]

/-- The upstream position when the potential difference is negative. -/
theorem k_up_of_neg (inp : Input) (ip : Nat) (h : potGrad inp ip < 0) : k_up inp ip = 1 := by
  rw [k_up, if_neg (not_le.mpr h)]

/-- With a non-zero potential difference the reversed connection takes the other position as
upstream. -/
theorem k_up_reverse (inp : Input) (ip : Nat) (hS : inp.stencilSize = 2)
    (hw : inp.stencilWeights 1 = -inp.stencilWeights 0) (hne : potGrad inp ip ≠ 0) :
    k_up (reverseConnection inp) ip = 1 - k_up inp ip := by
  have hrev := potGrad_reverse inp ip hS hw
  rcases lt_or_gt_of_ne hne with hneg | hpos
  · rw [k_up_of_neg inp ip hneg, k_up_of_nonneg (reverseConnection inp) ip (by rw [hrev]; linarith)]
  · rw [k_up_of_nonneg inp ip (le_of_lt hpos),
      k_up_of_neg (reverseConnection inp) ip (by rw [hrev]; linarith)]

/-- With a non-zero potential difference the reversed connection has the same upstream
mobility: the upstream cell is the same cell of the mesh. -/
theorem mobility_reverse (inp : Input) (ip : Nat) (hS : inp.stencilSize = 2)
    (hw : inp.stencilWeights 1 = -inp.stencilWeights 0) (hne : potGrad inp ip ≠ 0) :
    mobility (reverseConnection inp) ip = mobility inp ip := by
  have hk := k_up_reverse inp ip hS hw hne
  unfold mobility
  rw [hk]
  rcases lt_or_gt_of_ne hne with hneg | hpos
  · rw [k_up_of_neg inp ip hneg]; rfl
  · rw [k_up_of_nonneg inp ip (le_of_lt hpos)]; rfl

/-- Reversing a two-cell connection negates the contribution of every phase to every component
flux. -/
theorem compFluxTerm_reverse (inp : Input) (ip ic : Nat) (hS : inp.stencilSize = 2)
    (hw : inp.stencilWeights 1 = -inp.stencilWeights 0) :
    (if skipped (reverseConnection inp) ip then 0 else compFluxTerm (reverseConnection inp) ip ic)
      = -(if skipped inp ip then 0 else compFluxTerm inp ip ic) := by
  have hrev := potGrad_reverse inp ip hS hw
  by_cases hne : potGrad inp ip = 0
  · -- no flow in either direction
    have h1 : compFluxTerm inp ip ic = 0 := by
      rw [compFluxTerm, phaseFlux, hne, mul_zero, zero_mul]
    have h2 : compFluxTerm (reverseConnection inp) ip ic = 0 := by
      rw [compFluxTerm, phaseFlux, hrev, hne, neg_zero, mul_zero, zero_mul]
    rw [h1, h2, ite_self, ite_self, neg_zero]
  · have hm := mobility_reverse inp ip hS hw hne
    have hk := k_up_reverse inp ip hS hw hne
    have hs : skipped (reverseConnection inp) ip ↔ skipped inp ip := by
      unfold skipped
      rw [hm]
    have ht : compFluxTerm (reverseConnection inp) ip ic = -compFluxTerm inp ip ic := by
      unfold compFluxTerm phaseFlux
      rw [hm, hrev, hk]
      rcases lt_or_gt_of_ne hne with hneg | hpos
      · rw [k_up_of_neg inp ip hneg]
        have e : swapPrimary (1 - 1) = 1 := rfl
        simp only [reverseConnection, e]
        ring
      · rw [k_up_of_nonneg inp ip (le_of_lt hpos)]
        have e : swapPrimary (1 - 0) = 0 := rfl
        simp only [reverseConnection, e]
        ring
    by_cases hsk : skipped inp ip
    · rw [if_pos hsk, if_pos (hs.2 hsk), neg_zero]
    · rw [if_neg hsk, if_neg (fun x => hsk (hs.1 x)), ht]

/-- C5. Upwind symmetry of the flux: for every two-cell connection with cells `(a, b)` and
weights `(T, -T)`, running `FluxKernel::Compute` on the reversed connection (cells `(b, a)`
with all per-cell data swapped, so that each cell's weight is negated) yields the sign flip of
the original flux vector, `localFlux'[i] = -localFlux[i]` for every `i < 2*NC`, for every `NP`,
`NC`, gravity and capillary setting and whatever the prior contents of the output buffers. -/
theorem Compute_reverse_flux (inp : Input) (out out' : Output) (hS : inp.stencilSize = 2)
    (hw : inp.stencilWeights 1 = -inp.stencilWeights 0) (i : Nat) (hi : i < 2 * inp.NC) :
    (Compute (reverseConnection inp) out').localFlux i = -(Compute inp out).localFlux i := by
  have hsum : ∀ ic, (∑ ip in Finset.range (reverseConnection inp).NP,
      if skipped (reverseConnection inp) ip then 0 else compFluxTerm (reverseConnection inp) ip ic)
      = -∑ ip in Finset.range inp.NP, if skipped inp ip then 0 else compFluxTerm inp ip ic := by
    intro ic
    rw [← Finset.sum_neg_distrib]
    exact Finset.sum_congr rfl (fun ip _ => compFluxTerm_reverse inp ip ic hS hw)
  have hNC : (reverseConnection inp).NC = inp.NC := rfl
  have hdt : (reverseConnection inp).dt = inp.dt := rfl
  rcases Nat.lt_or_ge i inp.NC with hlt | hge
  · rw [Compute_localFlux_fst inp out i hlt,
      Compute_localFlux_fst (reverseConnection inp) out' i hlt, hsum, hdt]
    ring
  · have hi2 : i - inp.NC < inp.NC := by omega
    have hi3 : i = inp.NC + (i - inp.NC) := by omega
    rw [hi3, Compute_localFlux_snd inp out _ hi2]
    have h := Compute_localFlux_snd (reverseConnection inp) out' _ hi2
    rw [hNC, hsum, hdt] at h
    rw [h]
    ring

/-- C5 at the concrete scenario (pressures `[100, 90]`), first entry of `localFlux`. -/
theorem Compute_reverse_flux_witness :
    scenario.stencilSize = 2 ∧ scenario.stencilWeights 1 = -scenario.stencilWeights 0 ∧
    (Compute (reverseConnection scenario) Output.zero).localFlux 0
      = -(Compute scenario Output.zero).localFlux 0 :=
  ⟨rfl, by simp [scenario],
   Compute_reverse_flux scenario Output.zero Output.zero rfl (by simp [scenario]) 0 (by decide)⟩


/-- The potential difference of the only phase of the concrete scenario is
`1 * 100 + (-1) * 90 = 10`. -/
theorem scenario_potGrad : potGrad scenario 0 = 10 := by
  rw [potGrad_two_cells scenario 0 rfl, capillary_flag_off scenario 0 0 rfl,
    capillary_flag_off scenario 0 1 rfl]
  simp only [scenario]
  norm_num

/-- C6, counterexample: in the concrete scenario at equilibrium the potential difference of the
phase is `0` for the connection and for the reversed connection, and both take stencil position
`0` as upstream; the reversed connection does not choose position `1` where the original chose
position `0`. -/
theorem k_up_reverse_counterexample :
    equilibriumScenario.stencilSize = 2 ∧
    equilibriumScenario.stencilWeights 1 = -equilibriumScenario.stencilWeights 0 ∧
    k_up equilibriumScenario 0 = 0 ∧
    k_up (reverseConnection equilibriumScenario) 0 = 0 ∧
    k_up (reverseConnection equilibriumScenario) 0 ≠ 1 := by
  have hw : equilibriumScenario.stencilWeights 1 = -equilibriumScenario.stencilWeights 0 :=
    equilibriumScenario_equilibrium.weights
  have h0 : k_up equilibriumScenario 0 = 0 := equilibriumScenario_equilibrium.k_up_eq_zero 0
  have h1 : k_up (reverseConnection equilibriumScenario) 0 = 0 := by
    apply k_up_of_nonneg
    rw [potGrad_reverse equilibriumScenario 0 rfl hw,
      equilibriumScenario_equilibrium.potGrad_eq_zero 0, neg_zero]
  refine ⟨rfl, hw, h0, h1, ?_⟩
  rw [h1]
  decide

/-- C6, amended. Upwind symmetry of the selection: for every two-cell connection with weights
`(T, -T)` and every phase whose potential difference is not zero, reversing the order of the two
primary cells makes `FluxKernel::Compute` select the opposite stencil position as upstream
(`1` where the original chose `0`, and `0` where the original chose `1`), which is the same cell
of the mesh; when the potential difference is exactly `0`, the original and the reversed
connection both select position `0`. -/
theorem k_up_reverse_selection (inp : Input) (ip : Nat) (hS : inp.stencilSize = 2)
    (hw : inp.stencilWeights 1 = -inp.stencilWeights 0) :
    (potGrad inp ip ≠ 0 →
      (k_up inp ip = 0 → k_up (reverseConnection inp) ip = 1) ∧
      (k_up inp ip = 1 → k_up (reverseConnection inp) ip = 0) ∧
      (reverseConnection inp).seri (k_up (reverseConnection inp) ip) = inp.seri (k_up inp ip) ∧
      (reverseConnection inp).sesri (k_up (reverseConnection inp) ip) = inp.sesri (k_up inp ip) ∧
      (reverseConnection inp).sei (k_up (reverseConnection inp) ip) = inp.sei (k_up inp ip)) ∧
    (potGrad inp ip = 0 → k_up inp ip = 0 ∧ k_up (reverseConnection inp) ip = 0) := by
  constructor
  · intro hne
    have hk := k_up_reverse inp ip hS hw hne
    rcases lt_or_gt_of_ne hne with hneg | hpos
    · have h1 := k_up_of_neg inp ip hneg
      rw [h1] at hk
      rw [hk, h1]
      exact ⟨fun h => absurd h (by decide), fun _ => rfl, rfl, rfl, rfl⟩
    · have h0 := k_up_of_nonneg inp ip (le_of_lt hpos)
      rw [h0] at hk
      rw [hk, h0]
      exact ⟨fun _ => rfl, fun h => absurd h (by decide), rfl, rfl, rfl⟩
  · intro hz
    refine ⟨k_up_of_nonneg inp ip (le_of_eq hz.symm), ?_⟩
    apply k_up_of_nonneg
    rw [potGrad_reverse inp ip hS hw, hz, neg_zero]

/-- C6, amended, at the concrete scenario: the potential difference is `10`, the connection
takes position `0` and the reversed connection position `1`. -/
theorem k_up_reverse_selection_witness :
    scenario.stencilSize = 2 ∧ scenario.stencilWeights 1 = -scenario.stencilWeights 0 ∧
    potGrad scenario 0 ≠ 0 ∧ k_up scenario 0 = 0 ∧ k_up (reverseConnection scenario) 0 = 1 := by
  have hw : scenario.stencilWeights 1 = -scenario.stencilWeights 0 := by simp [scenario]
  have hne : potGrad scenario 0 ≠ 0 := by rw [scenario_potGrad]; norm_num
  have h0 : k_up scenario 0 = 0 := k_up_of_nonneg scenario 0 (by rw [scenario_potGrad]; norm_num)
  exact ⟨rfl, hw, hne, h0, ((k_up_reverse_selection scenario 0 rfl hw).1 hne).1 h0⟩


/-! ## The concrete two-cell scenario -/

/-- The potential difference in the two-cell scenario is the difference of the total
pressures. -/
theorem SinglePhaseTwoCell.potGrad_eq {inp : Input} (h : SinglePhaseTwoCell inp) (ip : Nat) :
    potGrad inp ip
      = (inp.pres (inp.seri 0) (inp.sesri 0) (inp.sei 0)
          + inp.dPres (inp.seri 0) (inp.sesri 0) (inp.sei 0))
        - (inp.pres (inp.seri 1) (inp.sesri 1) (inp.sei 1)
          + inp.dPres (inp.seri 1) (inp.sesri 1) (inp.sei 1)) := by
  rw [potGrad_two_cells inp ip h.stencilSize_eq,
    capillary_flag_off inp ip 0 h.capPressureFlag_off,
    capillary_flag_off inp ip 1 h.capPressureFlag_off,
    h.weight_fst, h.weight_snd, h.gravCoef_fst, h.gravCoef_snd]
  ring

/-- Cell `0` is upstream in the two-cell scenario. -/
theorem SinglePhaseTwoCell.k_up_eq {inp : Input} (h : SinglePhaseTwoCell inp) (ip : Nat) :
    k_up inp ip = 0 := by
  apply k_up_of_nonneg
  rw [h.potGrad_eq ip]
  linarith [h.pres_gt]

/-- The flux of the two-cell scenario: zero when the phase is skipped, otherwise
`dt * mobility * (P0 - P1) * phaseCompFrac[ic]` with the values of cell `0`. -/
theorem SinglePhaseTwoCell.localFlux_eq {inp : Input} (h : SinglePhaseTwoCell inp)
    (out : Output) (ic : Nat) (hic : ic < inp.NC) :
    (Compute inp out).localFlux ic
      = if |inp.phaseMob (inp.seri 0) (inp.sesri 0) (inp.sei 0) 0| < 1e-20 then 0
        else inp.dt * inp.phaseMob (inp.seri 0) (inp.sesri 0) (inp.sei 0) 0
          * ((inp.pres (inp.seri 0) (inp.sesri 0) (inp.sei 0)
              + inp.dPres (inp.seri 0) (inp.sesri 0) (inp.sei 0))
            - (inp.pres (inp.seri 1) (inp.sesri 1) (inp.sei 1)
              + inp.dPres (inp.seri 1) (inp.sesri 1) (inp.sei 1)))
          * inp.phaseCompFrac (inp.seri 0) (inp.sesri 0) inp.fluidIndex (inp.sei 0) 0 0 ic := by
  have hm : mobility inp 0 = inp.phaseMob (inp.seri 0) (inp.sesri 0) (inp.sei 0) 0 := by
    rw [mobility, h.k_up_eq 0]
  have hs : skipped inp 0 ↔ |inp.phaseMob (inp.seri 0) (inp.sesri 0) (inp.sei 0) 0| < 1e-20 := by
    unfold skipped
    rw [hm]
  rw [Compute_localFlux_fst inp out ic hic, h.NP_eq, Finset.sum_range_one]
  by_cases hc : |inp.phaseMob (inp.seri 0) (inp.sesri 0) (inp.sei 0) 0| < 1e-20
  · rw [if_pos (hs.2 hc), if_pos hc, mul_zero]
  · rw [if_neg (fun x => hc (hs.1 x)), if_neg hc, compFluxTerm, phaseFlux, hm, h.potGrad_eq 0,
      h.k_up_eq 0]
    ring

theorem scenario_singlePhaseTwoCell : SinglePhaseTwoCell scenario where
  NP_eq := rfl
  stencilSize_eq := rfl
  weight_fst := by simp [scenario]
  weight_snd := by simp [scenario]
  gravCoef_fst := rfl
  gravCoef_snd := rfl
  capPressureFlag_off := rfl
  pres_gt := by simp only [scenario]; norm_num

theorem tinyMobilityScenario_singlePhaseTwoCell : SinglePhaseTwoCell tinyMobilityScenario where
  NP_eq := rfl
  stencilSize_eq := rfl
  weight_fst := by simp [tinyMobilityScenario, scenario]
  weight_snd := by simp [tinyMobilityScenario, scenario]
  gravCoef_fst := rfl
  gravCoef_snd := rfl
  capPressureFlag_off := rfl
  pres_gt := by simp only [tinyMobilityScenario, scenario]; norm_num

/-- C7, counterexample: the concrete scenario (`NP = 1`, `NC = 2`, pressures `[100, 90]`, weights
`(1, -1)`, no gravity, capillary flag off) with upstream mobility `1e-21`. The phase is skipped,
so `localFlux[0] = 0`, while `dt * mobility * (P0 - P1) * phaseCompFrac[0]` is positive: the two
do not have the same sign. -/
theorem Compute_scenario_sign_counterexample :
    SinglePhaseTwoCell tinyMobilityScenario ∧
    (Compute tinyMobilityScenario Output.zero).localFlux 0 = 0 ∧
    0 < tinyMobilityScenario.dt * tinyMobilityScenario.phaseMob 0 0 0 0
        * ((tinyMobilityScenario.pres 0 0 0 + tinyMobilityScenario.dPres 0 0 0)
          - (tinyMobilityScenario.pres 0 0 1 + tinyMobilityScenario.dPres 0 0 1))
        * tinyMobilityScenario.phaseCompFrac 0 0 0 0 0 0 0 ∧
    SignType.sign ((Compute tinyMobilityScenario Output.zero).localFlux 0)
      ≠ SignType.sign (tinyMobilityScenario.dt * tinyMobilityScenario.phaseMob 0 0 0 0
        * ((tinyMobilityScenario.pres 0 0 0 + tinyMobilityScenario.dPres 0 0 0)
          - (tinyMobilityScenario.pres 0 0 1 + tinyMobilityScenario.dPres 0 0 1))
        * tinyMobilityScenario.phaseCompFrac 0 0 0 0 0 0 0) := by
  have hflux : (Compute tinyMobilityScenario Output.zero).localFlux 0 = 0 := by
    rw [tinyMobilityScenario_singlePhaseTwoCell.localFlux_eq Output.zero 0 (by decide)]
    apply if_pos
    simp only [tinyMobilityScenario, scenario]
    rw [abs_of_pos (by norm_num)]
    norm_num
  have hpos : 0 < tinyMobilityScenario.dt * tinyMobilityScenario.phaseMob 0 0 0 0
        * ((tinyMobilityScenario.pres 0 0 0 + tinyMobilityScenario.dPres 0 0 0)
          - (tinyMobilityScenario.pres 0 0 1 + tinyMobilityScenario.dPres 0 0 1))
        * tinyMobilityScenario.phaseCompFrac 0 0 0 0 0 0 0 := by
    simp only [tinyMobilityScenario, scenario]
    norm_num
  refine ⟨tinyMobilityScenario_singlePhaseTwoCell, hflux, hpos, ?_⟩
  rw [hflux, sign_zero, sign_pos hpos]
  decide


/-- C7, amended. The concrete two-cell scenario, for every input of its kind: for a two-cell
connection with `NP = 1`, weights `(1, -1)`, gravity coefficient `0`, capillary flag off and
total pressure of cell `0` greater than that of cell `1`, `FluxKernel::Compute` takes cell `0`
as upstream and, for every component `ic`: if the upstream mobility is exactly `0` or has
absolute value at least `1e-20`, `localFlux[ic]` equals, and so has the same sign as,
`dt * mobility(cell 0) * (P0 - P1) * phaseCompFrac(cell 0)[ic]`; if the upstream mobility has
absolute value below `1e-20` the phase is skipped and `localFlux[ic] = 0`; in every case
`localFlux[NC+ic]` is the exact negation of `localFlux[ic]`. -/
theorem Compute_scenario_sign (inp : Input) (out : Output) (h : SinglePhaseTwoCell inp) (ic : Nat)
    (hic : ic < inp.NC) :
    k_up inp 0 = 0 ∧
    ((inp.phaseMob (inp.seri 0) (inp.sesri 0) (inp.sei 0) 0 = 0
        ∨ 1e-20 ≤ |inp.phaseMob (inp.seri 0) (inp.sesri 0) (inp.sei 0) 0|) →
      (Compute inp out).localFlux ic
        = inp.dt * inp.phaseMob (inp.seri 0) (inp.sesri 0) (inp.sei 0) 0
          * ((inp.pres (inp.seri 0) (inp.sesri 0) (inp.sei 0)
              + inp.dPres (inp.seri 0) (inp.sesri 0) (inp.sei 0))
            - (inp.pres (inp.seri 1) (inp.sesri 1) (inp.sei 1)
              + inp.dPres (inp.seri 1) (inp.sesri 1) (inp.sei 1)))
          * inp.phaseCompFrac (inp.seri 0) (inp.sesri 0) inp.fluidIndex (inp.sei 0) 0 0 ic ∧
      SignType.sign ((Compute inp out).localFlux ic)
        = SignType.sign (inp.dt * inp.phaseMob (inp.seri 0) (inp.sesri 0) (inp.sei 0) 0
          * ((inp.pres (inp.seri 0) (inp.sesri 0) (inp.sei 0)
              + inp.dPres (inp.seri 0) (inp.sesri 0) (inp.sei 0))
            - (inp.pres (inp.seri 1) (inp.sesri 1) (inp.sei 1)
              + inp.dPres (inp.seri 1) (inp.sesri 1) (inp.sei 1)))
          * inp.phaseCompFrac (inp.seri 0) (inp.sesri 0) inp.fluidIndex (inp.sei 0) 0 0 ic)) ∧
    (|inp.phaseMob (inp.seri 0) (inp.sesri 0) (inp.sei 0) 0| < 1e-20 →
      (Compute inp out).localFlux ic = 0) ∧
    (Compute inp out).localFlux (inp.NC + ic) = -(Compute inp out).localFlux ic := by
  have hflux := h.localFlux_eq out ic hic
  refine ⟨h.k_up_eq 0, ?_, ?_, ?_⟩
  · intro hm
    have e : (Compute inp out).localFlux ic
        = inp.dt * inp.phaseMob (inp.seri 0) (inp.sesri 0) (inp.sei 0) 0
          * ((inp.pres (inp.seri 0) (inp.sesri 0) (inp.sei 0)
              + inp.dPres (inp.seri 0) (inp.sesri 0) (inp.sei 0))
            - (inp.pres (inp.seri 1) (inp.sesri 1) (inp.sei 1)
              + inp.dPres (inp.seri 1) (inp.sesri 1) (inp.sei 1)))
          * inp.phaseCompFrac (inp.seri 0) (inp.sesri 0) inp.fluidIndex (inp.sei 0) 0 0 ic := by
      rcases hm with h0 | hge
      · rw [hflux, h0, abs_zero, if_pos (by norm_num)]
        ring
      · rw [hflux, if_neg (not_lt.mpr hge)]
    exact ⟨e, congrArg SignType.sign e⟩
  · intro hlt
    rw [hflux, if_pos hlt]
  · rw [Compute_localFlux_fst inp out ic hic, Compute_localFlux_snd inp out ic hic]
    ring

/-- C7, amended, at the concrete scenario (mobility `2`): `localFlux[0]` is
`1 * 2 * (100 - 90) * (1/4) = 5`. -/
theorem Compute_scenario_sign_witness :
    SinglePhaseTwoCell scenario ∧
    (scenario.phaseMob 0 0 0 0 = 0 ∨ 1e-20 ≤ |scenario.phaseMob 0 0 0 0|) ∧
    (Compute scenario Output.zero).localFlux 0 = 5 := by
  have hm : scenario.phaseMob 0 0 0 0 = 0 ∨ 1e-20 ≤ |scenario.phaseMob 0 0 0 0| := by
    right
    simp only [scenario]
    rw [abs_of_pos (by norm_num)]
    norm_num
  refine ⟨scenario_singlePhaseTwoCell, hm, ?_⟩
  rw [((Compute_scenario_sign scenario Output.zero scenario_singlePhaseTwoCell 0
    (by decide)).2.1 hm).1]
  simp only [scenario]
  norm_num


/-! ## Derivative consistency -/

/-- Replacing the pressure seen at stencil position `ke` by itself plus `eps` adds
`weight[ke] * eps` to the potential difference of every phase. -/
theorem potGrad_perturb (inp : Input) (pres' : Nat → Nat → Nat → real64) (ke : Nat)
    (eps : real64) (hke : ke < inp.stencilSize)
    (hpres : ∀ i, i < inp.stencilSize →
      pres' (inp.seri i) (inp.sesri i) (inp.sei i)
        = inp.pres (inp.seri i) (inp.sesri i) (inp.sei i) + if i = ke then eps else 0)
    (ip : Nat) :
    potGrad { inp with pres := pres' } ip = potGrad inp ip + inp.stencilWeights ke * eps := by
  have hg : (potential { inp with pres := pres' } ip).gravHead = (potential inp ip).gravHead := by
    rw [potential_gravHead, potential_gravHead]
    rfl
  have hp : (potential { inp with pres := pres' } ip).presGrad
      = (potential inp ip).presGrad + inp.stencilWeights ke * eps := by
    rw [potential_presGrad, potential_presGrad]
    have hsingle : inp.stencilWeights ke * eps
        = ∑ i in Finset.range inp.stencilSize,
            inp.stencilWeights i * (if i = ke then eps else 0) := by
      rw [Finset.sum_eq_single ke]
      · rw [if_pos rfl]
      · intro b _ hb
        rw [if_neg hb, mul_zero]
      · intro hn
        exact absurd (Finset.mem_range.mpr hke) hn
    rw [hsingle, ← Finset.sum_add_distrib]
    apply Finset.sum_congr rfl
    intro i hi
    have hc : capillary { inp with pres := pres' } ip i = capillary inp ip i := rfl
    show inp.stencilWeights i * (pres' (inp.seri i) (inp.sesri i) (inp.sei i)
        + inp.dPres (inp.seri i) (inp.sesri i) (inp.sei i)
        - (capillary { inp with pres := pres' } ip i).capPressure) = _
    rw [hpres i (Finset.mem_range.mp hi), hc]
    ring
  rw [potGrad, hp, hg, potGrad]
  ring


/-- With properties held fixed and the capillary flag off, what a phase adds to the pressure
derivative of a component flux at stencil cell `ke` is `weight[ke] * mobility * phaseCompFrac`. -/
theorem dCompFlux_dP_term_fixed (inp : Input) (hfix : PropertiesFixed inp)
    (hcap : inp.capPressureFlag = 0) (ip ke ic : Nat) (hke : ke < inp.stencilSize) :
    dCompFlux_dP_term inp ip ke ic
      = inp.stencilWeights ke * (mobility inp ip
          * inp.phaseCompFrac (inp.seri (k_up inp ip)) (inp.sesri (k_up inp ip))
              inp.fluidIndex (inp.sei (k_up inp ip)) 0 ip ic) := by
  have hdm : ∀ j, (meanDensity inp ip).dDensMean_dP j = 0 := by
    intro j
    rw [meanDensity_dP, hfix.dPhaseDens_dPres]
    simp
  have hgh : (potential inp ip).dGravHead_dP ke = 0 := by
    rw [potential_dGravHead_dP]
    simp [hdm]
  rw [dCompFlux_dP_term, if_pos hke, phaseFluxDeriv_dP inp ip ke hke, hgh,
    potential_dPresGrad_dP, if_pos hke, capillary_flag_off inp ip ke hcap,
    hfix.dPhaseMob_dPres, hfix.dPhaseCompFrac_dPres]
  simp only [sub_zero, mul_one, zero_mul, mul_zero, ite_self, add_zero]
  ring

/-- The effect of the pressure perturbation on what a phase adds to a component flux, when the
phase keeps its upstream cell. -/
theorem compFluxTerm_perturb (inp : Input) (pres' : Nat → Nat → Nat → real64) (ke : Nat)
    (eps : real64) (hke : ke < inp.stencilSize)
    (hpres : ∀ i, i < inp.stencilSize →
      pres' (inp.seri i) (inp.sesri i) (inp.sei i)
        = inp.pres (inp.seri i) (inp.sesri i) (inp.sei i) + if i = ke then eps else 0)
    (hfix : PropertiesFixed inp) (hcap : inp.capPressureFlag = 0) (ip ic : Nat)
    (hup : k_up { inp with pres := pres' } ip = k_up inp ip) :
    (if skipped { inp with pres := pres' } ip then 0
      else compFluxTerm { inp with pres := pres' } ip ic)
      = (if skipped inp ip then 0 else compFluxTerm inp ip ic)
        + eps * (if skipped inp ip then 0 else dCompFlux_dP_term inp ip ke ic) := by
  have hm : mobility { inp with pres := pres' } ip = mobility inp ip := by
    unfold mobility
    rw [hup]
  have hs : skipped { inp with pres := pres' } ip ↔ skipped inp ip := by
    unfold skipped
    rw [hm]
  by_cases hsk : skipped inp ip
  · rw [if_pos hsk, if_pos hsk, if_pos (hs.2 hsk), mul_zero, add_zero]
  · rw [if_neg hsk, if_neg hsk, if_neg (fun x => hsk (hs.1 x)),
      dCompFlux_dP_term_fixed inp hfix hcap ip ke ic hke]
    unfold compFluxTerm phaseFlux
    rw [hm, hup, potGrad_perturb inp pres' ke eps hke hpres ip]
    show mobility inp ip * (potGrad inp ip + inp.stencilWeights ke * eps)
        * inp.phaseCompFrac (inp.seri (k_up inp ip)) (inp.sesri (k_up inp ip))
            inp.fluidIndex (inp.sei (k_up inp ip)) 0 ip ic = _
    ring

/-- C8. Derivative consistency for pressure perturbations: for a fixed connection with the
capillary flag off and all property-derivative input arrays equal to zero, for every stencil
cell `ke` and every `eps` such that no phase changes its upstream cell, recomputing with the
pressure of stencil cell `ke` replaced by itself plus `eps` changes `localFlux[i]` by exactly
`eps * localFluxJacobian[i][ke*(NC+1)]`, for every `i < 2*NC`. -/
theorem Compute_pressure_derivative (inp : Input) (out out' : Output)
    (pres' : Nat → Nat → Nat → real64) (ke : Nat) (eps : real64)
    (hcap : inp.capPressureFlag = 0) (hfix : PropertiesFixed inp)
    (hke : ke < inp.stencilSize)
    (hpres : ∀ i, i < inp.stencilSize →
      pres' (inp.seri i) (inp.sesri i) (inp.sei i)
        = inp.pres (inp.seri i) (inp.sesri i) (inp.sei i) + if i = ke then eps else 0)
    (hup : ∀ ip, ip < inp.NP → k_up { inp with pres := pres' } ip = k_up inp ip)
    (i : Nat) (hi : i < 2 * inp.NC) :
    (Compute { inp with pres := pres' } out').localFlux i
      = (Compute inp out).localFlux i
        + eps * (Compute inp out).localFluxJacobian i (ke * (inp.NC + 1)) := by
  have hsum : ∀ ic, (∑ ip in Finset.range inp.NP,
      if skipped { inp with pres := pres' } ip then 0
        else compFluxTerm { inp with pres := pres' } ip ic)
      = (∑ ip in Finset.range inp.NP, if skipped inp ip then 0 else compFluxTerm inp ip ic)
        + eps * ∑ ip in Finset.range inp.NP,
            if skipped inp ip then 0 else dCompFlux_dP_term inp ip ke ic := by
    intro ic
    rw [Finset.mul_sum, ← Finset.sum_add_distrib]
    apply Finset.sum_congr rfl
    intro ip hip
    exact compFluxTerm_perturb inp pres' ke eps hke hpres hfix hcap ip ic
      (hup ip (Finset.mem_range.mp hip))
  rcases Nat.lt_or_ge i inp.NC with hlt | hge
  · have h1 := Compute_localFlux_fst { inp with pres := pres' } out' i hlt
    rw [h1, Compute_localFlux_fst inp out i hlt, Compute_jacobian_pres inp out i ke hlt hke]
    show inp.dt * (∑ ip in Finset.range inp.NP,
      if skipped { inp with pres := pres' } ip then 0
        else compFluxTerm { inp with pres := pres' } ip i) = _
    rw [hsum]
    ring
  · have hi2 : i - inp.NC < inp.NC := by omega
    have hi3 : i = inp.NC + (i - inp.NC) := by omega
    have h1 := Compute_localFlux_snd { inp with pres := pres' } out' (i - inp.NC) hi2
    have h2 : (Compute { inp with pres := pres' } out').localFlux (inp.NC + (i - inp.NC))
        = -inp.dt * (∑ ip in Finset.range inp.NP,
            if skipped { inp with pres := pres' } ip then 0
              else compFluxTerm { inp with pres := pres' } ip (i - inp.NC)) := h1
    rw [hi3, h2, Compute_localFlux_snd inp out _ hi2,
      Compute_jacobian_snd inp out _ _ hi2 (pres_column_lt inp ke hke),
      Compute_jacobian_pres inp out _ ke hi2 hke, hsum]
    ring


theorem scenario_propertiesFixed : PropertiesFixed scenario where
  dPhaseMob_dPres := fun _ _ _ _ => rfl
  dPhaseMob_dComp := fun _ _ _ _ _ => rfl
  dPhaseVolFrac_dPres := fun _ _ _ _ => rfl
  dPhaseVolFrac_dComp := fun _ _ _ _ _ => rfl
  dPhaseDens_dPres := fun _ _ _ _ _ _ => rfl
  dPhaseDens_dComp := fun _ _ _ _ _ _ _ => rfl
  dPhaseCompFrac_dPres := fun _ _ _ _ _ _ _ => rfl
  dPhaseCompFrac_dComp := fun _ _ _ _ _ _ _ _ => rfl
  dPhaseCapPressure_dPhaseVolFrac := fun _ _ _ _ _ _ _ => rfl

theorem raisedPressure_singlePhaseTwoCell :
    SinglePhaseTwoCell { scenario with pres := raisedPressure } where
  NP_eq := rfl
  stencilSize_eq := rfl
  weight_fst := by simp [scenario]
  weight_snd := by simp [scenario]
  gravCoef_fst := rfl
  gravCoef_snd := rfl
  capPressureFlag_off := rfl
  pres_gt := by simp only [scenario, raisedPressure]; norm_num

/-- The raised pressures differ from those of the concrete scenario by `1` at stencil position
`0` only. -/
theorem raisedPressure_spec (i : Nat) (hi : i < scenario.stencilSize) :
    raisedPressure (scenario.seri i) (scenario.sesri i) (scenario.sei i)
      = scenario.pres (scenario.seri i) (scenario.sesri i) (scenario.sei i)
        + if i = 0 then 1 else 0 := by
  have h2 : i < 2 := hi
  rcases Nat.lt_or_ge i 1 with h | h
  · have e : i = 0 := by omega
    subst e
    simp only [raisedPressure, scenario]
    norm_num
  · have e : i = 1 := by omega
    subst e
    simp only [raisedPressure, scenario]
    norm_num

/-- Raising the pressure of cell `0` keeps cell `0` upstream. -/
theorem raisedPressure_k_up (ip : Nat) :
    k_up { scenario with pres := raisedPressure } ip = k_up scenario ip := by
  rw [raisedPressure_singlePhaseTwoCell.k_up_eq ip, scenario_singlePhaseTwoCell.k_up_eq ip]

/-- C8 at the concrete scenario: raising the pressure of cell `0` from `100` to `101` changes
`localFlux[0]` by `1 * localFluxJacobian[0][0]`. -/
theorem Compute_pressure_derivative_witness :
    scenario.capPressureFlag = 0 ∧ PropertiesFixed scenario ∧
    k_up { scenario with pres := raisedPressure } 0 = k_up scenario 0 ∧
    (Compute { scenario with pres := raisedPressure } Output.zero).localFlux 0
      = (Compute scenario Output.zero).localFlux 0
        + 1 * (Compute scenario Output.zero).localFluxJacobian 0 (0 * (2 + 1)) :=
  ⟨rfl, scenario_propertiesFixed, raisedPressure_k_up 0,
   Compute_pressure_derivative scenario Output.zero Output.zero raisedPressure 0 1 rfl
     scenario_propertiesFixed (by decide) raisedPressure_spec (fun ip _ => raisedPressure_k_up ip)
     0 (by decide)⟩


/-! ## Zero-weight connections -/

/-- The outputs vanish when no phase contributes to the component fluxes and to their
derivatives. -/
theorem Compute_eq_zero_of_terms (inp : Input) (out : Output)
    (hF : ∀ ip ic, compFluxTerm inp ip ic = 0)
    (hP : ∀ ip ke ic, dCompFlux_dP_term inp ip ke ic = 0)
    (hC : ∀ ip ke ic jc, dCompFlux_dC_term inp ip ke ic jc = 0) (i : Nat)
    (hi : i < 2 * inp.NC) :
    (Compute inp out).localFlux i = 0 ∧
    ∀ j, j < inp.stencilSize * (inp.NC + 1) → (Compute inp out).localFluxJacobian i j = 0 := by
  have hcf : ∀ ic, ic < inp.NC → (compFluxes inp).compFlux ic = 0 := by
    intro ic hic
    rw [compFluxes_compFlux inp ic hic]
    exact Finset.sum_eq_zero (fun ip _ => by rw [hF, ite_self])
  have hdP : ∀ ke ic, ic < inp.NC → (compFluxes inp).dCompFlux_dP ke ic = 0 := by
    intro ke ic hic
    rw [compFluxes_dP inp ke ic hic]
    exact Finset.sum_eq_zero (fun ip _ => by rw [hP, ite_self])
  have hdC : ∀ ke ic jc, ic < inp.NC → (compFluxes inp).dCompFlux_dC ke ic jc = 0 := by
    intro ke ic jc hic
    rw [compFluxes_dC inp ke ic jc hic]
    exact Finset.sum_eq_zero (fun ip _ => by rw [hC, ite_self])
  have hderiv : ∀ ke ic d, ic < inp.NC → (compFluxes inp).deriv ke ic d = 0 := by
    intro ke ic d hic
    unfold CompFlux.deriv
    by_cases hd : d = 0
    · rw [if_pos hd, hdP ke ic hic]
    · rw [if_neg hd, hdC ke ic _ hic]
  rcases Nat.lt_or_ge i inp.NC with hlt | hge
  · constructor
    · rw [Compute, populate_localFlux_fst _ _ _ _ hlt, hcf i hlt, mul_zero]
    · intro j hj
      rw [Compute, populate_jacobian_fst _ _ _ _ _ hlt hj, hderiv _ _ _ hlt, mul_zero]
  · have hi2 : i - inp.NC < inp.NC := by omega
    have hi3 : i = inp.NC + (i - inp.NC) := by omega
    rw [hi3]
    constructor
    · rw [Compute, populate_localFlux_snd _ _ _ _ hi2, hcf _ hi2, mul_zero]
    · intro j hj
      rw [Compute, populate_jacobian_snd _ _ _ _ _ hi2 hj, hderiv _ _ _ hi2, mul_zero]

/-- With all stencil weights zero the potential difference of every phase is zero. -/
theorem potGrad_zero_weights (inp : Input)
    (hw : ∀ i, i < inp.stencilSize → inp.stencilWeights i = 0) (ip : Nat) :
    potGrad inp ip = 0 := by
  rw [potGrad, potential_presGrad, potential_gravHead,
    Finset.sum_eq_zero (fun i hi => by rw [hw i (Finset.mem_range.mp hi), zero_mul]),
    Finset.sum_eq_zero (fun i hi => by rw [hw i (Finset.mem_range.mp hi), zero_mul, mul_zero]),
    sub_zero]

/-- With all stencil weights zero the derivatives of the phase flux are zero at every stencil
cell. -/
theorem phaseFluxDeriv_zero_weights (inp : Input)
    (hw : ∀ i, i < inp.stencilSize → inp.stencilWeights i = 0) (ip ke : Nat)
    (hke : ke < inp.stencilSize) :
    (phaseFluxDeriv inp ip).dPhaseFlux_dP ke = 0 ∧
    ∀ jc, jc < inp.NC → (phaseFluxDeriv inp ip).dPhaseFlux_dC ke jc = 0 := by
  have hgP : (potential inp ip).dGravHead_dP ke = 0 := by
    rw [potential_dGravHead_dP,
      Finset.sum_eq_zero (fun i hi => by rw [hw i (Finset.mem_range.mp hi), zero_mul, mul_zero]),
      ite_self]
  have hgC : ∀ jc, (potential inp ip).dGravHead_dC ke jc = 0 := by
    intro jc
    rw [potential_dGravHead_dC,
      Finset.sum_eq_zero (fun i hi => by rw [hw i (Finset.mem_range.mp hi), zero_mul, mul_zero]),
      ite_self]
  constructor
  · rw [phaseFluxDeriv_dP inp ip ke hke, potential_dPresGrad_dP, if_pos hke, hw ke hke, hgP,
      potGrad_zero_weights inp hw ip]
    simp
  · intro jc hjc
    rw [phaseFluxDeriv_dC inp ip ke jc hke hjc, potential_dPresGrad_dC, if_pos ⟨hke, hjc⟩,
      hw ke hke, hgC jc, potGrad_zero_weights inp hw ip]
    simp

/-- C12. Zero-weight connection: for every input to `FluxKernel::Compute` in which all stencil
weights are `0` (any `stencilSize`, `NP`, `NC`, pressures, gravity, capillary flag, properties
and `dt`), every entry of `localFlux` and of `localFluxJacobian` is exactly `0`. -/
theorem Compute_zero_weights (inp : Input) (out : Output)
    (hw : ∀ i, i < inp.stencilSize → inp.stencilWeights i = 0) :
    (∀ i, i < 2 * inp.NC → (Compute inp out).localFlux i = 0) ∧
    (∀ i j, i < 2 * inp.NC → j < inp.stencilSize * (inp.NC + 1) →
      (Compute inp out).localFluxJacobian i j = 0) := by
  have hpf : ∀ ip, phaseFlux inp ip = 0 := by
    intro ip
    rw [phaseFlux, potGrad_zero_weights inp hw ip, mul_zero]
  have hF : ∀ ip ic, compFluxTerm inp ip ic = 0 := by
    intro ip ic
    rw [compFluxTerm, hpf, zero_mul]
  have hP : ∀ ip ke ic, dCompFlux_dP_term inp ip ke ic = 0 := by
    intro ip ke ic
    rw [dCompFlux_dP_term, hpf]
    by_cases hke : ke < inp.stencilSize
    · rw [if_pos hke, (phaseFluxDeriv_zero_weights inp hw ip ke hke).1]
      simp
    · rw [if_neg hke]
      simp
  have hC : ∀ ip ke ic jc, dCompFlux_dC_term inp ip ke ic jc = 0 := by
    intro ip ke ic jc
    rw [dCompFlux_dC_term, hpf]
    by_cases hke : ke < inp.stencilSize ∧ jc < inp.NC
    · rw [if_pos hke, (phaseFluxDeriv_zero_weights inp hw ip ke hke.1).2 jc hke.2]
      simp
    · rw [if_neg hke]
      simp
  exact ⟨fun i hi => (Compute_eq_zero_of_terms inp out hF hP hC i hi).1,
    fun i j hi hj => (Compute_eq_zero_of_terms inp out hF hP hC i hi).2 j hj⟩

/-- C12 on a three-cell connection with zero weights, pressures `[100, 90, 90]` and gravity:
the last entry of `localFlux` and the last entry of `localFluxJacobian` are zero. -/
theorem Compute_zero_weights_witness :
    zeroWeightScenario.stencilWeights 2 = 0 ∧
    (Compute zeroWeightScenario Output.zero).localFlux 3 = 0 ∧
    (Compute zeroWeightScenario Output.zero).localFluxJacobian 3 8 = 0 :=
  ⟨rfl,
   (Compute_zero_weights zeroWeightScenario Output.zero (fun _ _ => rfl)).1 3 (by decide),
   (Compute_zero_weights zeroWeightScenario Output.zero (fun _ _ => rfl)).2 3 8 (by decide)
     (by decide)⟩


/-! ## Independence of the prior contents of the output buffers -/

/-- C15. Purity of `FluxKernel::Compute`: for every two calls with the same inputs but arbitrary
different prior contents of the output buffers, the resulting `localFlux[i]` (`i < 2*NC`) and
`localFluxJacobian[i][j]` (`i < 2*NC`, `j < stencilSize*(NC+1)`) are identical; every such
output entry is overwritten and none depends on what the buffers held before. -/
theorem Compute_pure (inp : Input) (out out' : Output) :
    (∀ i, i < 2 * inp.NC → (Compute inp out).localFlux i = (Compute inp out').localFlux i) ∧
    (∀ i j, i < 2 * inp.NC → j < inp.stencilSize * (inp.NC + 1) →
      (Compute inp out).localFluxJacobian i j = (Compute inp out').localFluxJacobian i j) := by
  constructor
  · intro i hi
    rcases Nat.lt_or_ge i inp.NC with hlt | hge
    · rw [Compute, Compute, populate_localFlux_fst _ _ _ _ hlt, populate_localFlux_fst _ _ _ _ hlt]
    · have hi2 : i - inp.NC < inp.NC := by omega
      have hi3 : i = inp.NC + (i - inp.NC) := by omega
      rw [hi3, Compute, Compute, populate_localFlux_snd _ _ _ _ hi2,
        populate_localFlux_snd _ _ _ _ hi2]
  · intro i j hi hj
    rcases Nat.lt_or_ge i inp.NC with hlt | hge
    · rw [Compute, Compute, populate_jacobian_fst _ _ _ _ _ hlt hj,
        populate_jacobian_fst _ _ _ _ _ hlt hj]
    · have hi2 : i - inp.NC < inp.NC := by omega
      have hi3 : i = inp.NC + (i - inp.NC) := by omega
      rw [hi3, Compute, Compute, populate_jacobian_snd _ _ _ _ _ hi2 hj,
        populate_jacobian_snd _ _ _ _ _ hi2 hj]

/-- C15 at the concrete scenario, with zeroed buffers and with stale buffers (`localFlux[3]`
held `10` and `localFluxJacobian[3][5]` held `-18` before the call). -/
theorem Compute_pure_witness :
    staleOutput.localFlux 3 = 10 ∧ staleOutput.localFluxJacobian 3 5 = -18 ∧
    (Compute scenario Output.zero).localFlux 3 = (Compute scenario staleOutput).localFlux 3 ∧
    (Compute scenario Output.zero).localFluxJacobian 3 5
      = (Compute scenario staleOutput).localFluxJacobian 3 5 :=
  ⟨by simp only [staleOutput]; norm_num, by simp only [staleOutput]; norm_num,
   (Compute_pure scenario Output.zero staleOutput).1 3 (by decide),
   (Compute_pure scenario Output.zero staleOutput).2 3 5 (by decide) (by decide)⟩


/-! ## Sign of the flux -/

/-- The flux of a single phase that is not skipped. -/
theorem localFlux_single_phase (inp : Input) (out : Output) (hNP : inp.NP = 1)
    (hs : ¬ skipped inp 0) (ic : Nat) (hic : ic < inp.NC) :
    (Compute inp out).localFlux ic = inp.dt * compFluxTerm inp 0 ic ∧
    (Compute inp out).localFlux (inp.NC + ic) = -(inp.dt * compFluxTerm inp 0 ic) := by
  rw [Compute_localFlux_fst inp out ic hic, Compute_localFlux_snd inp out ic hic, hNP,
    Finset.sum_range_one, if_neg hs]
  exact ⟨rfl, by ring⟩

/-- A mobility at or above the threshold is positive and the phase is not skipped. -/
theorem SingleMobilePhase.not_skipped {inp : Input} (h : SingleMobilePhase inp) :
    0 < mobility inp 0 ∧ ¬ skipped inp 0 := by
  have hpos : 0 < mobility inp 0 := lt_of_lt_of_le (by norm_num) h.mobility_ge
  refine ⟨hpos, ?_⟩
  unfold skipped
  rw [abs_of_pos hpos]
  exact not_lt.mpr h.mobility_ge

theorem scenario_singleMobilePhase : SingleMobilePhase scenario where
  NP_eq := rfl
  dt_pos := by simp only [scenario]; norm_num
  mobility_ge := by
    show (1e-20 : real64) ≤ 2
    norm_num
  compFrac_pos := by
    intro ic _
    show (0 : real64) < if ic = 0 then 1 / 4 else 3 / 4
    split <;> norm_num
  potGrad_ne := by rw [scenario_potGrad]; norm_num

/-- C14, counterexample: in the concrete scenario (pressures `[100, 90]`, so that cell `0` is
upstream and cell `1` downstream, `dt = 1`, mobility `2`, fractions `1/4` and `3/4`) the entry of
`localFlux` for component `0` of the upstream cell is `5`, which is positive, and the entry for
the downstream cell is `-5`, which is negative. -/
theorem Compute_sign_convention_counterexample :
    SingleMobilePhase scenario ∧ scenario.stencilSize = 2 ∧ k_up scenario 0 = 0 ∧
    (Compute scenario Output.zero).localFlux 0 = 5 ∧
    (Compute scenario Output.zero).localFlux (scenario.NC + 0) = -5 ∧
    ¬ (Compute scenario Output.zero).localFlux 0 < 0 ∧
    ¬ 0 < (Compute scenario Output.zero).localFlux (scenario.NC + 0) := by
  have hk : k_up scenario 0 = 0 := scenario_singlePhaseTwoCell.k_up_eq 0
  have hm : mobility scenario 0 = 2 := rfl
  have ht : compFluxTerm scenario 0 0 = 5 := by
    rw [compFluxTerm, phaseFlux, hm, scenario_potGrad, hk]
    simp only [scenario]
    norm_num
  have h := localFlux_single_phase scenario Output.zero rfl
    scenario_singleMobilePhase.not_skipped.2 0 (by decide)
  rw [ht] at h
  have hdt : scenario.dt = 1 := rfl
  rw [hdt, one_mul] at h
  refine ⟨scenario_singleMobilePhase, rfl, hk, h.1, h.2, ?_, ?_⟩
  · rw [h.1]; norm_num
  · rw [h.2]; norm_num

/-- C14, amended. Sign convention of the signed flux: for every connection with `dt > 0`, a
single mobile phase with positive upstream mobility, positive upstream component fractions and
non-zero potential difference, the entries of `localFlux` produced by `FluxKernel::Compute` for
the upstream primary cell are positive and those for the downstream primary cell are negative
(`+` to the upstream cell, which loses mass, `-` to the downstream cell). -/
theorem Compute_sign_convention (inp : Input) (out : Output) (h : SingleMobilePhase inp)
    (ic : Nat) (hic : ic < inp.NC) :
    0 < (Compute inp out).localFlux (k_up inp 0 * inp.NC + ic) ∧
    (Compute inp out).localFlux ((1 - k_up inp 0) * inp.NC + ic) < 0 := by
  have hf := localFlux_single_phase inp out h.NP_eq h.not_skipped.2 ic hic
  have hy := h.compFrac_pos ic hic
  have hmob := h.not_skipped.1
  rcases lt_or_gt_of_ne h.potGrad_ne with hneg | hpos
  · -- cell `1` is upstream
    have hk := k_up_of_neg inp 0 hneg
    have hterm : compFluxTerm inp 0 ic < 0 := by
      unfold compFluxTerm phaseFlux
      exact mul_neg_of_neg_of_pos (mul_neg_of_pos_of_neg hmob hneg) hy
    have e1 : k_up inp 0 * inp.NC + ic = inp.NC + ic := by rw [hk, Nat.one_mul]
    have e2 : (1 - k_up inp 0) * inp.NC + ic = ic := by rw [hk]; simp
    rw [e1, e2, hf.1, hf.2]
    have hlt : inp.dt * compFluxTerm inp 0 ic < 0 := mul_neg_of_pos_of_neg h.dt_pos hterm
    exact ⟨by linarith, hlt⟩
  · -- cell `0` is upstream
    have hk := k_up_of_nonneg inp 0 (le_of_lt hpos)
    have hterm : 0 < compFluxTerm inp 0 ic := by
      unfold compFluxTerm phaseFlux
      exact mul_pos (mul_pos hmob hpos) hy
    have e1 : k_up inp 0 * inp.NC + ic = ic := by rw [hk]; simp
    have e2 : (1 - k_up inp 0) * inp.NC + ic = inp.NC + ic := by rw [hk]; simp
    rw [e1, e2, hf.1, hf.2]
    have hgt : 0 < inp.dt * compFluxTerm inp 0 ic := mul_pos h.dt_pos hterm
    exact ⟨hgt, by linarith⟩

/-- C14, amended, at the concrete scenario: cell `0` is upstream, its entry for component `1`
is positive and the entry of cell `1` is negative. -/
theorem Compute_sign_convention_witness :
    SingleMobilePhase scenario ∧
    0 < (Compute scenario Output.zero).localFlux (k_up scenario 0 * scenario.NC + 1) ∧
    (Compute scenario Output.zero).localFlux ((1 - k_up scenario 0) * scenario.NC + 1) < 0 :=
  ⟨scenario_singleMobilePhase,
   Compute_sign_convention scenario Output.zero scenario_singleMobilePhase 1 (by decide)⟩


/-! ## Upwind selection and gravity head on larger stencils -/

/-- The mean density of the concrete scenarios is `1`. -/
theorem threeCellScenario_densMean : (meanDensity threeCellScenario 0).densMean = 1 := by
  rw [meanDensity_densMean]
  simp only [threeCellScenario, scenario]
  norm_num

/-- The gravity head of the three-cell scenario is `1 * (1*0 + (-1)*0 + (1/2)*4) = 2`. -/
theorem threeCellScenario_gravHead : (potential threeCellScenario 0).gravHead = 2 := by
  rw [potential_gravHead, threeCellScenario_densMean]
  simp only [threeCellScenario, scenario, Finset.sum_range_succ, Finset.sum_range_zero]
  norm_num

/-- The pressure gradient of the three-cell scenario is
`1*100 + (-1)*90 + (1/2)*90 = 55`. -/
theorem threeCellScenario_presGrad : (potential threeCellScenario 0).presGrad = 55 := by
  rw [potential_presGrad]
  simp only [Finset.sum_range_succ, Finset.sum_range_zero,
    capillary_flag_off threeCellScenario 0 _ rfl, show threeCellScenario.stencilSize = 3 from rfl]
  simp only [threeCellScenario, scenario]
  norm_num

/-- C18. Upwind selection rule: for every phase, `FluxKernel::Compute` takes as upstream the
stencil position `0` when the phase potential difference `potGrad = presGrad - gravHead` is
`>= 0` (including exactly `0`) and position `1` otherwise; the upstream cell is always one of the
first two (primary) stencil cells, also when `stencilSize > 2`, and it is the cell whose mobility
decides whether the phase is skipped. -/
theorem k_up_rule (inp : Input) (ip : Nat) :
    potGrad inp ip = (potential inp ip).presGrad - (potential inp ip).gravHead ∧
    (0 ≤ potGrad inp ip → k_up inp ip = 0) ∧
    (potGrad inp ip < 0 → k_up inp ip = 1) ∧
    k_up inp ip < numElems ∧
    mobility inp ip
      = inp.phaseMob (inp.seri (k_up inp ip)) (inp.sesri (k_up inp ip)) (inp.sei (k_up inp ip)) ip :=
  ⟨rfl, k_up_of_nonneg inp ip, k_up_of_neg inp ip,
   by
    unfold k_up numElems
    split <;> decide,
   rfl⟩

/-- C18 on three connections: the three-cell scenario (`potGrad = 55 - 2 = 53`, position `0`),
the scenario at equilibrium (`potGrad = 0`, position `0`) and the reversed scenario
(`potGrad = -10`, position `1`). -/
theorem k_up_rule_witness :
    potGrad threeCellScenario 0 = 53 ∧ k_up threeCellScenario 0 = 0 ∧
    potGrad equilibriumScenario 0 = 0 ∧ k_up equilibriumScenario 0 = 0 ∧
    potGrad (reverseConnection scenario) 0 = -10 ∧ k_up (reverseConnection scenario) 0 = 1 := by
  have h3 : potGrad threeCellScenario 0 = 53 := by
    rw [(k_up_rule threeCellScenario 0).1, threeCellScenario_presGrad,
      threeCellScenario_gravHead]
    norm_num
  have h0 : potGrad equilibriumScenario 0 = 0 := equilibriumScenario_equilibrium.potGrad_eq_zero 0
  have hr : potGrad (reverseConnection scenario) 0 = -10 := by
    rw [potGrad_reverse scenario 0 rfl (by simp [scenario]), scenario_potGrad]
  exact ⟨h3, (k_up_rule threeCellScenario 0).2.1 (by rw [h3]; norm_num),
    h0, (k_up_rule equilibriumScenario 0).2.1 (by rw [h0]),
    hr, (k_up_rule (reverseConnection scenario) 0).2.2.1 (by rw [hr]; norm_num)⟩

/-- C20, counterexample: on the three-cell scenario (mean density `1`, weights `(1, -1, 1/2)`,
gravity coefficients `(0, 0, 4)`) the gravity head is `2`, while
`meanDensity * (weight[0]*gravCoef[0] + weight[1]*gravCoef[1])` is `0`: the extension cell
contributes `1 * (1/2) * 4`. -/
theorem gravHead_primary_only_counterexample :
    2 ≤ threeCellScenario.stencilSize ∧
    (potential threeCellScenario 0).gravHead = 2 ∧
    (meanDensity threeCellScenario 0).densMean
        * (threeCellScenario.stencilWeights 0 * threeCellScenario.gravCoef 0 0 0
          + threeCellScenario.stencilWeights 1 * threeCellScenario.gravCoef 0 0 1) = 0 ∧
    (potential threeCellScenario 0).gravHead
      ≠ (meanDensity threeCellScenario 0).densMean
        * (threeCellScenario.stencilWeights 0 * threeCellScenario.gravCoef 0 0 0
          + threeCellScenario.stencilWeights 1 * threeCellScenario.gravCoef 0 0 1) := by
  have h0 : (meanDensity threeCellScenario 0).densMean
        * (threeCellScenario.stencilWeights 0 * threeCellScenario.gravCoef 0 0 0
          + threeCellScenario.stencilWeights 1 * threeCellScenario.gravCoef 0 0 1) = 0 := by
    rw [threeCellScenario_densMean]
    simp only [threeCellScenario, scenario]
    norm_num
  refine ⟨by decide, threeCellScenario_gravHead, h0, ?_⟩
  rw [h0, threeCellScenario_gravHead]
  norm_num

/-- C20, amended. Gravity head: for every phase and every `stencilSize`, the gravity head used
by `FluxKernel::Compute` equals `meanDensity * sum_i weight[i]*gravCoef[i]` over all stencil
cells `i < stencilSize`, with `meanDensity = 0.5*(phaseDens[cell 0] + phaseDens[cell 1])` taken
over the two primary cells only; for `stencilSize = 2` this is
`meanDensity * (weight[0]*gravCoef[0] + weight[1]*gravCoef[1])`. -/
theorem gravHead_all_cells (inp : Input) (ip : Nat) :
    (meanDensity inp ip).densMean
      = 0.5 * (inp.phaseDens (inp.seri 0) (inp.sesri 0) inp.fluidIndex (inp.sei 0) 0 ip
        + inp.phaseDens (inp.seri 1) (inp.sesri 1) inp.fluidIndex (inp.sei 1) 0 ip) ∧
    (potential inp ip).gravHead
      = (meanDensity inp ip).densMean * ∑ i in Finset.range inp.stencilSize,
          inp.stencilWeights i * inp.gravCoef (inp.seri i) (inp.sesri i) (inp.sei i) ∧
    (inp.stencilSize = 2 →
      (potential inp ip).gravHead
        = (meanDensity inp ip).densMean
          * (inp.stencilWeights 0 * inp.gravCoef (inp.seri 0) (inp.sesri 0) (inp.sei 0)
            + inp.stencilWeights 1 * inp.gravCoef (inp.seri 1) (inp.sesri 1) (inp.sei 1))) := by
  refine ⟨?_, ?_, ?_⟩
  · rw [meanDensity_densMean]
    ring
  · rw [potential_gravHead, Finset.mul_sum]
  · intro hS
    rw [potential_gravHead, hS]
    simp only [Finset.sum_range_succ, Finset.sum_range_zero, zero_add]
    ring

/-- C20, amended, at the concrete two-cell scenario: the gravity head is the mean density times
the sum over the two cells. -/
theorem gravHead_all_cells_witness :
    scenario.stencilSize = 2 ∧
    (potential scenario 0).gravHead
      = (meanDensity scenario 0).densMean
        * (scenario.stencilWeights 0 * scenario.gravCoef 0 0 0
          + scenario.stencilWeights 1 * scenario.gravCoef 0 0 1) :=
  ⟨rfl, (gravHead_all_cells scenario 0).2.2 rfl⟩


/-! ## The capillary flag -/

/-- Two inputs that differ only in the four arrays of the capillary branch and see the same
capillary pressure and derivatives have the same pressure gradient and gravity head. -/
theorem potential_withCapillaryData (inp : Input)
    (pc : Nat → Nat → Nat → Nat → Nat → Nat → real64)
    (dpc : Nat → Nat → Nat → Nat → Nat → Nat → Nat → real64)
    (dvp : Nat → Nat → Nat → Nat → real64) (dvc : Nat → Nat → Nat → Nat → Nat → real64)
    (hc : ∀ ip i, capillary (withCapillaryData inp pc dpc dvp dvc) ip i = capillary inp ip i)
    (ip : Nat) :
    potential (withCapillaryData inp pc dpc dvp dvc) ip = potential inp ip := by
  unfold potential
  have hm : meanDensity (withCapillaryData inp pc dpc dvp dvc) ip = meanDensity inp ip := rfl
  rw [hm]
  apply forLoop_congr
  intro k t _
  unfold potentialCell
  rw [hc ip k]
  rfl


/-- Such inputs give the same outputs. -/
theorem Compute_withCapillaryData (inp : Input)
    (pc : Nat → Nat → Nat → Nat → Nat → Nat → real64)
    (dpc : Nat → Nat → Nat → Nat → Nat → Nat → Nat → real64)
    (dvp : Nat → Nat → Nat → Nat → real64) (dvc : Nat → Nat → Nat → Nat → Nat → real64)
    (hc : ∀ ip i, capillary (withCapillaryData inp pc dpc dvp dvc) ip i = capillary inp ip i)
    (out : Output) :
    Compute (withCapillaryData inp pc dpc dvp dvc) out = Compute inp out := by
  have hpot := potential_withCapillaryData inp pc dpc dvp dvc hc
  have hpg : ∀ ip, potGrad (withCapillaryData inp pc dpc dvp dvc) ip = potGrad inp ip := by
    intro ip
    unfold potGrad
    rw [hpot ip]
  have hk : ∀ ip, k_up (withCapillaryData inp pc dpc dvp dvc) ip = k_up inp ip := by
    intro ip
    unfold k_up
    rw [hpg ip]
  have hm : ∀ ip, mobility (withCapillaryData inp pc dpc dvp dvc) ip = mobility inp ip := by
    intro ip
    unfold mobility
    rw [hk ip]
    rfl
  have hpf : ∀ ip, phaseFlux (withCapillaryData inp pc dpc dvp dvc) ip = phaseFlux inp ip := by
    intro ip
    unfold phaseFlux
    rw [hm ip, hpg ip]
  have hd : ∀ ip, phaseFluxDeriv (withCapillaryData inp pc dpc dvp dvc) ip
      = phaseFluxDeriv inp ip := by
    intro ip
    unfold phaseFluxDeriv
    rw [hpot ip, hpg ip, hk ip, hm ip]
    rfl
  have hcb : ∀ ip ic s, componentBody (withCapillaryData inp pc dpc dvp dvc) ip ic s
      = componentBody inp ip ic s := by
    intro ip ic s
    unfold componentBody
    rw [hk ip, hpf ip, hd ip]
    rfl
  have hpb : ∀ ip s, phaseBody (withCapillaryData inp pc dpc dvp dvc) ip s
      = phaseBody inp ip s := by
    intro ip s
    unfold phaseBody
    rw [hm ip]
    by_cases hs : |mobility inp ip| < 1e-20
    · rw [if_pos hs, if_pos hs]
    · rw [if_neg hs, if_neg hs]
      exact forLoop_congr _ _ _ _ (fun k t _ => hcb ip k t)
  have hcf : compFluxes (withCapillaryData inp pc dpc dvp dvc) = compFluxes inp := by
    unfold compFluxes
    exact forLoop_congr _ _ _ _ (fun k t _ => hpb k t)
  unfold Compute
  rw [hcf]
  rfl


/-- C19. Potential gradient: for every phase `ip`, `presGrad` equals the sum over all stencil
cells `i < stencilSize` (not only the two primary ones) of
`weight[i] * (pres[i] + dPres[i] - pc[i])`, where `pc[i]` is the phase capillary pressure of
cell `i` when `capPressureFlag` is set and `0` otherwise; when the flag is off, the outputs of
`FluxKernel::Compute` do not depend on `phaseCapPressure`, `dPhaseCapPressure_dPhaseVolFrac`,
`dPhaseVolFrac_dPres` or `dPhaseVolFrac_dComp`. -/
theorem presGrad_capillary (inp : Input) (ip : Nat) :
    (potential inp ip).presGrad
      = ∑ i in Finset.range inp.stencilSize, inp.stencilWeights i *
          (inp.pres (inp.seri i) (inp.sesri i) (inp.sei i)
            + inp.dPres (inp.seri i) (inp.sesri i) (inp.sei i)
            - (if inp.capPressureFlag ≠ 0
                then inp.phaseCapPressure (inp.seri i) (inp.sesri i) inp.capPressureIndex
                  (inp.sei i) 0 ip
                else 0)) ∧
    (inp.capPressureFlag = 0 →
      ∀ (pc : Nat → Nat → Nat → Nat → Nat → Nat → real64)
        (dpc : Nat → Nat → Nat → Nat → Nat → Nat → Nat → real64)
        (dvp : Nat → Nat → Nat → Nat → real64) (dvc : Nat → Nat → Nat → Nat → Nat → real64)
        (out : Output),
        Compute (withCapillaryData inp pc dpc dvp dvc) out = Compute inp out) := by
  constructor
  · rw [potential_presGrad]
    exact Finset.sum_congr rfl (fun i _ => by rw [capillary_capPressure])
  · intro hflag pc dpc dvp dvc out
    apply Compute_withCapillaryData
    intro ip' i
    rw [capillary_flag_off inp ip' i hflag,
      capillary_flag_off (withCapillaryData inp pc dpc dvp dvc) ip' i hflag]

/-- C19 at the concrete scenario, whose capillary flag is off: replacing the four arrays of the
capillary branch by arrays filled with `5`, `6`, `7` and `8` leaves the outputs unchanged. -/
theorem presGrad_capillary_witness :
    scenario.capPressureFlag = 0 ∧
    Compute (withCapillaryData scenario (fun _ _ _ _ _ _ => 5) (fun _ _ _ _ _ _ _ => 6)
        (fun _ _ _ _ => 7) (fun _ _ _ _ _ => 8)) Output.zero
      = Compute scenario Output.zero :=
  ⟨rfl, (presGrad_capillary scenario 0).2 rfl _ _ _ _ _⟩


/-! ## Positions indexed by `Compute` -/

/-- An access of a loop is an access of one of its rounds. -/
theorem mem_traceLoop (n : Nat) (body : Nat → List Access) (a : Access) :
    a ∈ traceLoop n body ↔ ∃ i, i < n ∧ a ∈ body i := by
  unfold traceLoop
  induction n with
  | zero => simp [forLoop]
  | succ n ih =>
    rw [forLoop_succ, List.mem_append, ih]
    constructor
    · rintro (⟨i, hi, ha⟩ | ha)
      · exact ⟨i, Nat.lt_succ_of_lt hi, ha⟩
      · exact ⟨n, Nat.lt_succ_self n, ha⟩
    · rintro ⟨i, hi, ha⟩
      rcases Nat.lt_succ_iff_lt_or_eq.mp hi with h | h
      · exact Or.inl ⟨i, h, ha⟩
      · rw [h] at ha
        exact Or.inr ha

/-- The accesses of a round over a primary cell are within bounds when the stencil has at least
the two primary cells. -/
theorem primaryCellAccesses_inBounds (inp : Input) (hS : 2 ≤ inp.stencilSize) (i : Nat)
    (hi : i < numElems) (a : Access) (ha : a ∈ primaryCellAccesses inp i) :
    a.inBounds inp = true := by
  have hi2 : i < 2 := hi
  simp only [primaryCellAccesses, applyChainRuleAccesses, List.mem_append, List.mem_cons,
    List.mem_singleton, List.not_mem_nil, or_false, mem_traceLoop] at ha
  casesm* _ ∨ _, ∃ _, _, _ ∧ _ <;> subst_vars <;>
    simp [Access.inBounds, ArrayName.dims, inRange, numElems] <;> omega


/-- The accesses of a round over a stencil cell are within bounds. -/
theorem potentialCellAccesses_inBounds (inp : Input) (i : Nat) (hi : i < inp.stencilSize)
    (a : Access) (ha : a ∈ potentialCellAccesses inp i) : a.inBounds inp = true := by
  simp only [potentialCellAccesses, List.mem_append, List.mem_cons, List.mem_singleton,
    List.not_mem_nil, or_false, mem_traceLoop, numElems] at ha
  by_cases hflag : inp.capPressureFlag ≠ 0
  · simp only [if_pos hflag, mem_traceLoop, List.mem_singleton] at ha
    casesm* _ ∨ _, ∃ _, _, _ ∧ _ <;> subst_vars <;>
      simp [Access.inBounds, ArrayName.dims, inRange, numElems] <;> omega
  · simp only [if_neg hflag, List.not_mem_nil, or_false, false_or] at ha
    casesm* _ ∨ _, ∃ _, _, _ ∧ _ <;> subst_vars <;>
      simp [Access.inBounds, ArrayName.dims, inRange, numElems] <;> omega

/-- The upstream position is `0` or `1`. -/
theorem k_up_lt_two (inp : Input) (ip : Nat) : k_up inp ip < 2 := by
  unfold k_up
  split <;> decide

/-- The accesses of a phase that is not skipped are within bounds when the stencil has at least
the two primary cells. -/
theorem phaseFluxAccesses_inBounds (inp : Input) (hS : 2 ≤ inp.stencilSize) (ip : Nat)
    (a : Access) (ha : a ∈ phaseFluxAccesses inp ip) : a.inBounds inp = true := by
  have hk := k_up_lt_two inp ip
  simp only [phaseFluxAccesses, applyChainRuleAccesses, List.mem_append, List.mem_cons,
    List.mem_singleton, List.not_mem_nil, or_false, mem_traceLoop, numElems] at ha
  casesm* _ ∨ _, ∃ _, _, _ ∧ _ <;> subst_vars <;>
    simp [Access.inBounds, ArrayName.dims, inRange, numElems] <;> omega

/-- The accesses of a round of the loop over phases are within bounds when the stencil has at
least the two primary cells. -/
theorem phaseAccesses_inBounds (inp : Input) (hS : 2 ≤ inp.stencilSize) (ip : Nat)
    (a : Access) (ha : a ∈ phaseAccesses inp ip) : a.inBounds inp = true := by
  have hk := k_up_lt_two inp ip
  simp only [phaseAccesses, List.mem_append, mem_traceLoop] at ha
  rcases ha with ((⟨i, hi, ha⟩ | ⟨i, hi, ha⟩) | ha) | ha
  · exact primaryCellAccesses_inBounds inp hS i hi a ha
  · exact potentialCellAccesses_inBounds inp i hi a ha
  · simp only [List.mem_cons, List.mem_singleton, List.not_mem_nil, or_false] at ha
    casesm* _ ∨ _ <;> subst_vars <;>
      simp [Access.inBounds, ArrayName.dims, inRange] <;> omega
  · by_cases hs : |mobility inp ip| < 1e-20
    · rw [if_pos hs] at ha
      exact absurd ha (List.not_mem_nil a)
    · rw [if_neg hs] at ha
      exact phaseFluxAccesses_inBounds inp hS ip a ha

/-- The accesses of the output reset are within bounds. -/
theorem resetAccesses_inBounds (inp : Input) (a : Access) (ha : a ∈ resetAccesses inp) :
    a.inBounds inp = true := by
  simp only [resetAccesses, List.mem_append, List.mem_cons, List.mem_singleton,
    List.not_mem_nil, or_false, mem_traceLoop, numElems] at ha
  casesm* _ ∨ _, ∃ _, _, _ ∧ _ <;> subst_vars <;>
    simp [Access.inBounds, ArrayName.dims, inRange, numElems] <;> omega

/-- The accesses of the output loop are within bounds. -/
theorem populateAccesses_inBounds (inp : Input) (a : Access) (ha : a ∈ populateAccesses inp) :
    a.inBounds inp = true := by
  simp only [populateAccesses, List.mem_append, List.mem_cons, List.mem_singleton,
    List.not_mem_nil, or_false, mem_traceLoop, numElems] at ha
  rcases ha with ⟨ic, hic, ha⟩
  rcases ha with ha | ⟨ke, hke, ha⟩
  · casesm* _ ∨ _ <;> subst_vars <;>
      simp [Access.inBounds, ArrayName.dims, inRange, numElems] <;> omega
  · have hp := pres_column_lt inp ke hke
    rcases ha with ha | ⟨jc, hjc, ha⟩
    · casesm* _ ∨ _ <;> subst_vars <;>
        simp [Access.inBounds, ArrayName.dims, inRange, numElems] <;> omega
    · have hc := comp_column_lt inp ke jc hke hjc
      casesm* _ ∨ _ <;> subst_vars <;>
        simp [Access.inBounds, ArrayName.dims, inRange, numElems] <;> omega

/-- Every access of `Compute` is within the declared dimensions when the stencil has at least
the two primary cells. -/
theorem accesses_inBounds (inp : Input) (hS : 2 ≤ inp.stencilSize) (a : Access)
    (ha : a ∈ accesses inp) : a.inBounds inp = true := by
  simp only [accesses, List.mem_append, mem_traceLoop] at ha
  rcases ha with (ha | ⟨ip, _, ha⟩) | ha
  · exact resetAccesses_inBounds inp a ha
  · exact phaseAccesses_inBounds inp hS ip a ha
  · exact populateAccesses_inBounds inp a ha


/-- C13 (counterexample): on a connection with one declared cell (`stencilSize = 1`, which is
`>= 1`) the loop over the two primary cells reads `seri[1]`, a position that is not below the
declared stencil size. -/
theorem Compute_stencil_guard_counterexample :
    1 ≤ oneCellScenario.stencilSize ∧
    (⟨.seri, [1]⟩ : Access) ∈ accesses oneCellScenario ∧
    ¬ (1 < oneCellScenario.stencilSize) := by
  refine ⟨Nat.le_refl 1, ?_, Nat.lt_irrefl 1⟩
  simp only [accesses, List.mem_append, mem_traceLoop]
  refine Or.inl (Or.inr ⟨0, Nat.zero_lt_one, ?_⟩)
  simp only [phaseAccesses, List.mem_append, mem_traceLoop]
  refine Or.inl (Or.inl (Or.inl ⟨1, Nat.lt_succ_self 1, ?_⟩))
  simp [primaryCellAccesses]

/-- C13 (amended): when the declared stencil holds at least the two primary cells
(`stencilSize >= 2`), every access of `Compute` to a per-stencil input (`seri`, `sesri`, `sei`,
`stencilWeights`) or to a work array dimensioned by the stencil size (`dPhaseFlux_dP`,
`dPhaseFlux_dC`, `dCompFlux_dP`, `dCompFlux_dC`) has its first index below `stencilSize`, and
lies within the declared dimensions of its array. -/
theorem Compute_stencil_guard (inp : Input) (hS : 2 ≤ inp.stencilSize) (a : Access)
    (ha : a ∈ accesses inp)
    (harr : a.array ∈ [ArrayName.seri, .sesri, .sei, .stencilWeights, .dPhaseFlux_dP,
      .dPhaseFlux_dC, .dCompFlux_dP, .dCompFlux_dC]) :
    a.firstBelow inp.stencilSize = true ∧ a.inBounds inp = true := by
  have hb := accesses_inBounds inp hS a ha
  refine ⟨?_, hb⟩
  obtain ⟨arr, idx⟩ := a
  simp only [List.mem_cons, List.mem_singleton, List.not_mem_nil, or_false] at harr
  simp only [Access.inBounds] at hb
  cases idx with
  | nil => rcases harr with h | h | h | h | h | h | h | h <;> subst h <;>
      simp [ArrayName.dims, inRange] at hb
  | cons k rest =>
    rcases harr with h | h | h | h | h | h | h | h <;> subst h <;>
      simp only [ArrayName.dims, inRange, Bool.and_eq_true, decide_eq_true_eq] at hb <;>
      simp [Access.firstBelow, hb.1]

/-- C13 (witness): on the two-cell connection the read `seri[1]` of the primary-cell loop is
below the stencil size `2`. -/
theorem Compute_stencil_guard_witness :
    2 ≤ scenario.stencilSize ∧
    (⟨.seri, [1]⟩ : Access) ∈ accesses scenario ∧
    (⟨.seri, [1]⟩ : Access).firstBelow scenario.stencilSize = true ∧
    (⟨.seri, [1]⟩ : Access).inBounds scenario = true := by
  have hmem : (⟨.seri, [1]⟩ : Access) ∈ accesses scenario := by
    simp only [accesses, List.mem_append, mem_traceLoop]
    refine Or.inl (Or.inr ⟨0, Nat.zero_lt_one, ?_⟩)
    simp only [phaseAccesses, List.mem_append, mem_traceLoop]
    refine Or.inl (Or.inl (Or.inl ⟨1, Nat.lt_succ_self 1, ?_⟩))
    simp [primaryCellAccesses]
  exact ⟨Nat.le_refl 2, hmem,
    Compute_stencil_guard scenario (Nat.le_refl 2) _ hmem (by simp)⟩


/-! ## Closed form of the component flux -/

/-- The potential difference of the first phase of the two-phase scenario is `10`. -/
theorem twoPhaseScenario_potGrad : potGrad twoPhaseScenario 0 = 10 := by
  rw [potGrad_two_cells twoPhaseScenario 0 rfl, capillary_flag_off twoPhaseScenario 0 0 rfl,
    capillary_flag_off twoPhaseScenario 0 1 rfl]
  simp only [twoPhaseScenario, scenario]
  norm_num

/-- C21. Closed form of the component flux: for every input and every component `ic < NC`,
`localFlux[ic]` is `dt` times the sum, over the phases `ip < NP` whose upstream mobility
satisfies `|mobility| >= 1e-20`, of `mobility * potGrad * phaseCompFrac[ic]`, where the mobility
and the component fraction are those of the upstream cell of the phase (stencil position
`k_up`) and the potential difference of the phase is `presGrad - gravHead`. -/
theorem Compute_flux_closed_form (inp : Input) (out : Output) (ic : Nat) (hic : ic < inp.NC) :
    (Compute inp out).localFlux ic
      = inp.dt * ∑ ip in (Finset.range inp.NP).filter (fun ip => 1e-20 ≤ |mobility inp ip|),
          inp.phaseMob (inp.seri (k_up inp ip)) (inp.sesri (k_up inp ip))
              (inp.sei (k_up inp ip)) ip
            * ((potential inp ip).presGrad - (potential inp ip).gravHead)
            * inp.phaseCompFrac (inp.seri (k_up inp ip)) (inp.sesri (k_up inp ip))
                inp.fluidIndex (inp.sei (k_up inp ip)) 0 ip ic := by
  rw [Compute_localFlux_fst inp out ic hic, Finset.sum_filter]
  congr 1
  refine Finset.sum_congr rfl (fun ip _ => ?_)
  by_cases h : skipped inp ip
  · rw [if_pos h, if_neg (not_le.mpr h)]
  · rw [if_neg h, if_pos (not_lt.mp h)]
    rfl

/-- C21 on the two-phase scenario: the second phase has mobility `0` and is left out of the
sum, the first has mobility `2`, potential difference `10` and fraction `1/4` of component `0`,
so that `localFlux[0] = 1 * (2 * 10 * 1/4) = 5`. -/
theorem Compute_flux_closed_form_witness :
    0 < twoPhaseScenario.NC ∧ (Compute twoPhaseScenario Output.zero).localFlux 0 = 5 := by
  refine ⟨by decide, ?_⟩
  rw [Compute_flux_closed_form twoPhaseScenario Output.zero 0 (by decide)]
  have h0 : mobility twoPhaseScenario 0 = 2 := by simp [mobility, twoPhaseScenario]
  have h1 : mobility twoPhaseScenario 1 = 0 := by simp [mobility, twoPhaseScenario]
  have hp : (potential twoPhaseScenario 0).presGrad - (potential twoPhaseScenario 0).gravHead
      = 10 := twoPhaseScenario_potGrad
  have hN : twoPhaseScenario.NP = 2 := rfl
  rw [Finset.sum_filter, hN, Finset.sum_range_succ, Finset.sum_range_one, h0, h1, hp,
    if_pos (by rw [abs_of_pos (by norm_num)]; norm_num), if_neg (by norm_num)]
  simp only [twoPhaseScenario, scenario]
  norm_num

/-! ## Product rule for the derivatives of the phase flux -/

/-- C22. Product rule for the phase-flux derivatives: for every phase (the arrays of
`phaseFluxDeriv` are those that a phase which is not skipped leaves in `dPhaseFlux_dP` and
`dPhaseFlux_dC`) and every stencil cell `ke < stencilSize`,
`dPhaseFlux_dP[ke] = mobility * (dPresGrad_dP[ke] - g(ke)) + u(ke) * dPhaseMob_dPres_up * potGrad`
with `g(ke) = dGravHead_dP[ke]` for `ke < 2` and `0` otherwise and `u(ke) = 1` for `ke = k_up`
and `0` otherwise; the same formula holds for `dPhaseFlux_dC[ke][jc]`, `jc < NC`, with
`dPresGrad_dC`, `dGravHead_dC` and `dPhaseMob_dComp_up[jc]`. -/
theorem phaseFluxDeriv_product_rule (inp : Input) (ip ke : Nat) (hke : ke < inp.stencilSize) :
    (phaseFluxDeriv inp ip).dPhaseFlux_dP ke
      = mobility inp ip * ((potential inp ip).dPresGrad_dP ke
          - (if ke < 2 then (potential inp ip).dGravHead_dP ke else 0))
        + (if ke = k_up inp ip then 1 else 0)
          * inp.dPhaseMob_dPres (inp.seri (k_up inp ip)) (inp.sesri (k_up inp ip))
              (inp.sei (k_up inp ip)) ip
          * potGrad inp ip ∧
    ∀ jc, jc < inp.NC →
      (phaseFluxDeriv inp ip).dPhaseFlux_dC ke jc
        = mobility inp ip * ((potential inp ip).dPresGrad_dC ke jc
            - (if ke < 2 then (potential inp ip).dGravHead_dC ke jc else 0))
          + (if ke = k_up inp ip then 1 else 0)
            * inp.dPhaseMob_dComp (inp.seri (k_up inp ip)) (inp.sesri (k_up inp ip))
                (inp.sei (k_up inp ip)) ip jc
            * potGrad inp ip := by
  have hP : (if ke < 2 then (potential inp ip).dGravHead_dP ke else 0)
      = (potential inp ip).dGravHead_dP ke := by
    by_cases h : ke < 2
    · rw [if_pos h]
    · have h' : ¬ ke < numElems := h
      rw [if_neg h, potential_dGravHead_dP, if_neg h']
  have hC : ∀ jc, (if ke < 2 then (potential inp ip).dGravHead_dC ke jc else 0)
      = (potential inp ip).dGravHead_dC ke jc := by
    intro jc
    by_cases h : ke < 2
    · rw [if_pos h]
    · have h' : ¬ (ke < numElems ∧ jc < inp.NC) := fun hh => h hh.1
      rw [if_neg h, potential_dGravHead_dC, if_neg h']
  refine ⟨?_, fun jc hjc => ?_⟩
  · rw [phaseFluxDeriv_dP inp ip ke hke, hP]
    by_cases hk : ke = k_up inp ip
    · rw [if_pos hk, if_pos hk]
      ring
    · rw [if_neg hk, if_neg hk]
      ring
  · rw [phaseFluxDeriv_dC inp ip ke jc hke hjc, hC]
    by_cases hk : ke = k_up inp ip
    · rw [if_pos hk, if_pos hk]
      ring
    · rw [if_neg hk, if_neg hk]
      ring

/-- The potential difference of the scenario with derivatives is `10 - 1 * (3 - 1) = 8`. -/
theorem derivativeScenario_potGrad : potGrad derivativeScenario 0 = 8 := by
  rw [potGrad_two_cells derivativeScenario 0 rfl, capillary_flag_off derivativeScenario 0 0 rfl,
    capillary_flag_off derivativeScenario 0 1 rfl, meanDensity_densMean]
  simp only [derivativeScenario, scenario]
  norm_num

/-- C22 on the scenario with derivatives, whose upstream cell is cell `0`: at `ke = 0`
`dPhaseFlux_dP = 2 * (1 - 2 * 2) + 7 * 8 = 50`, at `ke = 1`
`dPhaseFlux_dP = 2 * (-1 - 2 * 2) = -10`, and `dPhaseFlux_dC[0][1] = 9 * 8 = 72`. -/
theorem phaseFluxDeriv_product_rule_witness :
    0 < derivativeScenario.stencilSize ∧ 1 < derivativeScenario.stencilSize ∧
    1 < derivativeScenario.NC ∧
    (phaseFluxDeriv derivativeScenario 0).dPhaseFlux_dP 0 = 50 ∧
    (phaseFluxDeriv derivativeScenario 0).dPhaseFlux_dP 1 = -10 ∧
    (phaseFluxDeriv derivativeScenario 0).dPhaseFlux_dC 0 1 = 72 := by
  have hk : k_up derivativeScenario 0 = 0 :=
    k_up_of_nonneg derivativeScenario 0 (by rw [derivativeScenario_potGrad]; norm_num)
  have hm : mobility derivativeScenario 0 = 2 := rfl
  have hS : derivativeScenario.stencilSize = 2 := rfl
  refine ⟨by decide, by decide, by decide, ?_, ?_, ?_⟩
  · rw [(phaseFluxDeriv_product_rule derivativeScenario 0 0 (by decide)).1, hk, hm,
      derivativeScenario_potGrad, potential_dPresGrad_dP, potential_dGravHead_dP,
      meanDensity_dP, capillary_flag_off derivativeScenario 0 0 rfl, hS]
    simp [derivativeScenario, scenario, numElems, Finset.sum_range_succ]
    norm_num
  · rw [(phaseFluxDeriv_product_rule derivativeScenario 0 1 (by decide)).1, hk, hm,
      derivativeScenario_potGrad, potential_dPresGrad_dP, potential_dGravHead_dP,
      meanDensity_dP, capillary_flag_off derivativeScenario 0 1 rfl, hS]
    simp [derivativeScenario, scenario, numElems, Finset.sum_range_succ]
    norm_num
  · rw [(phaseFluxDeriv_product_rule derivativeScenario 0 0 (by decide)).2 1 (by decide), hk, hm,
      derivativeScenario_potGrad, potential_dPresGrad_dC, potential_dGravHead_dC,
      meanDensity_dC, capillary_flag_off derivativeScenario 0 0 rfl, hS]
    simp [derivativeScenario, scenario, numElems, Finset.sum_range_succ, applyChainRule, forLoop]
    norm_num

/-! ## Dependence on the upstream cell only -/

/-- The six arrays of mobility and phase composition do not enter the potential. -/
theorem potential_withMobilityData (inp other : Input) (ip : Nat) :
    potential (withMobilityData inp other) ip = potential inp ip := rfl

/-- C23. Upstream-only dependence: two inputs to `FluxKernel::Compute` that differ only in the
arrays `phaseMob`, `dPhaseMob_dPres`, `dPhaseMob_dComp`, `phaseCompFrac`,
`dPhaseCompFrac_dPres` and `dPhaseCompFrac_dComp`, and there only away from the upstream cell
of each phase (in particular only at the non-upstream primary cell of some phase), give
identical `localFlux` and `localFluxJacobian`. -/
theorem Compute_upstream_only (inp other : Input) (out : Output)
    (h : ∀ ip, ip < inp.NP → UpstreamAgree inp other ip) :
    Compute (withMobilityData inp other) out = Compute inp out := by
  have hpg : ∀ ip, potGrad (withMobilityData inp other) ip = potGrad inp ip := fun _ => rfl
  have hk : ∀ ip, k_up (withMobilityData inp other) ip = k_up inp ip := fun _ => rfl
  have hm : ∀ ip, ip < inp.NP → mobility (withMobilityData inp other) ip = mobility inp ip := by
    intro ip hip
    unfold mobility
    rw [hk ip]
    exact (h ip hip).phaseMob
  have hpf : ∀ ip, ip < inp.NP → phaseFlux (withMobilityData inp other) ip = phaseFlux inp ip := by
    intro ip hip
    unfold phaseFlux
    rw [hm ip hip, hpg ip]
  have hd : ∀ ip, ip < inp.NP →
      phaseFluxDeriv (withMobilityData inp other) ip = phaseFluxDeriv inp ip := by
    intro ip hip
    unfold phaseFluxDeriv
    rw [potential_withMobilityData inp other ip, hpg ip, hk ip, hm ip hip]
    have e1 : (withMobilityData inp other).dPhaseMob_dPres
        ((withMobilityData inp other).seri (k_up inp ip))
        ((withMobilityData inp other).sesri (k_up inp ip))
        ((withMobilityData inp other).sei (k_up inp ip)) ip
      = inp.dPhaseMob_dPres (inp.seri (k_up inp ip)) (inp.sesri (k_up inp ip))
        (inp.sei (k_up inp ip)) ip := (h ip hip).dPhaseMob_dPres
    have e2 : (withMobilityData inp other).dPhaseMob_dComp
        ((withMobilityData inp other).seri (k_up inp ip))
        ((withMobilityData inp other).sesri (k_up inp ip))
        ((withMobilityData inp other).sei (k_up inp ip)) ip
      = inp.dPhaseMob_dComp (inp.seri (k_up inp ip)) (inp.sesri (k_up inp ip))
        (inp.sei (k_up inp ip)) ip := funext (h ip hip).dPhaseMob_dComp
    simp only [e1, e2]
    rfl
  have hcb : ∀ ip, ip < inp.NP → ∀ ic s,
      componentBody (withMobilityData inp other) ip ic s = componentBody inp ip ic s := by
    intro ip hip ic s
    unfold componentBody
    rw [hk ip, hpf ip hip, hd ip hip]
    have e1 : (withMobilityData inp other).phaseCompFrac
        ((withMobilityData inp other).seri (k_up inp ip))
        ((withMobilityData inp other).sesri (k_up inp ip))
        (withMobilityData inp other).fluidIndex
        ((withMobilityData inp other).sei (k_up inp ip)) 0 ip
      = inp.phaseCompFrac (inp.seri (k_up inp ip)) (inp.sesri (k_up inp ip)) inp.fluidIndex
        (inp.sei (k_up inp ip)) 0 ip := funext (h ip hip).phaseCompFrac
    have e2 : (withMobilityData inp other).dPhaseCompFrac_dPres
        ((withMobilityData inp other).seri (k_up inp ip))
        ((withMobilityData inp other).sesri (k_up inp ip))
        (withMobilityData inp other).fluidIndex
        ((withMobilityData inp other).sei (k_up inp ip)) 0 ip
      = inp.dPhaseCompFrac_dPres (inp.seri (k_up inp ip)) (inp.sesri (k_up inp ip))
        inp.fluidIndex (inp.sei (k_up inp ip)) 0 ip := funext (h ip hip).dPhaseCompFrac_dPres
    have e3 : (withMobilityData inp other).dPhaseCompFrac_dComp
        ((withMobilityData inp other).seri (k_up inp ip))
        ((withMobilityData inp other).sesri (k_up inp ip))
        (withMobilityData inp other).fluidIndex
        ((withMobilityData inp other).sei (k_up inp ip)) 0 ip
      = inp.dPhaseCompFrac_dComp (inp.seri (k_up inp ip)) (inp.sesri (k_up inp ip))
        inp.fluidIndex (inp.sei (k_up inp ip)) 0 ip :=
      funext (fun ic => funext ((h ip hip).dPhaseCompFrac_dComp ic))
    simp only [e1, e2, e3]
    rfl
  have hpb : ∀ ip, ip < inp.NP → ∀ s,
      phaseBody (withMobilityData inp other) ip s = phaseBody inp ip s := by
    intro ip hip s
    unfold phaseBody
    rw [hm ip hip]
    by_cases hs : |mobility inp ip| < 1e-20
    · rw [if_pos hs, if_pos hs]
    · rw [if_neg hs, if_neg hs]
      exact forLoop_congr _ _ _ _ (fun k t _ => hcb ip hip k t)
  have hcf : compFluxes (withMobilityData inp other) = compFluxes inp := by
    unfold compFluxes
    exact forLoop_congr _ _ _ _ (fun k t hk => hpb k hk t)
  unfold Compute
  rw [hcf]
  rfl

/-- C23 on the concrete scenario, whose upstream cell is cell `0`: replacing mobility and phase
composition, and their derivatives, by arrays with other values in the downstream cell `1`
leaves the outputs unchanged. -/
theorem Compute_upstream_only_witness :
    downstreamChanged.phaseMob 0 0 1 0 ≠ scenario.phaseMob 0 0 1 0 ∧
    downstreamChanged.phaseCompFrac 0 0 0 1 0 0 0 ≠ scenario.phaseCompFrac 0 0 0 1 0 0 0 ∧
    Compute (withMobilityData scenario downstreamChanged) Output.zero
      = Compute scenario Output.zero := by
  have hk : k_up scenario 0 = 0 := scenario_singlePhaseTwoCell.k_up_eq 0
  refine ⟨by simp [downstreamChanged, scenario], by simp [downstreamChanged, scenario],
    Compute_upstream_only scenario downstreamChanged Output.zero ?_⟩
  intro ip hip
  have e : ip = 0 := by
    have : ip < 1 := hip
    omega
  subst e
  constructor <;> simp only [hk] <;> simp [downstreamChanged, scenario]

/-! ## Accesses under the dimension contract -/

/-- C25. In-bounds access under the dimension contract: for every call of
`FluxKernel::Compute` with `2 <= stencilSize <= MAX_STENCIL_SIZE` and
`NC <= MAX_NUM_COMPONENTS` (any `NP`; the lower bound `1 <= NC` is not needed), stencil arrays
of length `stencilSize`, `localFlux` of length `2*NC` and `localFluxJacobian` of shape `2*NC` by
`stencilSize*(NC+1)`, every work array is created within its capacity and every read and write
of the per-stencil inputs, of the work arrays and of the outputs is within the declared
dimensions. -/
theorem Compute_inBounds (inp : Input) (maxStencil maxNumComp : Nat)
    (hS : 2 ≤ inp.stencilSize) (hS' : inp.stencilSize ≤ maxStencil)
    (hNC : inp.NC ≤ maxNumComp) :
    (∀ arr : ArrayName, arr.fits inp maxStencil maxNumComp = true) ∧
    (∀ a, a ∈ accesses inp → a.inBounds inp = true) := by
  refine ⟨fun arr => ?_, fun a ha => accesses_inBounds inp hS a ha⟩
  have h2 : inp.stencilSize * inp.NC ≤ maxStencil * maxNumComp := Nat.mul_le_mul hS' hNC
  have h3 : inp.stencilSize * inp.NC * inp.NC ≤ maxStencil * maxNumComp * maxNumComp :=
    Nat.mul_le_mul h2 hNC
  have h4 : numElems * inp.NC ≤ numElems * maxNumComp := Nat.mul_le_mul (Nat.le_refl _) hNC
  cases arr <;>
    simp only [ArrayName.fits, ArrayName.capacity, ArrayName.dims, List.prod_cons,
      List.prod_nil, Nat.mul_one, decide_eq_true_eq] <;>
    first | exact hS' | exact hNC | exact h2 | exact h4 | exact Nat.le_refl _ | skip
  all_goals (rw [← Nat.mul_assoc]; exact h3)

/-- C25 on the concrete scenario with capacities `18` and `5`: the array `dCompFlux_dC` of
`2 * 2 * 2` entries fits its capacity and the write `localFluxJacobian[3][5]` of the output
loop (`ic = 1`, `ke = 1`, `jc = 1`) is within `4` rows and `6` columns. -/
theorem Compute_inBounds_witness :
    2 ≤ scenario.stencilSize ∧ scenario.stencilSize ≤ 18 ∧ scenario.NC ≤ 5 ∧
    ArrayName.dCompFlux_dC.fits scenario 18 5 = true ∧
    (⟨.localFluxJacobian, [3, 5]⟩ : Access) ∈ accesses scenario ∧
    (⟨.localFluxJacobian, [3, 5]⟩ : Access).inBounds scenario = true := by
  have hmem : (⟨.localFluxJacobian, [3, 5]⟩ : Access) ∈ accesses scenario := by
    simp only [accesses, populateAccesses, List.mem_append, mem_traceLoop]
    refine Or.inr ⟨1, by decide, Or.inr ⟨1, by decide, Or.inr ⟨1, by decide, ?_⟩⟩⟩
    simp [scenario]
  have h := Compute_inBounds scenario 18 5 (by decide) (by decide) (by decide)
  exact ⟨by decide, by decide, by decide, h.1 _, hmem, h.2 _ hmem⟩

end FluxKernel

/-! ## Validity check of a proposed update -/

namespace CompositionalMultiphaseFVM

/-- A reduction variable that holds `0` or `1` still does after `check.min( cond )`, and it
holds `1` exactly when it did before and the condition holds. -/
theorem reduceMin_spec (check : Int) (cond : Bool) (h : check = 0 ∨ check = 1) :
    (reduceMin check cond = 0 ∨ reduceMin check cond = 1) ∧
    (reduceMin check cond = 1 ↔ check = 1 ∧ cond = true) := by
  rcases h with h | h <;> cases cond <;> simp [reduceMin, h]

/-- The loop that checks the sign of every updated component density. -/
theorem densLoop_spec (f : Nat → Bool) (n : Nat) (check : Int) (h : check = 0 ∨ check = 1) :
    (forLoop n (fun ic check => reduceMin check (f ic)) check = 0
      ∨ forLoop n (fun ic check => reduceMin check (f ic)) check = 1) ∧
    (forLoop n (fun ic check => reduceMin check (f ic)) check = 1
      ↔ check = 1 ∧ ∀ ic, ic < n → f ic = true) := by
  induction n with
  | zero => simp [forLoop, h]
  | succ n ih =>
    rw [forLoop_succ]
    have hs := reduceMin_spec (forLoop n (fun ic check => reduceMin check (f ic)) check) (f n) ih.1
    refine ⟨hs.1, ?_⟩
    rw [hs.2, ih.2]
    constructor
    · rintro ⟨⟨h1, h2⟩, h3⟩
      refine ⟨h1, fun ic hic => ?_⟩
      rcases Nat.lt_succ_iff_lt_or_eq.mp hic with h4 | h4
      · exact h2 ic h4
      · rw [h4]; exact h3
    · rintro ⟨h1, h2⟩
      exact ⟨⟨h1, fun ic hic => h2 ic (Nat.lt_succ_of_lt hic)⟩, h2 n (Nat.lt_succ_self n)⟩

/-- The summed positive parts of the updated component densities. -/
theorem totalDens_eq (r : Rank) (sr : SubRegion) (ei : Nat) :
    totalDens r sr ei = ∑ ic in Finset.range r.NC, max (newDens r sr ei ic) 0 := by
  rw [totalDens, forLoop_sum, zero_add]
  apply Finset.sum_congr rfl
  intro ic _
  by_cases h : newDens r sr ei ic > 0
  · rw [if_pos h, max_eq_left (le_of_lt h)]
  · rw [if_neg h, max_eq_right (not_lt.mp h)]


/-- One round of the loop over elements. -/
theorem checkElement_spec (r : Rank) (sr : SubRegion) (ei : Nat) (check : Int)
    (h : check = 0 ∨ check = 1) :
    (checkElement r sr ei check = 0 ∨ checkElement r sr ei check = 1) ∧
    (checkElement r sr ei check = 1 ↔ check = 1 ∧ ElementValid r sr ei) := by
  unfold checkElement ElementValid
  by_cases hg : sr.elemGhostRank ei < 0
  · simp only [if_pos hg]
    have hp := reduceMin_spec check (decide (newPres r sr ei ≥ 0)) h
    by_cases hc : r.allowCompDensChopping = 0
    · simp only [if_pos hc]
      have hd := densLoop_spec (fun ic => decide (newDens r sr ei ic ≥ 0)) r.NC _ hp.1
      refine ⟨hd.1, ?_⟩
      rw [hd.2, hp.2]
      simp only [decide_eq_true_eq, ge_iff_le]
      constructor
      · rintro ⟨⟨h1, h2⟩, h3⟩
        exact ⟨h1, fun _ => ⟨h2, h3⟩⟩
      · rintro ⟨h1, h2⟩
        exact ⟨⟨h1, (h2 hg).1⟩, (h2 hg).2⟩
    · simp only [if_neg hc]
      have ht := reduceMin_spec _ (decide (totalDens r sr ei ≥ r.eps)) hp.1
      refine ⟨ht.1, ?_⟩
      rw [ht.2, hp.2]
      simp only [decide_eq_true_eq, ge_iff_le]
      constructor
      · rintro ⟨⟨h1, h2⟩, h3⟩
        exact ⟨h1, fun _ => ⟨h2, h3⟩⟩
      · rintro ⟨h1, h2⟩
        exact ⟨⟨h1, (h2 hg).1⟩, (h2 hg).2⟩
  · simp only [if_neg hg]
    refine ⟨h, ?_⟩
    constructor
    · intro h1
      exact ⟨h1, fun h2 => absurd h2 hg⟩
    · intro h1
      exact h1.1

/-- The first `n` rounds of the loop over the elements of a sub-region. -/
theorem checkElement_loop (r : Rank) (sr : SubRegion) (n : Nat) :
    (forLoop n (checkElement r sr) 1 = 0 ∨ forLoop n (checkElement r sr) 1 = 1) ∧
    (forLoop n (checkElement r sr) 1 = 1 ↔ ∀ ei, ei < n → ElementValid r sr ei) := by
  induction n with
  | zero => simp [forLoop]
  | succ n ih =>
    rw [forLoop_succ]
    have hs := checkElement_spec r sr n _ ih.1
    refine ⟨hs.1, ?_⟩
    rw [hs.2, ih.2]
    constructor
    · rintro ⟨h1, h2⟩ ei hei
      rcases Nat.lt_succ_iff_lt_or_eq.mp hei with h4 | h4
      · exact h1 ei h4
      · rw [h4]; exact h2
    · intro h1
      exact ⟨fun ei hei => h1 ei (Nat.lt_succ_of_lt hei), h1 n (Nat.lt_succ_self n)⟩

/-- The reduction over a sub-region is `1` when every element is valid and `0` otherwise. -/
theorem checkSubRegion_spec (r : Rank) (sr : SubRegion) :
    (checkSubRegion r sr = 0 ∨ checkSubRegion r sr = 1) ∧
    (checkSubRegion r sr = 1 ↔ ∀ ei, ei < sr.size → ElementValid r sr ei) :=
  checkElement_loop r sr sr.size

/-- The minimum of two values among `0` and `1`. -/
theorem min_zero_one (a b : Int) (ha : a = 0 ∨ a = 1) (hb : b = 0 ∨ b = 1) :
    (min a b = 0 ∨ min a b = 1) ∧ (min a b = 1 ↔ a = 1 ∧ b = 1) := by
  rcases ha with ha | ha <;> rcases hb with hb | hb <;> simp [ha, hb]

/-- The loop over the target sub-regions, from any value of `localCheck`. -/
theorem localCheck_fold (r : Rank) (l : List SubRegion) (init : Int)
    (h : init = 0 ∨ init = 1) :
    (l.foldl (fun localCheck sr => min localCheck (checkSubRegion r sr)) init = 0
      ∨ l.foldl (fun localCheck sr => min localCheck (checkSubRegion r sr)) init = 1) ∧
    (l.foldl (fun localCheck sr => min localCheck (checkSubRegion r sr)) init = 1
      ↔ init = 1 ∧ ∀ sr, sr ∈ l → ∀ ei, ei < sr.size → ElementValid r sr ei) := by
  induction l generalizing init with
  | nil => simp [h]
  | cons sr l ih =>
    rw [List.foldl_cons]
    have hm := min_zero_one init (checkSubRegion r sr) h (checkSubRegion_spec r sr).1
    have hi := ih (min init (checkSubRegion r sr)) hm.1
    refine ⟨hi.1, ?_⟩
    rw [hi.2, hm.2, (checkSubRegion_spec r sr).2]
    constructor
    · rintro ⟨⟨h1, h2⟩, h3⟩
      refine ⟨h1, fun sr' hsr' => ?_⟩
      rcases List.mem_cons.mp hsr' with h4 | h4
      · rw [h4]; exact h2
      · exact h3 sr' h4
    · rintro ⟨h1, h2⟩
      exact ⟨⟨h1, h2 sr (List.mem_cons_self _ _)⟩,
        fun sr' hsr' => h2 sr' (List.mem_cons_of_mem _ hsr')⟩

/-- The value of `localCheck` on a rank: `1` when every element of every target sub-region is
valid, `0` otherwise. -/
theorem localCheck_spec (r : Rank) :
    (localCheck r = 0 ∨ localCheck r = 1) ∧
    (localCheck r = 1 ↔ ∀ sr, sr ∈ r.subRegions → ∀ ei, ei < sr.size → ElementValid r sr ei) := by
  have h := localCheck_fold r r.subRegions 1 (Or.inr rfl)
  refine ⟨h.1, ?_⟩
  rw [localCheck, h.2]
  simp

/-- The minimum over the ranks of values among `0` and `1`. -/
theorem MpiWrapperMin_spec (value : Int) (others : List Int) (h : value = 0 ∨ value = 1)
    (ho : ∀ x, x ∈ others → x = 0 ∨ x = 1) :
    (MpiWrapperMin value others = 0 ∨ MpiWrapperMin value others = 1) ∧
    (MpiWrapperMin value others = 1 ↔ value = 1 ∧ ∀ x, x ∈ others → x = 1) := by
  unfold MpiWrapperMin
  induction others generalizing value with
  | nil => simp [h]
  | cons x l ih =>
    rw [List.foldl_cons]
    have hx := ho x (List.mem_cons_self _ _)
    have hm := min_zero_one value x h hx
    have hi := ih (min value x) hm.1 (fun y hy => ho y (List.mem_cons_of_mem _ hy))
    refine ⟨hi.1, ?_⟩
    rw [hi.2, hm.2]
    constructor
    · rintro ⟨⟨h1, h2⟩, h3⟩
      refine ⟨h1, fun y hy => ?_⟩
      rcases List.mem_cons.mp hy with h4 | h4
      · rw [h4]; exact h2
      · exact h3 y h4
    · rintro ⟨h1, h2⟩
      exact ⟨⟨h1, h2 x (List.mem_cons_self _ _)⟩, fun y hy => h2 y (List.mem_cons_of_mem _ hy)⟩

/-- The step is accepted exactly when every rank holds `localCheck = 1`. -/
theorem CheckSystemSolution_eq_true (r : Rank) (others : List Rank) :
    CheckSystemSolution r others = true ↔ ∀ c, c ∈ r :: others → localCheck c = 1 := by
  have h := MpiWrapperMin_spec (localCheck r) (others.map localCheck) (localCheck_spec r).1
    (by
      intro x hx
      obtain ⟨c, _, hc⟩ := List.mem_map.mp hx
      rw [← hc]
      exact (localCheck_spec c).1)
  unfold CheckSystemSolution
  rw [decide_eq_true_eq]
  have h01 : MpiWrapperMin (localCheck r) (others.map localCheck) ≠ 0
      ↔ MpiWrapperMin (localCheck r) (others.map localCheck) = 1 := by
    rcases h.1 with h0 | h1
    · simp [h0]
    · simp [h1]
  rw [h01, h.2]
  constructor
  · rintro ⟨h1, h2⟩ c hc
    rcases List.mem_cons.mp hc with h3 | h3
    · rw [h3]; exact h1
    · exact h2 _ (List.mem_map.mpr ⟨c, h3, rfl⟩)
  · intro h1
    refine ⟨h1 r (List.mem_cons_self _ _), fun x hx => ?_⟩
    obtain ⟨c, hc, hcx⟩ := List.mem_map.mp hx
    rw [← hcx]
    exact h1 c (List.mem_cons_of_mem _ hc)


/-- C9. Validity check with chopping enabled: `CheckSystemSolution` accepts on a rank (its
`localCheck` is `1`, which is also the returned value when the rank is alone) iff for every
locally owned cell of every target sub-region the updated pressure
`pres + dPres + scalingFactor*solution[row]` is `>= 0` and the sum over the components of
`max(compDens + dCompDens + scalingFactor*solution[row+ic+1], 0)` is `>= eps`; otherwise
`localCheck` is `0`. In particular a sum exactly equal to `eps` is accepted, a sum strictly below
`eps` is rejected, and a negative component density alone does not cause rejection. -/
theorem localCheck_chopping (r : Rank) (h : r.allowCompDensChopping ≠ 0) :
    (localCheck r = 1 ↔
      ∀ sr, sr ∈ r.subRegions → ∀ ei, ei < sr.size → sr.elemGhostRank ei < 0 →
        0 ≤ newPres r sr ei ∧
        r.eps ≤ ∑ ic in Finset.range r.NC, max (newDens r sr ei ic) 0) ∧
    (localCheck r ≠ 1 → localCheck r = 0) ∧
    (CheckSystemSolution r [] = true ↔ localCheck r = 1) := by
  refine ⟨?_, ?_, ?_⟩
  · rw [(localCheck_spec r).2]
    unfold ElementValid
    simp only [if_neg h, totalDens_eq]
  · intro h1
    rcases (localCheck_spec r).1 with h0 | h0
    · exact h0
    · exact absurd h0 h1
  · rw [CheckSystemSolution_eq_true]
    simp

/-- C9 on two concrete ranks with one locally owned element whose updated component densities
are `-1` and `3`: with `eps = 3`, exactly the sum of the positive parts, the rank accepts
although one density is negative; with `eps = 4` it rejects. -/
theorem localCheck_chopping_witness :
    choppingRank.allowCompDensChopping ≠ 0 ∧
    newDens choppingRank oneElement 0 0 < 0 ∧
    (∑ ic in Finset.range choppingRank.NC, max (newDens choppingRank oneElement 0 ic) 0)
      = choppingRank.eps ∧
    localCheck choppingRank = 1 ∧
    localCheck belowThresholdRank = 0 := by
  have hsum : (∑ ic in Finset.range choppingRank.NC, max (newDens choppingRank oneElement 0 ic) 0)
      = 3 := by
    simp [choppingRank, oneElement, newDens, Finset.sum_range_succ]
  have hsum' : (∑ ic in Finset.range belowThresholdRank.NC,
      max (newDens belowThresholdRank oneElement 0 ic) 0) = 3 := hsum
  refine ⟨by decide, by simp [choppingRank, oneElement, newDens], hsum, ?_, ?_⟩
  · apply (localCheck_chopping choppingRank (by decide)).1.mpr
    intro sr hsr ei hei _
    have e : sr = oneElement := by simpa [choppingRank] using hsr
    subst e
    have e0 : ei = 0 := by
      have : ei < 1 := hei
      omega
    subst e0
    refine ⟨by simp [choppingRank, oneElement, newPres], ?_⟩
    rw [hsum]
    exact le_refl _
  · apply (localCheck_chopping belowThresholdRank (by decide)).2.1
    intro h1
    have h2 := ((localCheck_chopping belowThresholdRank (by decide)).1.mp h1 oneElement
      (by simp [belowThresholdRank, choppingRank]) 0 (by decide) (by decide)).2
    rw [hsum'] at h2
    have h3 : belowThresholdRank.eps = 4 := rfl
    rw [h3] at h2
    norm_num at h2

/-- C10. Validity check with chopping disabled: `CheckSystemSolution` rejects the step (returns
`false`) iff some locally owned cell of some target sub-region of some rank has updated pressure
`pres + dPres + scalingFactor*solution[row] < 0` or some updated component density
`compDens + dCompDens + scalingFactor*solution[row+ic+1] < 0`; a value of exactly `0` is
accepted, and one rejecting cell in any sub-region rejects the whole step. -/
theorem CheckSystemSolution_no_chopping (r : Rank) (others : List Rank)
    (h : ∀ c, c ∈ r :: others → c.allowCompDensChopping = 0) :
    CheckSystemSolution r others = false ↔
      ∃ c, c ∈ r :: others ∧ ∃ sr, sr ∈ c.subRegions ∧ ∃ ei, ei < sr.size ∧
        sr.elemGhostRank ei < 0 ∧
        (newPres c sr ei < 0 ∨ ∃ ic, ic < c.NC ∧ newDens c sr ei ic < 0) := by
  rw [← Bool.not_eq_true, CheckSystemSolution_eq_true]
  constructor
  · intro hn
    by_contra hex
    apply hn
    intro c hc
    rw [(localCheck_spec c).2]
    intro sr hsr ei hei hg
    rw [if_pos (h c hc)]
    constructor
    · by_contra hp
      exact hex ⟨c, hc, sr, hsr, ei, hei, hg, Or.inl (not_le.mp hp)⟩
    · intro ic hic
      by_contra hd
      exact hex ⟨c, hc, sr, hsr, ei, hei, hg, Or.inr ⟨ic, hic, not_le.mp hd⟩⟩
  · rintro ⟨c, hc, sr, hsr, ei, hei, hg, hbad⟩ hall
    have hv := (localCheck_spec c).2.mp (hall c hc) sr hsr ei hei hg
    rw [if_pos (h c hc)] at hv
    rcases hbad with hp | ⟨ic, hic, hd⟩
    · exact absurd hv.1 (not_le.mpr hp)
    · exact absurd (hv.2 ic hic) (not_le.mpr hd)


/-- C10 on two concrete ranks with chopping disabled: the rank whose second sub-region holds an
element with updated component density `-1` rejects the step, and the rank whose only element
has pressure and densities exactly `0` accepts it. -/
theorem CheckSystemSolution_no_chopping_witness :
    strictRank.allowCompDensChopping = 0 ∧
    zeroRank.allowCompDensChopping = 0 ∧
    newDens strictRank oneElement 0 0 < 0 ∧
    CheckSystemSolution strictRank [] = false ∧
    CheckSystemSolution zeroRank [] = true := by
  have hs : ∀ c, c ∈ [strictRank] → c.allowCompDensChopping = 0 := by
    intro c hc
    rw [List.mem_singleton.mp hc]
    rfl
  have hz : ∀ c, c ∈ [zeroRank] → c.allowCompDensChopping = 0 := by
    intro c hc
    rw [List.mem_singleton.mp hc]
    rfl
  have hd : newDens strictRank oneElement 0 0 < 0 := by
    simp [strictRank, choppingRank, oneElement, newDens]
  refine ⟨rfl, rfl, hd, ?_, ?_⟩
  · exact (CheckSystemSolution_no_chopping strictRank [] hs).mpr
      ⟨strictRank, List.mem_singleton.mpr rfl, oneElement,
        by simp [strictRank], 0, by decide, by decide, Or.inr ⟨0, by decide, hd⟩⟩
  · have hn : ¬ (CheckSystemSolution zeroRank [] = false) := by
      intro hf
      obtain ⟨c, hc, sr, hsr, ei, _, _, hbad⟩ :=
        (CheckSystemSolution_no_chopping zeroRank [] hz).mp hf
      have ec : c = zeroRank := List.mem_singleton.mp hc
      subst ec
      have es : sr = zeroElement := by simpa [zeroRank] using hsr
      subst es
      rcases hbad with hp | ⟨ic, _, hdens⟩
      · simp [zeroRank, choppingRank, zeroElement, newPres] at hp
      · simp [zeroRank, choppingRank, zeroElement, newDens] at hdens
    simpa using hn


/-! ### Residual norm -/

/-- A fold that adds `f x` for each element of a list computes the sum of the list of the
`f x`. -/
theorem foldl_add_eq_sum {α : Type} (f : α → real64) (l : List α) (a : real64) :
    l.foldl (fun acc x => acc + f x) a = a + (l.map f).sum := by
  induction l generalizing a with
  | nil => simp
  | cons x l ih => simp only [List.foldl_cons, ih, List.map_cons, List.sum_cons]; ring

/-- The step of the element loop adds the squared normalized residuals of a locally owned
element and nothing for a ghost. -/
theorem residualElement_eq (r : ResidualRank) (sr : ResidualSubRegion) (ei : Nat)
    (localSum : real64) :
    residualElement r sr ei localSum
      = localSum + (if sr.elemGhostRank ei < 0 then
          ∑ idof in Finset.range (r.NC + 1),
            (r.localRhs (sr.dofNumber ei - r.rankOffset + idof)
              / (sr.totalDens ei 0 * sr.refPoro ei * sr.volume ei)) ^ 2
        else 0) := by
  unfold residualElement
  by_cases h : sr.elemGhostRank ei < 0
  · simp only [if_pos h]
    rw [forLoop_sum (r.NC + 1) (fun idof =>
      r.localRhs (sr.dofNumber ei - r.rankOffset + idof)
          / (sr.totalDens ei 0 * sr.refPoro ei * sr.volume ei)
        * (r.localRhs (sr.dofNumber ei - r.rankOffset + idof)
          / (sr.totalDens ei 0 * sr.refPoro ei * sr.volume ei)))]
    congr 1
    exact Finset.sum_congr rfl (fun idof _ => (sq _).symm)
  · simp only [if_neg h, add_zero]

/-- The sum of a sub-region is the sum over its locally owned elements. -/
theorem residualSubRegion_eq (r : ResidualRank) (sr : ResidualSubRegion) :
    residualSubRegion r sr
      = ∑ ei in (Finset.range sr.size).filter (fun ei => sr.elemGhostRank ei < 0),
          ∑ idof in Finset.range (r.NC + 1),
            (r.localRhs (sr.dofNumber ei - r.rankOffset + idof)
              / (sr.totalDens ei 0 * sr.refPoro ei * sr.volume ei)) ^ 2 := by
  unfold residualSubRegion
  have hbody : residualElement r sr = fun ei localSum => localSum +
      (if sr.elemGhostRank ei < 0 then
          ∑ idof in Finset.range (r.NC + 1),
            (r.localRhs (sr.dofNumber ei - r.rankOffset + idof)
              / (sr.totalDens ei 0 * sr.refPoro ei * sr.volume ei)) ^ 2
        else 0) := by
    funext ei localSum
    exact residualElement_eq r sr ei localSum
  rw [hbody, forLoop_sum, zero_add, Finset.sum_filter]

/-- The local sum of a rank is the sum over its sub-regions. -/
theorem localResidualNorm_eq (r : ResidualRank) :
    localResidualNorm r = (r.subRegions.map (residualSubRegion r)).sum := by
  unfold localResidualNorm
  rw [foldl_add_eq_sum, zero_add]

/-- The argument of the square root is the sum named by the contract. -/
theorem globalResidualSum_eq (r : ResidualRank) (others : List ResidualRank) :
    globalResidualSum r others = squaredResidualSum (r :: others) := by
  unfold globalResidualSum MpiWrapperSum squaredResidualSum
  rw [foldl_add_eq_sum (fun y => y), List.map_map, List.map_cons, List.sum_cons]
  have h : ∀ q : ResidualRank, localResidualNorm q
      = (q.subRegions.map fun sr =>
          ∑ ei in (Finset.range sr.size).filter (fun ei => sr.elemGhostRank ei < 0),
            ∑ idof in Finset.range (q.NC + 1),
              (q.localRhs (sr.dofNumber ei - q.rankOffset + idof)
                / (sr.totalDens ei 0 * sr.refPoro ei * sr.volume ei)) ^ 2).sum := by
    intro q
    rw [localResidualNorm_eq]
    congr 1
    exact List.map_congr_left (fun sr _ => residualSubRegion_eq q sr)
  rw [h r]
  congr 2
  exact List.map_congr_left (fun q _ => h q)

/-- The sum named by the contract is not negative. -/
theorem squaredResidualSum_nonneg (ranks : List ResidualRank) :
    0 ≤ squaredResidualSum ranks := by
  unfold squaredResidualSum
  refine List.sum_nonneg (fun x hx => ?_)
  rw [List.mem_map] at hx
  obtain ⟨r, _, rfl⟩ := hx
  refine List.sum_nonneg (fun y hy => ?_)
  rw [List.mem_map] at hy
  obtain ⟨sr, _, rfl⟩ := hy
  exact Finset.sum_nonneg (fun ei _ => Finset.sum_nonneg (fun idof _ => sq_nonneg _))

/-- On the example rank the sum named by the contract is `3^2 + 4^2 = 25`: the two entries `7`
of the ghost element do not enter. -/
theorem squaredResidualSum_example : squaredResidualSum [residualRankExample] = 25 := by
  simp only [squaredResidualSum, residualRankExample, residualSubRegionExample, List.map_cons,
    List.map_nil, List.sum_cons, List.sum_nil, Finset.sum_filter, Finset.sum_range_succ,
    Finset.sum_range_zero]
  norm_num

/-- C11: `CalculateResidualNorm` returns a value that is not negative and whose square is the
sum, over the ranks, their target sub-regions, the locally owned cells (ghost rank below zero)
and the `NC + 1` degrees of freedom of the cell, of the squared residual entries divided by
`totalDens[ei][0] * refPoro[ei] * volume[ei]`; the sum ranges over the owned cells only, so the
entries of ghost cells do not contribute. -/
theorem CalculateResidualNorm_spec (r : ResidualRank) (others : List ResidualRank) :
    0 ≤ CalculateResidualNorm r others ∧
    CalculateResidualNorm r others ^ 2 = ((squaredResidualSum (r :: others) : ℚ) : ℝ) := by
  unfold CalculateResidualNorm
  rw [globalResidualSum_eq]
  exact ⟨Real.sqrt_nonneg _,
    Real.sq_sqrt (Rat.cast_nonneg.mpr (squaredResidualSum_nonneg (r :: others)))⟩

/-- On the example rank, alone in its communicator, the residual norm is `5`. -/
theorem CalculateResidualNorm_example : CalculateResidualNorm residualRankExample [] = 5 := by
  unfold CalculateResidualNorm
  rw [globalResidualSum_eq, squaredResidualSum_example]
  rw [show (((25 : ℚ) : ℝ)) = 5 ^ 2 by norm_num]
  exact Real.sqrt_sq (by norm_num)

/-! ### Ghost elements -/

/-- The updated pressure of a locally owned element is the same on the two inputs. -/
theorem OwnedAgree.newPres_eq {r r' : Rank} {sr sr' : SubRegion} (hr : RanksAgree r r')
    (h : OwnedAgree r r' sr sr') (ei : Nat) (hei : ei < sr.size)
    (hg : sr.elemGhostRank ei < 0) : newPres r' sr' ei = newPres r sr ei := by
  unfold newPres
  simp only [h.dofNumber ei hei, hr.rankOffset, h.pres ei hei hg, h.dPres ei hei hg,
    hr.scalingFactor, h.solution_pres ei hei hg]

/-- The updated component densities of a locally owned element are the same on the two
inputs. -/
theorem OwnedAgree.newDens_eq {r r' : Rank} {sr sr' : SubRegion} (hr : RanksAgree r r')
    (h : OwnedAgree r r' sr sr') (ei : Nat) (hei : ei < sr.size)
    (hg : sr.elemGhostRank ei < 0) (ic : Nat) (hic : ic < r.NC) :
    newDens r' sr' ei ic = newDens r sr ei ic := by
  unfold newDens
  simp only [h.dofNumber ei hei, hr.rankOffset, h.compDens ei ic hei hg hic,
    h.dCompDens ei ic hei hg hic, hr.scalingFactor, h.solution_dens ei ic hei hg hic]

/-- The body of the element loop gives the same value on the two inputs. -/
theorem OwnedAgree.checkElement_eq {r r' : Rank} {sr sr' : SubRegion} (hr : RanksAgree r r')
    (h : OwnedAgree r r' sr sr') (ei : Nat) (hei : ei < sr.size) (check : Int) :
    checkElement r' sr' ei check = checkElement r sr ei check := by
  unfold checkElement
  rw [h.elemGhostRank ei hei]
  by_cases hg : sr.elemGhostRank ei < 0
  · rw [if_pos hg, if_pos hg]
    dsimp only
    rw [h.newPres_eq hr ei hei hg, hr.allowCompDensChopping, hr.NC]
    by_cases hc : r.allowCompDensChopping = 0
    · rw [if_pos hc, if_pos hc]
      apply forLoop_congr
      intro ic t hic
      rw [h.newDens_eq hr ei hei hg ic hic]
    · rw [if_neg hc, if_neg hc]
      have ht : totalDens r' sr' ei = totalDens r sr ei := by
        unfold totalDens
        rw [hr.NC]
        apply forLoop_congr
        intro ic t hic
        rw [h.newDens_eq hr ei hei hg ic hic]
      rw [ht, hr.eps]
  · rw [if_neg hg, if_neg hg]

/-- The reduction over a sub-region gives the same value on the two inputs. -/
theorem OwnedAgree.checkSubRegion_eq {r r' : Rank} {sr sr' : SubRegion} (hr : RanksAgree r r')
    (h : OwnedAgree r r' sr sr') : checkSubRegion r' sr' = checkSubRegion r sr := by
  unfold checkSubRegion
  rw [h.size]
  exact forLoop_congr _ _ _ _ (fun ei t hei => h.checkElement_eq hr ei hei t)

/-- The fold over corresponding lists of sub-regions gives the same value. -/
theorem localCheck_fold_agree {r r' : Rank} (hr : RanksAgree r r') (l l' : List SubRegion)
    (h : List.Forall₂ (OwnedAgree r r') l l') (init : Int) :
    l'.foldl (fun localCheck sr => min localCheck (checkSubRegion r' sr)) init
      = l.foldl (fun localCheck sr => min localCheck (checkSubRegion r sr)) init := by
  induction h generalizing init with
  | nil => rfl
  | cons hsr _ ih =>
    simp only [List.foldl_cons]
    rw [hsr.checkSubRegion_eq hr]
    exact ih _

/-- C24. Ghost cells are ignored by the validity check: two inputs to `CheckSystemSolution`
that differ only in the pressure, density, increment or solution values that belong to
elements with `elemGhostRank >= 0` give the same `localCheck` on the rank and the same returned
status, whatever the other ranks contribute; and a rank on which every element is a ghost
accepts whatever the values of these elements are, so a ghost cell with negative updated
pressure or density does not reject the step on the rank that mirrors it. -/
theorem CheckSystemSolution_ghost (r r' : Rank) (others : List Rank) (h : RanksAgree r r') :
    localCheck r' = localCheck r ∧
    CheckSystemSolution r' others = CheckSystemSolution r others ∧
    ((∀ sr, sr ∈ r.subRegions → ∀ ei, ei < sr.size → 0 ≤ sr.elemGhostRank ei) →
      localCheck r = 1) := by
  have hl : localCheck r' = localCheck r := by
    unfold localCheck
    exact localCheck_fold_agree h r.subRegions r'.subRegions h.subRegions 1
  refine ⟨hl, ?_, fun hg => ?_⟩
  · unfold CheckSystemSolution
    rw [hl]
  · rw [(localCheck_spec r).2]
    intro sr hsr ei hei hneg
    exact absurd hneg (not_lt.mpr (hg sr hsr ei hei))

/-- C24 on a rank that mirrors one ghost element: with pressure `-5` and densities `-7` in the
ghost the rank accepts, and changing the values of the ghost and the solution vector changes
neither `localCheck` nor the returned status. -/
theorem CheckSystemSolution_ghost_witness :
    RanksAgree ghostRank ghostRankChanged ∧
    newPres ghostRank ghostElement 0 < 0 ∧
    localCheck ghostRank = 1 ∧
    localCheck ghostRankChanged = localCheck ghostRank ∧
    CheckSystemSolution ghostRankChanged [] = CheckSystemSolution ghostRank [] := by
  have hno : ∀ ei, ¬ ghostElement.elemGhostRank ei < 0 := by
    intro ei hneg
    have h3 : (3 : Int) < 0 := hneg
    exact absurd h3 (by decide)
  have hsr : OwnedAgree ghostRank ghostRankChanged ghostElement ghostElementChanged :=
    { size := rfl
      dofNumber := fun _ _ => rfl
      elemGhostRank := fun _ _ => rfl
      pres := fun ei _ hneg => absurd hneg (hno ei)
      dPres := fun ei _ hneg => absurd hneg (hno ei)
      compDens := fun ei _ _ hneg _ => absurd hneg (hno ei)
      dCompDens := fun ei _ _ hneg _ => absurd hneg (hno ei)
      solution_pres := fun ei _ hneg => absurd hneg (hno ei)
      solution_dens := fun ei _ _ hneg _ => absurd hneg (hno ei) }
  have h : RanksAgree ghostRank ghostRankChanged :=
    ⟨rfl, rfl, rfl, rfl, rfl, List.Forall₂.cons hsr List.Forall₂.nil⟩
  have hg : ∀ sr, sr ∈ ghostRank.subRegions → ∀ ei, ei < sr.size → 0 ≤ sr.elemGhostRank ei := by
    intro sr hsr' ei _
    have e : sr = ghostElement := by simpa [ghostRank] using hsr'
    subst e
    exact not_lt.mp (hno ei)
  refine ⟨h, by simp [newPres, ghostRank, ghostElement, choppingRank],
    (CheckSystemSolution_ghost ghostRank ghostRankChanged [] h).2.2 hg,
    (CheckSystemSolution_ghost ghostRank ghostRankChanged [] h).1,
    (CheckSystemSolution_ghost ghostRank ghostRankChanged [] h).2.1⟩

/-! ### The two chopping policies on a state with small densities -/

/-- C26. Enabling chopping does not only relax the validity check: for every state in which
each locally owned cell has updated pressure `>= 0` and every updated component density `>= 0`,
but some owned cell has a sum of the updated component densities strictly below `eps`,
`CheckSystemSolution` accepts on the rank with `allowCompDensChopping = 0` and rejects, whatever
the other ranks contribute, with `allowCompDensChopping` set. -/
theorem CheckSystemSolution_chopping_rejects (r : Rank) (flag : Int) (hflag : flag ≠ 0)
    (hvalid : ∀ sr, sr ∈ r.subRegions → ∀ ei, ei < sr.size → sr.elemGhostRank ei < 0 →
      0 ≤ newPres r sr ei ∧ ∀ ic, ic < r.NC → 0 ≤ newDens r sr ei ic)
    (hlow : ∃ sr, sr ∈ r.subRegions ∧ ∃ ei, ei < sr.size ∧ sr.elemGhostRank ei < 0 ∧
      ∑ ic in Finset.range r.NC, newDens r sr ei ic < r.eps) :
    localCheck { r with allowCompDensChopping := 0 } = 1 ∧
    CheckSystemSolution { r with allowCompDensChopping := 0 } [] = true ∧
    localCheck { r with allowCompDensChopping := flag } = 0 ∧
    ∀ others, CheckSystemSolution { r with allowCompDensChopping := flag } others = false := by
  have h0 : localCheck { r with allowCompDensChopping := 0 } = 1 := by
    rw [(localCheck_spec _).2]
    intro sr hsr ei hei hg
    have hv := hvalid sr hsr ei hei hg
    refine ⟨hv.1, ?_⟩
    rw [if_pos rfl]
    exact hv.2
  have h1 : localCheck { r with allowCompDensChopping := flag } ≠ 1 := by
    intro hone
    obtain ⟨sr, hsr, ei, hei, hg, hsum⟩ := hlow
    have hv := ((localCheck_spec _).2.mp hone sr hsr ei hei hg).2
    rw [if_neg hflag, totalDens_eq] at hv
    have hmax : ∑ ic in Finset.range r.NC,
        max (newDens { r with allowCompDensChopping := flag } sr ei ic) 0
        = ∑ ic in Finset.range r.NC, newDens r sr ei ic := by
      refine Finset.sum_congr rfl (fun ic hic => ?_)
      exact max_eq_left ((hvalid sr hsr ei hei hg).2 ic (Finset.mem_range.mp hic))
    have hv' : r.eps ≤ ∑ ic in Finset.range r.NC,
        max (newDens { r with allowCompDensChopping := flag } sr ei ic) 0 := hv
    rw [hmax] at hv'
    exact absurd hsum (not_lt.mpr hv')
  refine ⟨h0, ?_, ?_, fun others => ?_⟩
  · rw [CheckSystemSolution_eq_true]
    intro c hc
    rw [List.mem_singleton] at hc
    rw [hc]
    exact h0
  · rcases (localCheck_spec { r with allowCompDensChopping := flag }).1 with h | h
    · exact h
    · exact absurd h h1
  · rw [← Bool.not_eq_true, CheckSystemSolution_eq_true]
    intro hall
    exact h1 (hall _ (List.mem_cons_self _ _))

/-- C26 on the rank whose only element has pressure and densities exactly `0`, with
`eps = 3`: without chopping the rank accepts, with chopping it rejects. -/
theorem CheckSystemSolution_chopping_rejects_witness :
    (∑ ic in Finset.range zeroRank.NC, newDens zeroRank zeroElement 0 ic) < zeroRank.eps ∧
    CheckSystemSolution { zeroRank with allowCompDensChopping := 0 } [] = true ∧
    CheckSystemSolution { zeroRank with allowCompDensChopping := 1 } [] = false := by
  have hsum : (∑ ic in Finset.range zeroRank.NC, newDens zeroRank zeroElement 0 ic)
      < zeroRank.eps := by
    simp [zeroRank, choppingRank, zeroElement, newDens]
  have hvalid : ∀ sr, sr ∈ zeroRank.subRegions → ∀ ei, ei < sr.size →
      sr.elemGhostRank ei < 0 →
      0 ≤ newPres zeroRank sr ei ∧ ∀ ic, ic < zeroRank.NC → 0 ≤ newDens zeroRank sr ei ic := by
    intro sr hsr ei _ _
    have e : sr = zeroElement := by simpa [zeroRank, choppingRank] using hsr
    subst e
    refine ⟨by simp [zeroRank, choppingRank, zeroElement, newPres], fun ic _ => ?_⟩
    simp [zeroRank, choppingRank, zeroElement, newDens]
  have h := CheckSystemSolution_chopping_rejects zeroRank 1 (by decide) hvalid
    ⟨zeroElement, by simp [zeroRank, choppingRank], 0, by decide, by decide, hsum⟩
  exact ⟨hsum, h.2.1, h.2.2.2 []⟩

end CompositionalMultiphaseFVM


/-! ## Constructor of BrineCO2DensityFunction -/

namespace PVTProps

theorem nameMatches_iff (componentNames : List String) (upper lower : String) (i : Nat) :
    nameMatches componentNames upper lower i = true ↔
      componentNames.getD i "" = upper ∨ componentNames.getD i "" = lower := by
  simp [nameMatches, streq]

/-- The state of a search loop after `n` rounds. -/
theorem search_rounds (componentNames : List String) (upper lower : String) (n : Nat) :
    let s := forLoop n (fun i (s : Search) =>
      if s.notFound then
        if nameMatches componentNames upper lower i then
          { index := some i, notFound := false }
        else s
      else s) { index := none, notFound := true }
    (s.notFound = true ∧ ∀ k, k < n → nameMatches componentNames upper lower k = false) ∨
    (s.notFound = false ∧ ∃ i, s.index = some i ∧ i < n ∧
      nameMatches componentNames upper lower i = true ∧
      ∀ k, k < i → nameMatches componentNames upper lower k = false) := by
  induction n with
  | zero =>
    left
    exact ⟨rfl, fun k hk => absurd hk (Nat.not_lt_zero k)⟩
  | succ n ih =>
    simp only [forLoop_succ]
    rcases ih with ⟨hnf, hall⟩ | ⟨hnf, i, hi, hin, hm, hall⟩
    · rw [if_pos hnf]
      by_cases hm : nameMatches componentNames upper lower n = true
      · right
        rw [if_pos hm]
        exact ⟨rfl, n, rfl, Nat.lt_succ_self n, hm, hall⟩
      · left
        rw [if_neg hm]
        refine ⟨hnf, fun k hk => ?_⟩
        rcases Nat.lt_succ_iff_lt_or_eq.mp hk with h | h
        · exact hall k h
        · rw [h]
          simpa using hm
    · right
      rw [if_neg (by rw [hnf]; exact Bool.false_ne_true)]
      exact ⟨hnf, i, hi, Nat.lt_succ_of_lt hin, hm, hall⟩

/-- A search loop ends with `notFound` set iff no name of the list matches, and otherwise with
the smallest matching index. -/
theorem searchComponent_spec (componentNames : List String) (upper lower : String) :
    ((searchComponent componentNames upper lower).notFound = true ∧
      ∀ name, name ∈ componentNames → name ≠ upper ∧ name ≠ lower) ∨
    ((searchComponent componentNames upper lower).notFound = false ∧
      ∃ i, (searchComponent componentNames upper lower).index = some i ∧
        FirstMatch componentNames upper lower i) := by
  have hno : ∀ k, nameMatches componentNames upper lower k = false →
      componentNames.getD k "" ≠ upper ∧ componentNames.getD k "" ≠ lower := by
    intro k hk
    have h := (nameMatches_iff componentNames upper lower k).not.mp (by simp [hk])
    exact not_or.mp h
  rcases search_rounds componentNames upper lower componentNames.length with
    ⟨hnf, hall⟩ | ⟨hnf, i, hi, hin, hm, hall⟩
  · left
    refine ⟨hnf, fun name hname => ?_⟩
    obtain ⟨k, hk, rfl⟩ := List.mem_iff_getElem.mp hname
    have h := hno k (hall k hk)
    rwa [List.getD_eq_getElem componentNames "" hk] at h
  · right
    exact ⟨hnf, i, hi, hin, (nameMatches_iff componentNames upper lower i).mp hm,
      fun k hk => hno k (hall k hk)⟩

/-- A first match is a name of the list. -/
theorem FirstMatch.mem {componentNames : List String} {upper lower : String} {i : Nat}
    (h : FirstMatch componentNames upper lower i) :
    ∃ name, name ∈ componentNames ∧ (name = upper ∨ name = lower) := by
  obtain ⟨hi, hm, _⟩ := h
  refine ⟨componentNames.getD i "", ?_, hm⟩
  rw [List.getD_eq_getElem componentNames "" hi]
  exact List.getElem_mem hi


/-- C16: the constructor of `BrineCO2DensityFunction` aborts with an error iff the list of
component names has no name equal to `CO2` or `co2`, or no name equal to `Water` or `water`
(with the message about CO2 when CO2 is missing); when it succeeds, `m_CO2Index` and
`m_waterIndex` are the smallest indices whose names match and the table is the one that
`MakeTable` builds, so a table exists only when both components were found. -/
theorem BrineCO2DensityFunction_construct_spec {Table : Type} (MakeTable : List String → Table)
    (inputPara componentNames : List String) :
    ((∃ message, BrineCO2DensityFunction.construct MakeTable inputPara componentNames
        = Except.error message) ↔
      (∀ name, name ∈ componentNames → name ≠ "CO2" ∧ name ≠ "co2") ∨
      (∀ name, name ∈ componentNames → name ≠ "Water" ∧ name ≠ "water")) ∧
    ((∀ name, name ∈ componentNames → name ≠ "CO2" ∧ name ≠ "co2") →
      BrineCO2DensityFunction.construct MakeTable inputPara componentNames
        = Except.error "Component CO2 is not found!") ∧
    (∀ obj, BrineCO2DensityFunction.construct MakeTable inputPara componentNames
        = Except.ok obj →
      (∃ i, obj.m_CO2Index = some i ∧ FirstMatch componentNames "CO2" "co2" i) ∧
      (∃ j, obj.m_waterIndex = some j ∧ FirstMatch componentNames "Water" "water" j) ∧
      obj.m_BrineDensityTable = MakeTable inputPara) := by
  unfold BrineCO2DensityFunction.construct
  dsimp only
  rcases searchComponent_spec componentNames "CO2" "co2" with ⟨hc, hcall⟩ | ⟨hc, i, hci, hcm⟩
  · rw [if_pos hc]
    refine ⟨⟨fun _ => Or.inl hcall, fun _ => ⟨_, rfl⟩⟩, fun _ => rfl, fun obj h => ?_⟩
    cases h
  · have hcne : ¬ ∀ name, name ∈ componentNames → name ≠ "CO2" ∧ name ≠ "co2" := by
      intro hall
      obtain ⟨name, hmem, hname⟩ := hcm.mem
      rcases hname with h | h
      · exact (hall name hmem).1 h
      · exact (hall name hmem).2 h
    rw [if_neg (by rw [hc]; exact Bool.false_ne_true)]
    rcases searchComponent_spec componentNames "Water" "water" with
      ⟨hw, hwall⟩ | ⟨hw, j, hwj, hwm⟩
    · rw [if_pos hw]
      refine ⟨⟨fun _ => Or.inr hwall, fun _ => ⟨_, rfl⟩⟩, fun hall => absurd hall hcne,
        fun obj h => ?_⟩
      cases h
    · have hwne : ¬ ∀ name, name ∈ componentNames → name ≠ "Water" ∧ name ≠ "water" := by
        intro hall
        obtain ⟨name, hmem, hname⟩ := hwm.mem
        rcases hname with h | h
        · exact (hall name hmem).1 h
        · exact (hall name hmem).2 h
      rw [if_neg (by rw [hw]; exact Bool.false_ne_true)]
      refine ⟨⟨fun h => ?_, fun h => ?_⟩, fun hall => absurd hall hcne, fun obj h => ?_⟩
      · obtain ⟨message, hm⟩ := h
        cases hm
      · rcases h with h | h
        · exact absurd h hcne
        · exact absurd h hwne
      · cases h
        exact ⟨⟨i, hci, hcm⟩, ⟨j, hwj, hwm⟩, rfl⟩

/-- C16 on two lists of names: on `water, co2, CO2` the constructor succeeds with
`m_CO2Index = 1`, the first of the two matching names, `m_waterIndex = 0` and the table of
`MakeTable`; on `water, brine` it aborts with the message about CO2. -/
theorem BrineCO2DensityFunction_construct_spec_witness :
    BrineCO2DensityFunction.construct countParameters ["density", "brine"]
        ["water", "co2", "CO2"]
      = Except.ok { m_CO2Index := some 1, m_waterIndex := some 0, m_BrineDensityTable := 2 } ∧
    (2 : Nat) = countParameters ["density", "brine"] ∧
    BrineCO2DensityFunction.construct countParameters ["density", "brine"] ["water", "brine"]
      = Except.error "Component CO2 is not found!" := by
  have hok : BrineCO2DensityFunction.construct countParameters ["density", "brine"]
        ["water", "co2", "CO2"]
      = Except.ok { m_CO2Index := some 1, m_waterIndex := some 0, m_BrineDensityTable := 2 } := by
    simp [BrineCO2DensityFunction.construct, searchComponent, forLoop, nameMatches, streq,
      countParameters]
  refine ⟨hok, ?_, ?_⟩
  · exact ((BrineCO2DensityFunction_construct_spec countParameters ["density", "brine"]
      ["water", "co2", "CO2"]).2.2 _ hok).2.2
  · apply (BrineCO2DensityFunction_construct_spec countParameters ["density", "brine"]
      ["water", "brine"]).2.1
    intro name hname
    simp only [List.mem_cons, List.mem_singleton, List.not_mem_nil, or_false] at hname
    rcases hname with h | h <;> subst h <;> decide

/-! ### The table grid of MakeTable -/

/-- A loop keeps a property that each of its rounds keeps. -/
theorem forLoop_invariant {σ : Type} (inv : σ → Prop) (n : Nat) (body : Nat → σ → σ) (s : σ)
    (hs : inv s) (h : ∀ k t, k < n → inv t → inv (body k t)) : inv (forLoop n body s) := by
  induction n with
  | zero => exact hs
  | succ n ih =>
    rw [forLoop_succ]
    exact h n _ (Nat.lt_succ_self n) (ih (fun k t hk => h k t (Nat.lt_succ_of_lt hk)))

/-- A run of the axis loop that meets `m` values not above the end value and then one above
it, with more than `m` tests allowed, returns and appends these `m` values. -/
theorem axisLoop_run (PEnd dP : real64) (m : Nat) :
    ∀ (fuel : Nat) (P : real64) (pressures : List real64),
      (∀ k, k < m → P + k * dP ≤ PEnd) → PEnd < P + m * dP → m + 1 ≤ fuel →
      axisLoop PEnd dP fuel P pressures
        = some (pressures ++ (List.range m).map (fun (k : Nat) => P + (k : real64) * dP)) := by
  induction m with
  | zero =>
    intro fuel P pressures _ hend hfuel
    obtain ⟨f, rfl⟩ : ∃ f, fuel = f + 1 := ⟨fuel - 1, by omega⟩
    have hP : ¬ P ≤ PEnd := by
      simp only [Nat.cast_zero, zero_mul, add_zero] at hend
      exact not_le.mpr hend
    simp only [axisLoop, if_neg hP, List.range_zero, List.map_nil, List.append_nil]
  | succ m ih =>
    intro fuel P pressures hle hend hfuel
    obtain ⟨f, rfl⟩ : ∃ f, fuel = f + 1 := ⟨fuel - 1, by omega⟩
    have hP : P ≤ PEnd := by
      have h0 := hle 0 (Nat.succ_pos m)
      simpa using h0
    have hrec := ih f (P + dP) (pressures ++ [P])
      (fun k hk => by
        have h1 := hle (k + 1) (Nat.succ_lt_succ hk)
        push_cast at h1
        linarith)
      (by push_cast at hend; linarith)
      (by omega)
    simp only [axisLoop, if_pos hP]
    rw [hrec, List.range_succ_eq_map, List.map_cons, List.map_map, List.append_assoc]
    congr 2
    simp
    intro k _
    ring

/-- For `start <= stop` and a positive step the axis loop returns the grid with
`floor((stop - start) / step) + 1` values as soon as two more tests than that number of steps
are allowed. -/
theorem axisLoop_grid (start stop step : real64) (fuel : Nat) (h : start ≤ stop)
    (hstep : 0 < step) (hfuel : ⌊(stop - start) / step⌋₊ + 2 ≤ fuel) :
    axisLoop stop step fuel start [] = some (grid start step ⌊(stop - start) / step⌋₊) := by
  have hx : 0 ≤ (stop - start) / step := div_nonneg (sub_nonneg.mpr h) hstep.le
  have hrun := axisLoop_run stop step (⌊(stop - start) / step⌋₊ + 1) fuel start []
    (fun k hk => by
      have h1 : (k : real64) ≤ (⌊(stop - start) / step⌋₊ : real64) := by
        exact_mod_cast Nat.lt_succ_iff.mp hk
      have h2 := le_trans h1 (Nat.floor_le hx)
      have h3 := (le_div_iff₀ hstep).mp h2
      linarith)
    (by
      have h1 := Nat.lt_floor_add_one ((stop - start) / step)
      have h2 := (div_lt_iff₀ hstep).mp h1
      push_cast
      linarith)
    (by omega)
  rw [hrun, List.nil_append]
  rfl

/-- With the start value above the end value the axis loop returns at its first test, with no
value. -/
theorem axisLoop_empty (start stop step : real64) (fuel : Nat) (h : stop < start) :
    axisLoop stop step (fuel + 1) start [] = some [] := by
  simp only [axisLoop, if_neg (not_le.mpr h)]

/-- With `start <= stop` and a step that is not positive the axis loop does not end: it reaches
every bound on the number of its tests. -/
theorem axisLoop_diverges (stop step : real64) (hstep : step ≤ 0) :
    ∀ (fuel : Nat) (P : real64) (pressures : List real64), P ≤ stop →
      axisLoop stop step fuel P pressures = none := by
  intro fuel
  induction fuel with
  | zero => intro P pressures _; rfl
  | succ f ih =>
    intro P pressures hP
    simp only [axisLoop, if_pos hP]
    exact ih (P + step) (pressures ++ [P]) (by linarith)

/-- The grid is strictly increasing for a positive step. -/
theorem grid_pairwise (start step : real64) (n : Nat) (hstep : 0 < step) :
    (grid start step n).Pairwise (fun a b => a < b) := by
  unfold grid
  rw [List.pairwise_map]
  refine (List.pairwise_lt_range (n + 1)).imp ?_
  intro a b hab
  have h1 : (a : real64) < b := by exact_mod_cast hab
  nlinarith

/-- The grid starts at `start`. -/
theorem grid_head (start step : real64) (n : Nat) : (grid start step n).head? = some start := by
  unfold grid
  rw [List.range_succ_eq_map]
  simp

/-- The values of the grid with `floor((stop - start) / step) + 1` values are not above
`stop`. -/
theorem grid_le (start stop step : real64) (h : start ≤ stop) (hstep : 0 < step) (P : real64)
    (hP : P ∈ grid start step ⌊(stop - start) / step⌋₊) : P ≤ stop := by
  have hx : 0 ≤ (stop - start) / step := div_nonneg (sub_nonneg.mpr h) hstep.le
  unfold grid at hP
  rw [List.mem_map] at hP
  obtain ⟨k, hk, rfl⟩ := hP
  have h1 : (k : real64) ≤ (⌊(stop - start) / step⌋₊ : real64) := by
    exact_mod_cast Nat.lt_succ_iff.mp (List.mem_range.mp hk)
  have h2 := le_trans h1 (Nat.floor_le hx)
  have h3 := (le_div_iff₀ hstep).mp h2
  linarith

/-- The length of a resized vector is the requested one. -/
theorem resize_length (v : List real64) (n : Nat) : (resize v n).length = n := by
  simp only [resize, List.length_append, List.length_take, List.length_replicate]
  omega

/-- Writing an entry of a row keeps the shape of a table. -/
theorem HasShape.set_entry {rows cols : Nat} {density : List (List real64)}
    (h : HasShape rows cols density) (i j : Nat) (v : real64) :
    HasShape rows cols (density.set i ((density.getD i []).set j v)) := by
  refine ⟨by rw [List.length_set]; exact h.1, fun row hrow => ?_⟩
  by_cases hi : i < density.length
  · rcases List.mem_or_eq_of_mem_set hrow with hmem | heq
    · exact h.2 row hmem
    · rw [heq, List.length_set, List.getD_eq_getElem density [] hi]
      exact h.2 _ (List.getElem_mem hi)
  · rw [List.set_eq_of_length_le (not_lt.mp hi)] at hrow
    exact h.2 row hrow

/-- `CalculateBrineDensity` keeps the shape of the table that it fills. -/
theorem CalculateBrineDensity_shape (exp : real64 → real64) (pressure temperature : List real64)
    (salinity : real64) (density : List (List real64)) (rows cols : Nat)
    (h : HasShape rows cols density) :
    HasShape rows cols (CalculateBrineDensity exp pressure temperature salinity density) := by
  unfold CalculateBrineDensity
  dsimp only
  refine forLoop_invariant (HasShape rows cols) _ _ _ h (fun i d _ hd => ?_)
  exact forLoop_invariant (HasShape rows cols) _ _ _ hd (fun j d' _ hd' => hd'.set_entry i j _)

/-- The table after the loop that resizes its rows. -/
theorem resizeLoop_shape (nP nT : Nat) :
    HasShape nP nT (forLoop nP
      (fun i (densities : List (List real64)) =>
        densities.set i (resize (densities.getD i []) nT))
      (List.replicate nP [])) := by
  have hinv : ∀ k, (forLoop k
      (fun i (densities : List (List real64)) =>
        densities.set i (resize (densities.getD i []) nT))
      (List.replicate nP [])).length = nP ∧
      ∀ i, i < k → ∀ row, (forLoop k
        (fun i (densities : List (List real64)) =>
          densities.set i (resize (densities.getD i []) nT))
        (List.replicate nP []))[i]? = some row → row.length = nT := by
    intro k
    induction k with
    | zero =>
      exact ⟨List.length_replicate _ _, fun i hi => absurd hi (Nat.not_lt_zero i)⟩
    | succ k ih =>
      rw [forLoop_succ]
      refine ⟨by rw [List.length_set]; exact ih.1, fun i hi row hrow => ?_⟩
      rw [List.getElem?_set] at hrow
      by_cases hki : k = i
      · rw [if_pos hki] at hrow
        split at hrow
        · rw [← Option.some.inj hrow]
          exact resize_length _ _
        · cases hrow
      · rw [if_neg hki] at hrow
        exact ih.2 i (by omega) row hrow
  obtain ⟨hlen, hrows⟩ := hinv nP
  refine ⟨hlen, fun row hrow => ?_⟩
  obtain ⟨i, hi⟩ := List.mem_iff_getElem?.mp hrow
  have hlt : i < nP := by
    by_contra hge
    rw [List.getElem?_eq_none (by rw [hlen]; exact not_lt.mp hge)] at hi
    cases hi
  exact hrows i hlt row hi

/-- C30. Table grid of `BrineCO2DensityFunction::MakeTable`: for every `start <= stop` and
`step > 0` an axis loop (the one of the pressures, and likewise the one of the temperatures)
terminates and produces exactly the values `start + k * step` for
`k = 0 .. floor((stop - start) / step)`, strictly increasing, starting at `start` and all
`<= stop`; with `start > stop` the axis is empty; and when both loops terminate `MakeTable`
returns a table with these two axes whose densities have one row per pressure and one column
per temperature. -/
theorem MakeTable_grid (stod : String → real64) (exp : real64 → real64) (fuel : Nat)
    (inputPara : List String) (start stop step : real64) :
    (start ≤ stop → 0 < step → ⌊(stop - start) / step⌋₊ + 2 ≤ fuel →
      axisLoop stop step fuel start [] = some (grid start step ⌊(stop - start) / step⌋₊) ∧
      (grid start step ⌊(stop - start) / step⌋₊).Pairwise (fun a b => a < b) ∧
      (grid start step ⌊(stop - start) / step⌋₊).head? = some start ∧
      ∀ P, P ∈ grid start step ⌊(stop - start) / step⌋₊ → P ≤ stop) ∧
    (stop < start → 1 ≤ fuel → axisLoop stop step fuel start [] = some []) ∧
    (∀ pressures temperatures,
      axisLoop (stod (inputPara.getD 3 "")) (stod (inputPara.getD 4 "")) fuel
        (stod (inputPara.getD 2 "")) [] = some pressures →
      axisLoop (stod (inputPara.getD 6 "")) (stod (inputPara.getD 7 "")) fuel
        (stod (inputPara.getD 5 "")) [] = some temperatures →
      ∃ t, MakeTable stod exp fuel inputPara = some t ∧ t.x = pressures ∧
        t.y = temperatures ∧ HasShape pressures.length temperatures.length t.value) := by
  refine ⟨fun h hstep hfuel => ?_, fun h hfuel => ?_, fun pressures temperatures hP hT => ?_⟩
  · exact ⟨axisLoop_grid start stop step fuel h hstep hfuel, grid_pairwise start step _ hstep,
      grid_head start step _, grid_le start stop step h hstep⟩
  · obtain ⟨f, rfl⟩ : ∃ f, fuel = f + 1 := ⟨fuel - 1, by omega⟩
    exact axisLoop_empty start stop step f h
  · have h : MakeTable stod exp fuel inputPara
        = some
          { name := "BrineDensityTable"
            x := pressures
            y := temperatures
            value := CalculateBrineDensity exp pressures temperatures
              (stod (inputPara.getD 8 ""))
              (forLoop pressures.length
                (fun i (densities : List (List real64)) =>
                  densities.set i (resize (densities.getD i []) temperatures.length))
                (List.replicate pressures.length [])) } := by
      simp only [MakeTable, hP, hT]
    exact ⟨_, h, rfl, rfl,
      CalculateBrineDensity_shape _ _ _ _ _ _ _ (resizeLoop_shape _ _)⟩

/-- C30 on the example parameters: the pressure axis from `1` to `7/2` in steps of `1` is
`1, 2, 3`, the temperature axis from `10` to `12` in steps of `2` is `10, 12`, an axis from `1`
to `0` is empty, and the table has three rows of two entries. -/
theorem MakeTable_grid_witness :
    (1 : real64) ≤ 7 / 2 ∧ (0 : real64) < 1 ∧ ⌊((7 / 2 : real64) - 1) / 1⌋₊ + 2 ≤ 5 ∧
    axisLoop (7 / 2) 1 5 1 [] = some [1, 2, 3] ∧
    axisLoop 0 1 5 1 [] = some [] ∧
    Option.map XYTable.x (MakeTable exampleStod id 5 exampleInputPara) = some [1, 2, 3] ∧
    Option.map XYTable.y (MakeTable exampleStod id 5 exampleInputPara) = some [10, 12] ∧
    Option.map (List.map List.length ∘ XYTable.value)
      (MakeTable exampleStod id 5 exampleInputPara) = some [2, 2, 2] := by
  have hfP : ⌊((7 / 2 : real64) - 1) / 1⌋₊ = 2 := by norm_num [Nat.floor_eq_iff]
  have hfT : ⌊((12 : real64) - 10) / 2⌋₊ = 1 := by norm_num [Nat.floor_eq_iff]
  have hP : axisLoop (7 / 2) 1 5 1 [] = some [1, 2, 3] := by
    rw [((MakeTable_grid exampleStod id 5 exampleInputPara 1 (7 / 2) 1).1 (by norm_num)
      (by norm_num) (by rw [hfP]; decide)).1, hfP]
    simp [grid, List.range_succ]
    norm_num
  have hT : axisLoop 12 2 5 10 [] = some [10, 12] := by
    rw [((MakeTable_grid exampleStod id 5 exampleInputPara 10 12 2).1 (by norm_num)
      (by norm_num) (by rw [hfT]; decide)).1, hfT]
    simp [grid, List.range_succ]
    norm_num
  have hE : axisLoop 0 1 5 1 [] = some [] :=
    (MakeTable_grid exampleStod id 5 exampleInputPara 1 0 1).2.1 (by norm_num) (by decide)
  obtain ⟨t, ht, hx, hy, hshape⟩ :=
    (MakeTable_grid exampleStod id 5 exampleInputPara 0 0 0).2.2 [1, 2, 3] [10, 12]
      (by simpa [exampleInputPara, exampleStod] using hP)
      (by simpa [exampleInputPara, exampleStod] using hT)
  refine ⟨by norm_num, by norm_num, by rw [hfP]; decide, hP, hE, ?_, ?_, ?_⟩
  · rw [ht, Option.map_some', hx]
  · rw [ht, Option.map_some', hy]
  · rw [ht, Option.map_some', Function.comp]
    have h3 : (t.value.map List.length) = List.replicate 3 2 := by
      rw [List.eq_replicate_iff]
      refine ⟨by rw [List.length_map]; exact hshape.1, fun b hb => ?_⟩
      obtain ⟨row, hrow, rfl⟩ := List.mem_map.mp hb
      exact hshape.2 row hrow
    rw [h3]
    rfl

end PVTProps


/-! ## Missing groups and wrappers in pygeosx -/

namespace python

/-- The sibling `PyGroup_getGroup` handles a missing group as documented: a `ValueError` without
a default, the default otherwise. -/
theorem PyGroup_getGroup_missing {Group Wrapper PyObject : Type}
    (self : Repository Group Wrapper) (path : String)
    (h : self.GetGroupByPath path = none) (value : PyObject) :
    PyGroup_getGroup self path (none : Option PyObject)
      = .valueError ("No Group at " ++ self.getPath ++ "/" ++ path) ∧
    PyGroup_getGroup self path (some value) = .object value := by
  simp [PyGroup_getGroup, h]

/-- When the parent group exists and has no wrapper of the name, `PyGroup_getWrapper` raises a
`ValueError` without a default and returns the default otherwise. -/
theorem PyGroup_getWrapper_missing_wrapper {Group Wrapper PyObject : Type}
    (self : Repository Group Wrapper) (path : String) (group : Group)
    (hg : self.GetGroupByPath (self.splitPath path).1 = some group)
    (hw : self.getWrapperBase group (self.splitPath path).2 = none) (value : PyObject) :
    PyGroup_getWrapper self path (none : Option PyObject)
      = .valueError ("No Wrapper at " ++ self.getPath ++ "/" ++ (self.splitPath path).1) ∧
    PyGroup_getWrapper self path (some value) = .object value := by
  simp [PyGroup_getWrapper, hg, hw]

/-- C17 (the code departs from its documentation): at a path whose parent group does not exist,
so that no wrapper exists at the path, `PyGroup_getWrapper` calls `getWrapperBase` through the
null pointer `group`, with and without a default: it neither raises the `ValueError` nor
returns the default, while `PyGroup_getGroup` on the same missing group does. -/
theorem PyGroup_getWrapper_missing_group {Group Wrapper PyObject : Type}
    (self : Repository Group Wrapper) (path : String)
    (h : self.GetGroupByPath (self.splitPath path).1 = none)
    (defaultReturnValue : Option PyObject) (value : PyObject) :
    PyGroup_getWrapper self path defaultReturnValue = .nullDereference ∧
    (∀ message, PyGroup_getWrapper self path (none : Option PyObject) ≠ .valueError message) ∧
    PyGroup_getWrapper self path (some value) ≠ .object value ∧
    PyGroup_getGroup self (self.splitPath path).1 (none : Option PyObject)
      = .valueError ("No Group at " ++ self.getPath ++ "/" ++ (self.splitPath path).1) ∧
    PyGroup_getGroup self (self.splitPath path).1 (some value) = .object value := by
  have hnull : ∀ d : Option PyObject, PyGroup_getWrapper self path d = .nullDereference := by
    intro d
    unfold PyGroup_getWrapper
    simp only [h]
  refine ⟨hnull defaultReturnValue, fun message hm => ?_, fun hv => ?_,
    PyGroup_getGroup_missing self _ h value⟩
  · rw [hnull none] at hm
    cases hm
  · rw [hnull (some value)] at hv
    cases hv

/-- C17 on the example repository: the group `ghost` does not exist; `get_wrapper` of
`ghost/time` dereferences the null pointer with and without a default, while `get_group` of
`ghost` raises the `ValueError`, and `get_wrapper` of `domain/mass`, whose parent group
exists, raises the `ValueError` and returns a given default. -/
theorem PyGroup_getWrapper_missing_group_witness :
    exampleRepository.GetGroupByPath (exampleRepository.splitPath "ghost/time").1 = none ∧
    PyGroup_getWrapper exampleRepository "ghost/time" (none : Option Nat) = .nullDereference ∧
    PyGroup_getWrapper exampleRepository "ghost/time" (some 5) = .nullDereference ∧
    PyGroup_getGroup exampleRepository "ghost" (none : Option Nat)
      = .valueError "No Group at Problem/ghost" ∧
    PyGroup_getWrapper exampleRepository "domain/mass" (none : Option Nat)
      = .valueError "No Wrapper at Problem/domain" ∧
    PyGroup_getWrapper exampleRepository "domain/mass" (some 5) = .object 5 ∧
    PyGroup_getWrapper exampleRepository "domain/time" (some 5) = .newPyWrapper 7 := by
  have h : exampleRepository.GetGroupByPath (exampleRepository.splitPath "ghost/time").1
      = none := by
    simp [exampleRepository]
  refine ⟨h, (PyGroup_getWrapper_missing_group exampleRepository "ghost/time" h none 5).1,
    (PyGroup_getWrapper_missing_group exampleRepository "ghost/time" h (some 5) 5).1,
    ?_, ?_, ?_, ?_⟩
  · simp [PyGroup_getGroup, exampleRepository]
  · simp [PyGroup_getWrapper, exampleRepository]
  · simp [PyGroup_getWrapper, exampleRepository]
  · simp [PyGroup_getWrapper, exampleRepository]

end python

/-! ## Stress update of the explicit solid-mechanics kernel -/

namespace SolidMechanicsLagrangianSSLEKernels

/-- The three diagonal entries of `p_stress` after `n` rounds of the loop over the nodes. -/
theorem nodeLoop_diagonal (inp : Input) (n : Nat) :
    forLoop n (nodeBody inp) ⟨fun _ => 0⟩ 0
      = ∑ a in Finset.range n,
          (VELOCITY_ACCESSOR inp a 0 * inp.dNdX inp.k inp.q a 0 * Lame2Gdt inp
            + VELOCITY_ACCESSOR inp a 1 * inp.dNdX inp.k inp.q a 1 * Lamedt inp
            + VELOCITY_ACCESSOR inp a 2 * inp.dNdX inp.k inp.q a 2 * Lamedt inp) ∧
    forLoop n (nodeBody inp) ⟨fun _ => 0⟩ 1
      = ∑ a in Finset.range n,
          (VELOCITY_ACCESSOR inp a 0 * inp.dNdX inp.k inp.q a 0 * Lamedt inp
            + VELOCITY_ACCESSOR inp a 1 * inp.dNdX inp.k inp.q a 1 * Lame2Gdt inp
            + VELOCITY_ACCESSOR inp a 2 * inp.dNdX inp.k inp.q a 2 * Lamedt inp) ∧
    forLoop n (nodeBody inp) ⟨fun _ => 0⟩ 2
      = ∑ a in Finset.range n,
          (VELOCITY_ACCESSOR inp a 0 * inp.dNdX inp.k inp.q a 0 * Lamedt inp
            + VELOCITY_ACCESSOR inp a 1 * inp.dNdX inp.k inp.q a 1 * Lamedt inp
            + VELOCITY_ACCESSOR inp a 2 * inp.dNdX inp.k inp.q a 2 * Lame2Gdt inp) := by
  induction n with
  | zero => exact ⟨rfl, rfl, rfl⟩
  | succ n ih =>
    obtain ⟨h0, h1, h2⟩ := ih
    simp only [forLoop_succ, Finset.sum_range_succ]
    refine ⟨?_, ?_, ?_⟩
    · simp only [nodeBody, set1_apply]
      norm_num
      rw [h0]
    · simp only [nodeBody, set1_apply]
      norm_num
      rw [h1]
    · simp only [nodeBody, set1_apply]
      norm_num
      rw [h2]

/-- The value of `dMeanStress`: bulk modulus times `dt` times the discrete velocity
divergence. -/
theorem dMeanStress_eq (inp : Input) :
    dMeanStress inp = inp.m_bulkModulus inp.k * inp.dt * velocityDivergence inp := by
  unfold dMeanStress p_stress velocityDivergence
  obtain ⟨h0, h1, h2⟩ := nodeLoop_diagonal inp inp.NUM_NODES_PER_ELEM
  rw [h0, h1, h2, ← Finset.sum_add_distrib, ← Finset.sum_add_distrib, Finset.mul_sum,
    Finset.sum_div]
  refine Finset.sum_congr rfl (fun a _ => ?_)
  simp only [Finset.sum_range_succ, Finset.sum_range_zero, Lame2Gdt, Lamedt, Gdt]
  norm_num
  ring

/-- The entry of `meanStress` after the update. -/
theorem stressUpdate_meanStress_entry (inp : Input) (s : Stress) :
    (stressUpdate inp s).meanStress inp.k inp.q = s.meanStress inp.k inp.q + dMeanStress inp := by
  simp [stressUpdate, set2_apply]

/-- The diagonal entries of `devStress` after the update. -/
theorem stressUpdate_devStress_diagonal (inp : Input) (s : Stress) :
    (stressUpdate inp s).devStress inp.k inp.q 0
      = s.devStress inp.k inp.q 0 + (p_stress inp 0 - dMeanStress inp) ∧
    (stressUpdate inp s).devStress inp.k inp.q 2
      = s.devStress inp.k inp.q 2 + (p_stress inp 1 - dMeanStress inp) ∧
    (stressUpdate inp s).devStress inp.k inp.q 5
      = s.devStress inp.k inp.q 5 + (p_stress inp 2 - dMeanStress inp) := by
  refine ⟨?_, ?_, ?_⟩ <;> simp [stressUpdate, set3_apply, set1_apply]

/-- C28. Deviatoric stress stays trace-free: for every call of `stressUpdate` (any velocities,
shape-function derivatives, moduli and `dt`), the three increments added to the diagonal
deviatoric components `devStress[k][q][0]`, `devStress[k][q][2]` and `devStress[k][q][5]` sum
to exactly `0`, so a deviatoric stress whose diagonal sums to `0` before the update still sums
to `0` after it. -/
theorem stressUpdate_trace_free (inp : Input) (s : Stress) :
    ((stressUpdate inp s).devStress inp.k inp.q 0 - s.devStress inp.k inp.q 0)
      + ((stressUpdate inp s).devStress inp.k inp.q 2 - s.devStress inp.k inp.q 2)
      + ((stressUpdate inp s).devStress inp.k inp.q 5 - s.devStress inp.k inp.q 5) = 0 ∧
    (s.devStress inp.k inp.q 0 + s.devStress inp.k inp.q 2 + s.devStress inp.k inp.q 5 = 0 →
      (stressUpdate inp s).devStress inp.k inp.q 0 + (stressUpdate inp s).devStress inp.k inp.q 2
        + (stressUpdate inp s).devStress inp.k inp.q 5 = 0) := by
  obtain ⟨h0, h2, h5⟩ := stressUpdate_devStress_diagonal inp s
  have hd : dMeanStress inp = (p_stress inp 0 + p_stress inp 1 + p_stress inp 2) / 3 := by
    unfold dMeanStress
    norm_num
  constructor
  · rw [h0, h2, h5, hd]
    ring
  · intro hs
    rw [h0, h2, h5, hd]
    linear_combination hs

/-- C28 on the two-node element and a trace-free deviator with diagonal `(1, 2, -3)`: the
diagonal still sums to `0` after the update. -/
theorem stressUpdate_trace_free_witness :
    traceFreeStress.devStress twoNodeElement.k twoNodeElement.q 0
      + traceFreeStress.devStress twoNodeElement.k twoNodeElement.q 2
      + traceFreeStress.devStress twoNodeElement.k twoNodeElement.q 5 = 0 ∧
    (stressUpdate twoNodeElement traceFreeStress).devStress twoNodeElement.k twoNodeElement.q 0
      + (stressUpdate twoNodeElement traceFreeStress).devStress twoNodeElement.k
          twoNodeElement.q 2
      + (stressUpdate twoNodeElement traceFreeStress).devStress twoNodeElement.k
          twoNodeElement.q 5 = 0 := by
  have h : traceFreeStress.devStress twoNodeElement.k twoNodeElement.q 0
      + traceFreeStress.devStress twoNodeElement.k twoNodeElement.q 2
      + traceFreeStress.devStress twoNodeElement.k twoNodeElement.q 5 = 0 := by
    simp [traceFreeStress]
    norm_num
  exact ⟨h, (stressUpdate_trace_free twoNodeElement traceFreeStress).2 h⟩

/-- C29. Mean-stress increment of `stressUpdate`: for every input, the value added to
`meanStress[k][q]` equals `bulkModulus[k] * dt` times the sum over the nodes `a` of the element
and the directions `i` of `velocity[a][i] * dNdX[k][q][a][i]`, and the entry after the update
is the same for every shear modulus. -/
theorem stressUpdate_meanStress_increment (inp : Input) (s : Stress) :
    (stressUpdate inp s).meanStress inp.k inp.q - s.meanStress inp.k inp.q
      = inp.m_bulkModulus inp.k * inp.dt *
          ∑ a in Finset.range inp.NUM_NODES_PER_ELEM, ∑ i in Finset.range 3,
            inp.vel (inp.elemsToNodes inp.k a) i * inp.dNdX inp.k inp.q a i ∧
    ∀ shearModulus : Nat → real64,
      (stressUpdate { inp with m_shearModulus := shearModulus } s).meanStress inp.k inp.q
        = (stressUpdate inp s).meanStress inp.k inp.q := by
  constructor
  · rw [stressUpdate_meanStress_entry, dMeanStress_eq]
    unfold velocityDivergence VELOCITY_ACCESSOR
    ring
  · intro shearModulus
    rw [stressUpdate_meanStress_entry inp s,
      stressUpdate_meanStress_entry { inp with m_shearModulus := shearModulus } s,
      dMeanStress_eq, dMeanStress_eq]
    rfl

/-- On the two-node element the divergence is `1 + 2 + 3 - 2 + 0 + 2 = 6` and the mean stress
goes from `7` to `7 + 5 * (1/2) * 6 = 22`. -/
theorem stressUpdate_meanStress_example :
    (stressUpdate twoNodeElement traceFreeStress).meanStress 0 0 = 22 := by
  have h := stressUpdate_meanStress_entry twoNodeElement traceFreeStress
  rw [dMeanStress_eq] at h
  have hk : twoNodeElement.k = 0 := rfl
  have hq : twoNodeElement.q = 0 := rfl
  rw [hk, hq] at h
  rw [h]
  simp [velocityDivergence, VELOCITY_ACCESSOR, twoNodeElement, traceFreeStress,
    Finset.sum_range_succ]
  norm_num

end SolidMechanicsLagrangianSSLEKernels

/-! ## The coupled step and the log level -/

namespace FlowProppantTransportSolver

/-- Two log levels on the same side of `1` give the same loop. -/
theorem loop_logLevel {σ : Type} (solver : Solver σ) (a b : Int) (h : 1 ≤ a ↔ 1 ≤ b) :
    ∀ (fuel : Nat) (l : LoopState σ),
      loop { solver with logLevel := a } fuel l = loop { solver with logLevel := b } fuel l := by
  intro fuel
  induction fuel with
  | zero => intro l; rfl
  | succ f ih =>
    intro l
    have hc : ((solver.m_numNewtonIterations (solver.flowStep l.dtReturn
          (if l.iter = 0 then solver.ResetStateToBeginningOfStep l.state else l.state)).1
          ≤ solver.m_minIterNewton ∧ l.iter > 0 ∧ a ≥ 1)
        ↔ (solver.m_numNewtonIterations (solver.flowStep l.dtReturn
          (if l.iter = 0 then solver.ResetStateToBeginningOfStep l.state else l.state)).1
          ≤ solver.m_minIterNewton ∧ l.iter > 0 ∧ b ≥ 1)) := by
      constructor
      · exact fun ⟨h1, h2, h3⟩ => ⟨h1, h2, h.mp h3⟩
      · exact fun ⟨h1, h2, h3⟩ => ⟨h1, h2, h.mpr h3⟩
    simp only [loop, ih, hc]

/-- The step is the same for two log levels on the same side of `1`: both at least `1`, or
both below. -/
theorem SolverStep_logLevel_same_side {σ : Type} (solver : Solver σ) (a b : Int)
    (h : 1 ≤ a ↔ 1 ≤ b) (fuel : Nat) (dt : real64) (state : σ) :
    SolverStep { solver with logLevel := a } fuel dt state
      = SolverStep { solver with logLevel := b } fuel dt state := by
  unfold SolverStep
  rw [loop_logLevel solver a b h]

/-- C27 (the code departs from the property): two runs of `SolverStep` on the example
sub-solvers, with the time step `2`, that differ only in the log level. With log level `1` the
coupling is found converged at the second iteration, the loop is left after three calls of
`NonlinearImplicitStep` and the time step `2` is returned; with log level `0` the test for
convergence is never taken, the proppant solver is called again, cuts the time step to `1`,
and the loop ends after ten calls with the time step `1`. -/
theorem SolverStep_logLevel_divergence :
    Option.map Result.calls (SolverStep (exampleSolver 1) 20 2 0)
      = some [Call.flow 2, Call.proppant 2, Call.flow 2] ∧
    Option.map Result.dtReturn (SolverStep (exampleSolver 1) 20 2 0) = some 2 ∧
    Option.map Result.calls (SolverStep (exampleSolver 0) 20 2 0)
      = some [Call.flow 2, Call.proppant 2, Call.flow 2, Call.proppant 2,
          Call.flow 1, Call.proppant 1, Call.flow 1, Call.proppant 1,
          Call.flow 1, Call.proppant 1] ∧
    Option.map Result.dtReturn (SolverStep (exampleSolver 0) 20 2 0) = some 1 :=
  ⟨rfl, rfl, rfl, rfl⟩

end FlowProppantTransportSolver

end geosx
